import Mathlib

/-!
# Simulation-harness synthesis of `promise`

A shallow embedding of `lib/Simulation/VerilatorUtils.cpp`: the bit-vector
codec (`dumpBitSetMSBOrder`, `dumpSlice`, `dumpVerilatorWideNumberAssignment`)
and the two test-bench generators (`createRandomTestBench`,
`createCexTestBench`), followed by theorems about them.

Conventions of the embedding.

* A `boost::dynamic_bitset<>` is a `List Bool`, index 0 being the least
  significant bit.
* `int` is 32-bit two's complement, `unsigned` is 32 bits and `size_t` is 64
  bits; every conversion and every arithmetic step that can leave the range is
  wrapped explicitly (`toInt32`, `toUnsigned`, `toSizeT`).
* `assert` is active.  A failed `assert`, and a read of a container outside its
  bounds (which `boost::dynamic_bitset::operator[]` asserts against), stop the
  call; the result then carries what had been written to the stream so far.
* A text stream is a `String`; `os << x` appends.
-/

namespace Promise

/-! ## Machine integers -/

/-- Value of an integer after conversion to `int` (32-bit two's complement):
the residue modulo `2^32`, taken in `-2^31 .. 2^31 - 1`. -/
def toInt32 (z : Int) : Int :=
  if 2147483648 ≤ z % 4294967296 then z % 4294967296 - 4294967296 else z % 4294967296

/-- Value of an integer after conversion to `unsigned` (32 bits). -/
def toUnsigned (z : Int) : Nat := (z % 4294967296).toNat

/-- Value of an integer after conversion to `size_t` (64 bits). -/
def toSizeT (z : Int) : Nat := (z % 18446744073709551616).toNat

/-! ## Outcome of a call that writes to a stream -/

/-- Why a call stopped before returning. -/
inductive Fault where
  /-- An `assert` of the translated file failed. -/
  | assertion
  /-- A container was read outside its bounds with `operator[]`.  C++ leaves
  that undefined; the embedding stops the call there and says no more of it. -/
  | outOfRange
  /-- The output file could not be opened (`std::runtime_error`). -/
  | openFailed
  /-- No input port name contains `clk` (`std::runtime_error`). -/
  | missingClock
  /-- No input port name contains `rst` (`std::runtime_error`). -/
  | missingReset
  /-- The trace has no entry for an input (`std::out_of_range` of `at`). -/
  | missingKey
  deriving DecidableEq, Repr

/-- Outcome of a call writing to a stream of type `σ`: it returned, or it
stopped on a fault; in both cases `os` is the stream as the call left it. -/
inductive Emit (σ : Type) where
  | ok (os : σ)
  | abort (why : Fault) (os : σ)
  deriving DecidableEq, Repr

/-- Whether the fault is a C++ exception.  An exception that a caller handles
leaves the call by unwinding the stack, so a `std::ofstream` of the call is
closed with everything that was written to it.  A failed `assert` and an
undefined read stop the program instead, and output that is still buffered is
lost. -/
def Fault.isException : Fault → Bool
  | .openFailed => true
  | .missingClock => true
  | .missingReset => true
  | .missingKey => true
  | .assertion => false
  | .outOfRange => false

/-- The file behind the `std::ofstream` of a generator once the call is over,
where the language fixes it: after a return and after an exception that a
caller handles it holds the stream (`some none`: there is no stream, the file
was never opened); `none` when the program was stopped, for then it is not
fixed how much of the stream has reached the file. -/
def Emit.file {σ : Type} : Emit (Option σ) → Option (Option σ)
  | .ok os => some os
  | .abort why os => if why.isException then some os else none

/-! ## Bit-vector codec -/

/-- Text of `os << b` for a `bool`. -/
def bitChar (b : Bool) : Char := if b then '1' else '0'

/-- Read `bits[pos]` for an `int` position: the index is converted to `size_t`,
and a read outside `0 .. size-1` yields `none`. -/
def bitAt (bits : List Bool) (pos : Int) : Option Bool :=
  bits.get? (toSizeT pos)

/-- The loop `for (int pos = start; pos >= lo; --pos) os << bits[pos];` shared by
`dumpBitSetMSBOrder` and `dumpSlice`.  Every completed iteration reads a
different position of `bits`, so `bits.length + 1` units of fuel are never used
up; the fuel only makes the recursion structural. -/
def dumpDown (bits : List Bool) (lo : Int) : Nat → Int → String → Emit String
  | 0, _, os => .abort .outOfRange os
  | fuel + 1, pos, os =>
    if pos ≥ lo then
      match bitAt bits pos with
      | some b => dumpDown bits lo fuel (toInt32 (pos - 1)) (os.push (bitChar b))
      | none => .abort .outOfRange os
    else .ok os

/-- Embedding of `dumpBitSetMSBOrder(bits, os)`: writes `0b` and then the bits
from the most significant one down to bit 0. -/
def dumpBitSetMSBOrder (bits : List Bool) (os : String) : Emit String :=
  dumpDown bits 0 (bits.length + 1) (toInt32 (toSizeT ((bits.length : Int) - 1))) (os ++ "0b")

/-- Embedding of `dumpSlice(bits, os, msb, lsb)`; `msb` and `lsb` are `size_t`
values.  The second assertion compares with `bits.size() - 1` computed in
`size_t`. -/
def dumpSlice (bits : List Bool) (os : String) (msb lsb : Nat) : Emit String :=
  if ¬ (msb ≥ lsb) then .abort .assertion os
  else if ¬ (msb ≤ toSizeT ((bits.length : Int) - 1)) then .abort .assertion os
  else dumpDown bits (toInt32 lsb) (bits.length + 1) (toInt32 msb) (os ++ "0b")

/-- The `int chunks = (bits.size() / 32) + ((bits.size() % 32) > 0)` of
`dumpVerilatorWideNumberAssignment`. -/
def wideChunks (bits : List Bool) : Int :=
  toInt32 (((bits.length / 32 + (if bits.length % 32 > 0 then 1 else 0) : Nat) : Int))

/-- The loop `for (int i = 0; i < chunks; i++) { ... }` of
`dumpVerilatorWideNumberAssignment`, from the iteration with index `i` on.
The loop runs `chunks` times at most, so `chunks + 1` units of fuel are never
used up. -/
def wideLoop (bits : List Bool) (symbolName : String) (chunks : Int) :
    Nat → Int → String → Emit String
  | 0, _, os => .abort .outOfRange os
  | fuel + 1, i, os =>
    if i < chunks then
      let os1 := os ++ symbolName ++ "[" ++ toString i ++ "] = "
      let lsb : Nat := toSizeT (toInt32 (32 * i))
      let msb : Nat := toSizeT (min (toInt32 (toInt32 (32 * toInt32 (i + 1)) - 1))
        (toInt32 (toInt32 (bits.length : Int) - 1)))
      if ¬ ((1 + msb + 18446744073709551616 - lsb) % 18446744073709551616 ≤ 32) then
        .abort .assertion os1
      else if ¬ (¬ (i < toInt32 (chunks - 1)) ∨
          (msb + 18446744073709551616 - lsb + 1) % 18446744073709551616 = 32) then
        .abort .assertion os1
      else
        match dumpSlice bits os1 msb lsb with
        | .ok os2 => wideLoop bits symbolName chunks fuel (toInt32 (i + 1)) (os2 ++ ";\n")
        | .abort why os2 => .abort why os2
    else .ok os

/-- Embedding of `dumpVerilatorWideNumberAssignment(bits, os, symbolName)`.  The
stream is in decimal mode, as it is at the only call site. -/
def dumpVerilatorWideNumberAssignment (bits : List Bool) (os : String)
    (symbolName : String) : Emit String :=
  wideLoop bits symbolName (wideChunks bits) ((wideChunks bits).toNat + 1) 0 os

/-! ## Circuit model and trace -/

/-- The fields of an `RTLIL::Wire` that the generators read. -/
structure Wire where
  name : String
  width : Nat
  port_input : Bool
  deriving DecidableEq, Repr

/-- The fields of an `RTLIL::Module` that the generators read; `wires` is the
sequence that `module->wires()` iterates over. -/
structure Module where
  name : String
  wires : List Wire
  deriving DecidableEq, Repr

/-- The fields of a `ModelCheckingResult` that `createCexTestBench` reads:
the number of recorded states and, per input name, the recorded values. -/
structure ModelCheckingResult where
  numCexStates : Nat
  inputValues : List (String × List (List Bool))
  deriving DecidableEq, Repr

/-- Yosys `log_id`: the name without its leading backslash, unless the
backslash is followed by `$`, a backslash, a digit or nothing. -/
def log_id (name : String) : String :=
  match name.data with
  | '\\' :: c :: rest =>
    if c = '$' ∨ c = '\\' ∨ ('0' ≤ c ∧ c ≤ '9') then name else String.mk (c :: rest)
  | _ => name

/-- Whether `pat` occurs in the character sequence. -/
def hasSubstr (pat : List Char) : List Char → Bool
  | [] => pat.isEmpty
  | c :: cs => pat.isPrefixOf (c :: cs) || hasSubstr pat cs

/-- The test `sigName.find(pat) != std::string::npos`. -/
def found (sigName pat : String) : Bool := hasSubstr pat.data sigName.data

/-- Modelled from the spec: `getSortedInput` is declared in
`promise/RTLIL/RTLILUtils.h` and its body is not among the sources; the spec
has the data inputs be the input ports in their declared order. -/
def getSortedInput (module : Module) : List Wire :=
  module.wires.filter (fun w => w.port_input)

/-! ## Emitted harness

The generators write the harness line by line.  The embedding keeps each
written line as a statement; `Item.render` gives back the text. -/

/-- Lower-case hexadecimal text of a natural number (`os << std::hex << n`). -/
def hexText (n : Nat) : String := String.mk (Nat.toDigits 16 n)

/-- One emitted statement. -/
inductive Stmt where
  /-- Text written as is: includes, set-up and tear-down lines, comments. -/
  | verbatim (text : String)
  /-- The line `top-><port> = 0;` or `top-><port> = 1;`. -/
  | setPort (port : String) (value : Bool)
  /-- The line `top-><port> = !top-><port>;`. -/
  | toggle (port : String)
  /-- The line `top->eval();`. -/
  | eval
  /-- The line `tfp->dump(<frame>);`. -/
  | dump (frame : Nat)
  /-- The line `tfp->dump(i);` of the random harness loop. -/
  | dumpIndex
  /-- The line `top-><port> = <value>;` with `value` written by
  `dumpBitSetMSBOrder`. -/
  | assign (port : String) (value : String)
  /-- The lines written by one call of `dumpVerilatorWideNumberAssignment`
  for `top-><port>`. -/
  | assignWide (port : String) (text : String)
  /-- The line `top-><port> = randomEngine() & 0x<mask>;`. -/
  | randomMasked (port : String) (mask : Nat)
  /-- The line `top-><port>[<index>]  = randomEngine();`; `hex` tells whether
  the stream was in hexadecimal mode when the index was written. -/
  | randomWord (port : String) (index : Int) (hex : Bool)
  deriving DecidableEq, Repr

/-- A statement, or the block `if (!top-><port>){ ... }`. -/
inductive Block where
  | stmt (s : Stmt)
  | ifLow (port : String) (body : List Stmt)
  deriving DecidableEq, Repr

/-- A block, or the loop `for (size_t i = 1; i < <bound>; ++i) { ... }`. -/
inductive Item where
  | block (b : Block)
  | forLoop (bound : Nat) (body : List Block)
  deriving DecidableEq, Repr

/-- A single statement at the top level of `main`. -/
def Item.line (s : Stmt) : Item := .block (.stmt s)

/-- Text of a statement written with the given indentation. -/
def Stmt.render (indent : String) : Stmt → String
  | .verbatim text => text
  | .setPort port value => indent ++ "top->" ++ port ++ " = " ++ (if value then "1" else "0") ++ ";\n"
  | .toggle port => indent ++ "top->" ++ port ++ " = !top->" ++ port ++ ";\n"
  | .eval => indent ++ "top->eval();\n"
  | .dump frame => indent ++ "tfp->dump(" ++ toString frame ++ ");\n"
  | .dumpIndex => indent ++ "tfp->dump(i);\n"
  | .assign port value => indent ++ "top->" ++ port ++ " = " ++ value ++ ";\n"
  | .assignWide _ text => text
  | .randomMasked port mask =>
    indent ++ "top->" ++ port ++ " = randomEngine() & 0x" ++ hexText mask ++ ";\n"
  | .randomWord port index hex =>
    indent ++ "top->" ++ port ++ "[" ++
      (if hex then hexText (toUnsigned index) else toString index) ++ "]  = randomEngine();\n"

/-- Concatenation of the texts of a list. -/
def concat : List String → String
  | [] => ""
  | s :: rest => s ++ concat rest

/-- Text of a block inside the loop of the random harness. -/
def Block.render (indent : String) : Block → String
  | .stmt s => s.render indent
  | .ifLow port body =>
    indent ++ "if (!top->" ++ port ++ ")\x7b\n" ++
      concat (body.map (Stmt.render (indent ++ "  "))) ++ indent ++ "\x7d\n"

/-- Text of a top-level item of `main`. -/
def Item.render : Item → String
  | .block b => b.render "  "
  | .forLoop bound body =>
    "  for (size_t i = 1; i < " ++ toString bound ++ "; ++i) \x7b\n" ++
      concat (body.map (Block.render "    ")) ++ "  \x7d\n"

/-- Text of a harness file. -/
def renderFile (file : List Item) : String := concat (file.map Item.render)

/-! ## Random-stimulus harness -/

/-- The `int` expression `1 << n`.  For `n ≥ 32` C++ leaves the value
undefined; `undef` stands for what the platform computes there. -/
def shl1 (undef : Int) (n : Nat) : Int :=
  if n < 32 then toInt32 (2 ^ n) else undef

/-- The `size_t mask = (1 << inputSig->width) - 1` of `createRandomTestBench`. -/
def randomMask (undef : Int) (width : Nat) : Nat :=
  toSizeT (toInt32 (shl1 undef width - 1))

/-- The clock and reset search of `createRandomTestBench`: one step of the loop
over `module->wires()`, on the pair `(clk, rst)`. -/
def scanClkRst (acc : String × String) (input : Wire) : String × String :=
  if input.port_input then
    (if found input.name "clk" then log_id input.name else acc.1,
     if found input.name "rst" then log_id input.name else acc.2)
  else acc

/-- The clock search of `createCexTestBench`: one step of the loop over
`module->wires()`. -/
def scanClk (clk : String) (input : Wire) : String :=
  if input.port_input then
    (if found input.name "clk" then log_id input.name else clk)
  else clk

/-- One step of the loop over `module->wires()` that fills the negedge block of
the random harness.  The state is the stream mode (`true` once `std::hex` has
been written, which stays in force) and the statements written so far. -/
def randomFill (undef : Int) (clk rst : String) (st : Bool × List Stmt) (inputSig : Wire) :
    Bool × List Stmt :=
  if inputSig.port_input ∧ log_id inputSig.name ≠ clk ∧ log_id inputSig.name ≠ rst then
    if inputSig.width ≤ 32 then
      (true, st.2 ++ [Stmt.randomMasked (log_id inputSig.name) (randomMask undef inputSig.width)])
    else
      (st.1, st.2 ++ (List.range (inputSig.width / 32 + (if inputSig.width % 32 ≠ 0 then 1 else 0))).map
        (fun (i : Nat) => Stmt.randomWord (log_id inputSig.name) (i : Int) st.1))
  else st

/-- The lines of the random harness before the reset pulse. -/
def randomHeader (topName vcdFileName : String) (seed : Nat) : List Item :=
  [ Item.line (.verbatim ("#include \"V" ++ topName ++ ".h\"\n")),
    Item.line (.verbatim "#include \"verilated.h\"\n"),
    Item.line (.verbatim "#include \"verilated_vcd_c.h\"\n"),
    Item.line (.verbatim "#include <cstdlib>\n"),
    Item.line (.verbatim "#include <ctime>\n\n"),
    Item.line (.verbatim "#include <random>\n\n"),
    Item.line (.verbatim "int main (int argc, char** argv, char**env) \x7b\n"),
    Item.line (.verbatim ("  std::mt19937 randomEngine(" ++ toString seed ++ ");\n")),
    Item.line (.verbatim "  Verilated::commandArgs(argc, argv);\n"),
    Item.line (.verbatim ("  V" ++ topName ++ "* top = new V" ++ topName ++ ";\n")),
    Item.line (.verbatim "  VerilatedVcdC * tfp = new VerilatedVcdC;\n"),
    Item.line (.verbatim "  Verilated::traceEverOn(true);\n"),
    Item.line (.verbatim "  top->trace(tfp, 99);\n"),
    Item.line (.verbatim ("  tfp->open(\"" ++ vcdFileName ++ "\");\n")),
    Item.line (.verbatim "  std::srand(std::time(nullptr));\n") ]

/-- The closing lines of both harnesses. -/
def footer : List Item :=
  [ Item.line (.verbatim "  tfp->close();\n"),
    Item.line (.verbatim "  delete top;\n"),
    Item.line (.verbatim "  return 0;\n"),
    Item.line (.verbatim "\x7d\n") ]

/-- Embedding of `createRandomTestBench`.  `canOpen` tells whether the output
file can be opened for writing; the stream of the result is what the call has
written to the `std::ofstream` of that file (`none` when it was never opened,
and so neither created nor truncated), and `Emit.file` tells when the file
holds it.  `simCycles` and `seed` are `unsigned` values. -/
def createRandomTestBench (canOpen : Bool) (undef : Int) (module : Module) (simCycles : Nat)
    (vcdFileName : String) (seed : Nat) : Emit (Option (List Item)) :=
  if ¬ canOpen then .abort .openFailed none
  else
    let topName := log_id module.name
    let clk := (module.wires.foldl scanClkRst ("", "")).1
    let rst := (module.wires.foldl scanClkRst ("", "")).2
    if clk = "" then .abort .missingClock (some [])
    else if rst = "" then .abort .missingReset (some [])
    else
      .ok (some (randomHeader topName vcdFileName seed ++
        [ Item.line (.setPort rst true),
          Item.line (.setPort clk false),
          Item.line .eval,
          Item.line (.dump 0),
          Item.line (.setPort rst false),
          Item.forLoop (toUnsigned (2 * (simCycles : Int)))
            [ Block.stmt (.toggle clk),
              Block.stmt (.verbatim "    // Update signal on the negedge\n"),
              Block.ifLow clk (module.wires.foldl (randomFill undef clk rst) (false, [])).2,
              Block.stmt .eval,
              Block.stmt .dumpIndex ] ] ++ footer))

/-! ## Counterexample-replay harness -/

/-- The lines of the replay harness up to the first dump. -/
def cexHeader (topName vcdFileName clk : String) : List Item :=
  [ Item.line (.verbatim ("#include \"V" ++ topName ++ ".h\"\n")),
    Item.line (.verbatim "#include \"verilated.h\"\n"),
    Item.line (.verbatim "#include \"verilated_vcd_c.h\"\n"),
    Item.line (.verbatim "#include <cstdlib>\n"),
    Item.line (.verbatim "#include <ctime>\n\n"),
    Item.line (.verbatim "int main (int argc, char** argv, char**env) \x7b\n"),
    Item.line (.verbatim "  Verilated::commandArgs(argc, argv);\n"),
    Item.line (.verbatim ("  V" ++ topName ++ "* top = new V" ++ topName ++ ";\n")),
    Item.line (.verbatim "  VerilatedVcdC * tfp = new VerilatedVcdC;\n"),
    Item.line (.verbatim "  Verilated::traceEverOn(true);\n"),
    Item.line (.verbatim "  top->trace(tfp, 99);\n"),
    Item.line (.verbatim ("  tfp->open(\"" ++ vcdFileName ++ "\");\n")),
    Item.line (.verbatim "  std::srand(std::time(nullptr));\n"),
    Item.line (.setPort clk true),
    Item.line .eval,
    Item.line (.dump 0) ]

/-- The branch `inputSig->width <= 32` of the input loop of `createCexTestBench`
once the value `val` has been read: the line `  top-><port> = <value>;` with the
value written by `dumpBitSetMSBOrder`. -/
def cexNarrow (inputSig : Wire) (val : List Bool) (os : List Item) : Emit (List Item) :=
  match dumpBitSetMSBOrder val "" with
  | .ok value => .ok (os ++ [Item.line (.assign (log_id inputSig.name) value)])
  | .abort why partialText =>
    .abort why (os ++ [Item.line (.verbatim ("  top->" ++ log_id inputSig.name ++ " = " ++ partialText))])

/-- The branch for a port of more than 32 bits once the value `val` has been
read: the call `dumpVerilatorWideNumberAssignment(val, os, symbolName)` with
`symbolName = "top->" + log_id(inputSig)`. -/
def cexWide (inputSig : Wire) (val : List Bool) (os : List Item) : Emit (List Item) :=
  match dumpVerilatorWideNumberAssignment val "" ("top->" ++ log_id inputSig.name) with
  | .ok text => .ok (os ++ [Item.line (.assignWide (log_id inputSig.name) text)])
  | .abort why partialText => .abort why (os ++ [Item.line (.verbatim partialText)])

/-- The body of the loop `for (const auto &inputSig : inputWires) { ... }` of
`createCexTestBench` for the state with index `i`, on the statements `os`
written so far.  `cex.inputValues.at(name)` throws when the trace has no entry
for the port.  The value is then read with `...[i]`, for every width and before
any check: beyond the recorded values that read is undefined.  The
`assert(i < ....size())` of the branch for at most 32 bits comes after it. -/
def cexInput (clk : String) (cex : ModelCheckingResult) (i : Nat) (inputSig : Wire)
    (os : List Item) : Emit (List Item) :=
  if ¬ inputSig.port_input then .abort .assertion os
  else if log_id inputSig.name ≠ clk then
    match cex.inputValues.lookup inputSig.name with
    | none => .abort .missingKey os
    | some values =>
      match values.get? i with
      | none => .abort .outOfRange os
      | some val =>
        if inputSig.width ≤ 32 then
          if ¬ (i < values.length) then .abort .assertion os
          else cexNarrow inputSig val os
        else cexWide inputSig val os
  else .ok os

/-- The loop `for (const auto &inputSig : inputWires) { ... }` of
`createCexTestBench` for the state with index `i`. -/
def cexInputs (clk : String) (cex : ModelCheckingResult) (i : Nat) :
    List Wire → List Item → Emit (List Item)
  | [], os => .ok os
  | inputSig :: rest, os =>
    match cexInput clk cex i inputSig os with
    | .ok os1 => cexInputs clk cex i rest os1
    | .abort why os1 => .abort why os1

/-- The loop `for (unsigned i = 0; i < cex.numCexStates; i += 1) { ... }` of
`createCexTestBench`, from the state with index `i` on, for `remaining` more
states. -/
def cexStates (clk : String) (cex : ModelCheckingResult) (inputWires : List Wire) :
    Nat → Nat → List Item → Emit (List Item)
  | 0, _, os => .ok os
  | remaining + 1, i, os =>
    let os1 := os ++
      [ Item.line (.verbatim ("  // <===== Cex of state =====>" ++ toString i ++ "\n")),
        Item.line (.verbatim "  // Falling clock edge:\n"),
        Item.line (.toggle clk) ]
    match cexInputs clk cex i inputWires os1 with
    | .abort why os2 => .abort why os2
    | .ok os2 =>
      cexStates clk cex inputWires remaining (i + 1) (os2 ++
        [ Item.line .eval,
          Item.line (.verbatim ("  // Dumping state " ++ toString i ++ "\n")),
          Item.line (.dump (toUnsigned (2 * (i : Int) + 1))),
          Item.line (.verbatim "  // Rising clock edge:\n"),
          Item.line (.toggle clk),
          Item.line .eval,
          Item.line (.dump (toUnsigned (2 * (i : Int) + 2))) ])

/-- Embedding of `createCexTestBench`.  `canOpen` tells whether the output file
can be opened for writing; the stream of the result is what the call has
written to the `std::ofstream` of that file (`none` when it was never opened),
and `Emit.file` tells when the file holds it.  `cex.numCexStates` is an
`unsigned` value. -/
def createCexTestBench (canOpen : Bool) (module : Module) (cex : ModelCheckingResult)
    (vcdFileName : String) : Emit (Option (List Item)) :=
  if ¬ canOpen then .abort .openFailed none
  else
    let topName := log_id module.name
    let clk := module.wires.foldl scanClk ""
    let inputWires := getSortedInput module
    if clk = "" then .abort .missingClock (some [])
    else
      let os := cexHeader topName vcdFileName clk
      if ¬ (cex.numCexStates > 0) then .abort .assertion (some os)
      else
        match cexStates clk cex inputWires cex.numCexStates 0 os with
        | .abort why os1 => .abort why (some os1)
        | .ok os1 => .ok (some (os1 ++ footer))

/-! ## Vocabulary of the specification -/

/-- The binary digits of the bits `lsb .. msb` of `bits`, most significant
first. -/
def sliceDigits (bits : List Bool) (lsb msb : Nat) : List Char :=
  (((bits.drop lsb).take (msb + 1 - lsb)).reverse).map bitChar

/-- Reading of one binary digit. -/
def parseDigit (c : Char) : Option Bool :=
  if c = '0' then some false else if c = '1' then some true else none

/-- Reading of a sequence of binary digits, in the order written. -/
def parseDigits : List Char → Option (List Bool)
  | [] => some []
  | c :: cs =>
    match parseDigit c, parseDigits cs with
    | some b, some bs => some (b :: bs)
    | _, _ => none

/-- Reading of a big-endian bit string: every character is a binary digit and
the last one is bit 0.  The result has one bit per digit, leading zeros
included. -/
def parseBigEndian (digits : List Char) : Option (List Bool) :=
  (parseDigits digits).map List.reverse

/-- Reading of a chunked value, least significant chunk first: chunk 0 gives
the lowest bits, the next chunk the bits above them, and so on. -/
def decodeChunks : List (List Char) → Option (List Bool)
  | [] => some []
  | chunk :: rest =>
    match parseBigEndian chunk, decodeChunks rest with
    | some low, some high => some (low ++ high)
    | _, _ => none

/-- The text `symbolName[i] = value;` of one word assignment. -/
def wordAssignment (symbolName : String) (i : Nat) (value : String) : String :=
  symbolName ++ "[" ++ toString i ++ "] = " ++ value ++ ";\n"

/-- The word assignments to `symbolName[first]`, `symbolName[first + 1]`, ...
of the given digit strings, each written as a binary literal. -/
def wordAssignments (symbolName : String) : Nat → List (List Char) → List String
  | _, [] => []
  | first, digits :: rest =>
    wordAssignment symbolName first ("0b" ++ String.mk digits) ::
      wordAssignments symbolName (first + 1) rest

/-- The digits of word `i` of `bits`: bits `32 * i` up to
`min (32 * i + 31) (width - 1)`, most significant first. -/
def chunkDigits (bits : List Bool) (i : Nat) : List Char :=
  sliceDigits bits (32 * i) (min (32 * i + 31) (bits.length - 1))

/-- The statement for word `i` of `bits`. -/
def chunkText (bits : List Bool) (symbolName : String) (i : Nat) : String :=
  wordAssignment symbolName i ("0b" ++ String.mk (chunkDigits bits i))

/-! ## Reading a harness statically -/

/-- Whether the item is a waveform-dump call with a literal frame number. -/
def Item.isDump : Item → Bool
  | .block (.stmt (.dump _)) => true
  | _ => false

/-- Whether the item toggles the port `clk`. -/
def Item.isToggleOf (clk : String) : Item → Bool
  | .block (.stmt (.toggle port)) => port == clk
  | _ => false

/-- Whether the item is text without a counterpart among the statements the
specification speaks of (a comment, an include, set-up or tear-down). -/
def Item.isVerbatim : Item → Bool
  | .block (.stmt (.verbatim _)) => true
  | _ => false

/-- Number of waveform-dump calls in a straight-line harness. -/
def dumpCalls (file : List Item) : Nat := file.countP Item.isDump

/-- Scan of a straight-line harness that reports, at every dump call but the
first, how many toggles of `clk` were written since the previous dump call.
`since` is that number so far (`none` before the first dump call). -/
def togglesBetweenDumps (clk : String) : List Item → Option Nat → List Nat
  | [], _ => []
  | item :: rest, since =>
    if item.isDump then
      (match since with
        | some n => [n]
        | none => []) ++ togglesBetweenDumps clk rest (some 0)
    else if item.isToggleOf clk then
      togglesBetweenDumps clk rest (since.map (· + 1))
    else togglesBetweenDumps clk rest since

/-- The invariant of a counterexample trace for a circuit whose clock is `clk`:
there is at least one recorded state, and every input port other than the clock
has exactly `numCexStates` recorded values, each as wide as the port. -/
def validTrace (module : Module) (clk : String) (cex : ModelCheckingResult) : Bool :=
  decide (0 < cex.numCexStates) &&
  (getSortedInput module).all (fun w =>
    log_id w.name == clk ||
    match cex.inputValues.lookup w.name with
    | some values =>
      values.length == cex.numCexStates && values.all (fun v => v.length == w.width)
    | none => false)

/-! ## Executing a harness

The harness is a C++ program over the ports of the simulated model.  Executing
it is modelled on the one-bit values that the harness drives with constants and
toggles; a port written with trace data or with a random number holds an
unknown value from then on.  Execution gives up (`none`) when a condition
depends on an unknown value. -/

/-- What the execution of a harness does, in order. -/
inductive Event where
  /-- A port was driven with a constant. -/
  | set (port : String) (value : Bool)
  /-- A port was inverted; `value` is its new value when known. -/
  | toggle (port : String) (value : Option Bool)
  | eval
  | dump (frame : Nat)
  /-- A port was written with recorded data. -/
  | assign (port : String) (value : String)
  /-- A port was written with a masked random number. -/
  | random (port : String) (mask : Nat)
  /-- A word of a port was written with a random number. -/
  | randomWord (port : String) (index : Int)
  deriving DecidableEq, Repr

/-- State of an execution: known port values and the events so far. -/
structure Machine where
  env : String → Option Bool
  log : List Event

/-- Write `value` to `port` and record the event. -/
def Machine.write (m : Machine) (port : String) (value : Option Bool) (e : Event) : Machine :=
  ⟨fun p => if p = port then value else m.env p, m.log ++ [e]⟩

/-- Record an event that changes no port. -/
def Machine.note (m : Machine) (e : Event) : Machine := ⟨m.env, m.log ++ [e]⟩

/-- Execution of one statement; `i` is the value of the loop variable. -/
def Stmt.exec (i : Nat) : Stmt → Machine → Machine
  | .verbatim _, m => m
  | .setPort port value, m => m.write port (some value) (.set port value)
  | .toggle port, m =>
    m.write port ((m.env port).map not) (.toggle port ((m.env port).map not))
  | .eval, m => m.note .eval
  | .dump frame, m => m.note (.dump frame)
  | .dumpIndex, m => m.note (.dump i)
  | .assign port value, m => m.write port none (.assign port value)
  | .assignWide port text, m => m.write port none (.assign port text)
  | .randomMasked port mask, m => m.write port none (.random port mask)
  | .randomWord port index _, m => m.write port none (.randomWord port index)

/-- Execution of a statement sequence. -/
def execStmts (i : Nat) (body : List Stmt) (m : Machine) : Machine :=
  body.foldl (fun m s => s.exec i m) m

/-- Execution of a block: the body of `if (!top->port)` runs when the port is
low. -/
def Block.exec (i : Nat) : Block → Machine → Option Machine
  | .stmt s, m => some (s.exec i m)
  | .ifLow port body, m =>
    match m.env port with
    | some false => some (execStmts i body m)
    | some true => some m
    | none => none

/-- Execution of a block sequence. -/
def execBlocks (i : Nat) : List Block → Machine → Option Machine
  | [], m => some m
  | b :: rest, m =>
    match b.exec i m with
    | some m1 => execBlocks i rest m1
    | none => none

/-- Execution of `for (size_t i = ...; i < bound; ++i) body` from the given
value of `i`.  The loop has fewer than `bound` iterations, so `bound + 1` units
of fuel are never used up. -/
def execLoop (bound : Nat) (body : List Block) : Nat → Nat → Machine → Option Machine
  | 0, _, _ => none
  | fuel + 1, i, m =>
    if i < bound then
      match execBlocks i body m with
      | some m1 => execLoop bound body fuel (i + 1) m1
      | none => none
    else some m

/-- Execution of a top-level item. -/
def Item.exec : Item → Machine → Option Machine
  | .block b, m => b.exec 0 m
  | .forLoop bound body, m => execLoop bound body (bound + 1) 1 m

/-- Execution of a harness from the given state. -/
def execFile : List Item → Machine → Option Machine
  | [], m => some m
  | item :: rest, m =>
    match item.exec m with
    | some m1 => execFile rest m1
    | none => none

/-- The events of executing a harness from the state in which no port value is
known. -/
def run (file : List Item) : Option (List Event) :=
  (execFile file ⟨fun _ => none, []⟩).map (fun m => m.log)

/-- Whether the event writes a random number to `port`. -/
def Event.randomises (port : String) : Event → Bool
  | .random p _ => p == port
  | .randomWord p _ => p == port
  | _ => false

/-- Whether the event is a toggle of `port`. -/
def Event.isToggleOf (port : String) : Event → Bool
  | .toggle p _ => p == port
  | _ => false

/-- Whether the wire is a data input of the random harness for the given clock
and reset names: an input port that is neither of them. -/
def Wire.isData (clk rst : String) (w : Wire) : Bool :=
  w.port_input && log_id w.name != clk && log_id w.name != rst

/-! ## The replay harness as the specification lays it out -/

/-- The value recorded for the wire `w` in state `i` (empty when absent). -/
def recordedValue (cex : ModelCheckingResult) (i : Nat) (w : Wire) : List Bool :=
  ((cex.inputValues.lookup w.name).getD []).getD i []

/-- The assignment of the recorded value of state `i` to the input `w`: one
binary literal for a port of at most 32 bits, the word assignments of
`top->w[0]`, `top->w[1]`, ... otherwise. -/
def replayAssign (cex : ModelCheckingResult) (i : Nat) (w : Wire) : Item :=
  if w.width ≤ 32 then
    Item.line (.assign (log_id w.name)
      ("0b" ++ String.mk (((recordedValue cex i w).reverse).map bitChar)))
  else
    Item.line (.assignWide (log_id w.name)
      (concat ((List.range' 0 (((recordedValue cex i w).length + 31) / 32)).map
        (chunkText (recordedValue cex i w) ("top->" ++ log_id w.name)))))

/-- The inputs that the replay harness drives: the input ports other than the
clock, in declared order. -/
def replayInputs (clk : String) (inputWires : List Wire) : List Wire :=
  inputWires.filter (fun w => log_id w.name != clk)

/-- The lines of the replay harness for state `i`. -/
def replayState (clk : String) (cex : ModelCheckingResult) (inputWires : List Wire) (i : Nat) :
    List Item :=
  [ Item.line (.verbatim ("  // <===== Cex of state =====>" ++ toString i ++ "\n")),
    Item.line (.verbatim "  // Falling clock edge:\n"),
    Item.line (.toggle clk) ] ++
  (replayInputs clk inputWires).map (replayAssign cex i) ++
  [ Item.line .eval,
    Item.line (.verbatim ("  // Dumping state " ++ toString i ++ "\n")),
    Item.line (.dump (toUnsigned (2 * (i : Int) + 1))),
    Item.line (.verbatim "  // Rising clock edge:\n"),
    Item.line (.toggle clk),
    Item.line .eval,
    Item.line (.dump (toUnsigned (2 * (i : Int) + 2))) ]

/-- The lines of the states `first`, `first + 1`, ..., `count` of them. -/
def replayStates (clk : String) (cex : ModelCheckingResult) (inputWires : List Wire) :
    Nat → Nat → List Item
  | _, 0 => []
  | first, count + 1 =>
    replayState clk cex inputWires first ++ replayStates clk cex inputWires (first + 1) count

/-- The conditions under which the input loop of the replay harness runs
through for state `i`: every wire is an input and every one of them other than
the clock has a value recorded for state `i`, of a width below `2^31`. -/
def Replayable (clk : String) (cex : ModelCheckingResult) (i : Nat) (ws : List Wire) : Prop :=
  ∀ w ∈ ws, w.port_input = true ∧ (log_id w.name ≠ clk →
    ∃ values val, cex.inputValues.lookup w.name = some values ∧ values.get? i = some val ∧
      val.length < 2147483648)

/-- The item assigns to the input `w` the value recorded for it in state `i`:
by a single `dumpBitSetMSBOrder` assignment when the port has at most 32 bits,
and otherwise by what `dumpVerilatorWideNumberAssignment` writes, which is the
`ceil(width/32)` word assignments of the value. -/
def AssignsRecorded (cex : ModelCheckingResult) (i : Nat) (w : Wire) (item : Item) : Prop :=
  ∃ values val, cex.inputValues.lookup w.name = some values ∧ values.get? i = some val ∧
    ((w.width ≤ 32 ∧ ∃ value, dumpBitSetMSBOrder val "" = .ok value ∧
        item = Item.line (.assign (log_id w.name) value)) ∨
     (32 < w.width ∧ ∃ stmts : List String,
        dumpVerilatorWideNumberAssignment val "" ("top->" ++ log_id w.name) = .ok (concat stmts) ∧
        stmts = (List.range ⌈(w.width : ℚ) / 32⌉₊).map (chunkText val ("top->" ++ log_id w.name)) ∧
        item = Item.line (.assignWide (log_id w.name) (concat stmts))))

/-- The stream as the call left it. -/
def Emit.stream {σ : Type} : Emit σ → σ
  | .ok os => os
  | .abort _ os => os

/-- Whether the call returned. -/
def Emit.returned {σ : Type} : Emit σ → Bool
  | .ok _ => true
  | .abort _ _ => false

/-- The circuit of the replay scenario of the specification: a clock and a
40-bit input `a`. -/
def replayCircuit : Module :=
  ⟨"\\top", [⟨"\\clk", 1, true⟩, ⟨"\\a", 40, true⟩, ⟨"\\y", 8, false⟩]⟩

/-- The trace of the replay scenario: two states, two recorded 40-bit values
of `a`. -/
def replayTrace : ModelCheckingResult :=
  ⟨2, [("\\a", [List.replicate 40 true, List.replicate 33 false ++ List.replicate 7 true])]⟩

/-! ## The random harness as the specification lays it out -/

/-- The reset pulse executed before the loop: reset asserted, clock low,
evaluate, dump frame 0, reset deasserted. -/
def resetPulse (clk rst : String) : List Event :=
  [.set rst true, .set clk false, .eval, .dump 0, .set rst false]

/-- The random writes of a statement sequence, in order. -/
def randomEvents : List Stmt → List Event
  | [] => []
  | .randomMasked port mask :: rest => .random port mask :: randomEvents rest
  | .randomWord port index _ :: rest => .randomWord port index :: randomEvents rest
  | _ :: rest => randomEvents rest

/-- Whether the statement writes a random number to a port other than `clk`. -/
def Stmt.fillsOther (clk : String) : Stmt → Bool
  | .randomMasked port _ => port != clk
  | .randomWord port _ _ => port != clk
  | _ => false

/-- The random writes to one wire at a falling edge: none unless it is a data
input; one masked write for a port of at most 32 bits; one write per 32-bit
word otherwise. -/
def wireEvents (undef : Int) (clk rst : String) (w : Wire) : List Event :=
  if w.isData clk rst then
    if w.width ≤ 32 then [Event.random (log_id w.name) (randomMask undef w.width)]
    else (List.range (w.width / 32 + (if w.width % 32 ≠ 0 then 1 else 0))).map
      (fun (i : Nat) => Event.randomWord (log_id w.name) (i : Int))
  else []

/-- The events of the loop iteration with index `i` when the clock was set low
before iteration 1: the toggle makes the clock high for odd `i` and low for
even `i`; the random writes happen when it is low. -/
def cycleEvents (clk : String) (writes : List Event) (i : Nat) : List Event :=
  Event.toggle clk (some (decide (i % 2 = 1))) ::
    ((if i % 2 = 0 then writes else []) ++ [Event.eval, Event.dump i])

/-- The circuit of the random scenario of the specification:
`clk: in 1, rst: in 1, x: in 8, y: out 8`. -/
def randomCircuit : Module :=
  ⟨"\\top", [⟨"\\clk", 1, true⟩, ⟨"\\rst", 1, true⟩, ⟨"\\x", 8, true⟩, ⟨"\\y", 8, false⟩]⟩

/-- A circuit with a 32-bit data input: `clk: in 1, rst: in 1, x: in 32`. -/
def mask32Circuit : Module :=
  ⟨"\\top", [⟨"\\clk", 1, true⟩, ⟨"\\rst", 1, true⟩, ⟨"\\x", 32, true⟩]⟩

/-! ## Port classification as the specification lays it out -/

/-- The input ports whose name contains `pat`, in the order of `wires`. -/
def matching (pat : String) (wires : List Wire) : List Wire :=
  wires.filter (fun w => w.port_input && found w.name pat)

/-- The port name that a statement refers to, if any. -/
def Stmt.port : Stmt → Option String
  | .setPort port _ => some port
  | .toggle port => some port
  | .assign port _ => some port
  | .assignWide port _ => some port
  | .randomMasked port _ => some port
  | .randomWord port _ _ => some port
  | _ => none

/-- The port names that a block refers to. -/
def Block.ports : Block → List String
  | .stmt s => s.port.toList
  | .ifLow port body => port :: body.filterMap Stmt.port

/-- The port names that a top-level item refers to. -/
def Item.ports : Item → List String
  | .block b => b.ports
  | .forLoop _ body => body.flatMap Block.ports

/-- A circuit with two inputs whose names contain `clk` and two whose names
contain `rst`. -/
def twoClockCircuit : Module :=
  ⟨"\\top", [⟨"\\clk_a", 1, true⟩, ⟨"\\rst_a", 1, true⟩, ⟨"\\clk_b", 1, true⟩,
    ⟨"\\rst_b", 1, true⟩, ⟨"\\x", 8, true⟩]⟩

/-- A circuit without a clock: `rst: in 1, x: in 8, y: out 8`. -/
def noClockCircuit : Module :=
  ⟨"\\top", [⟨"\\rst", 1, true⟩, ⟨"\\x", 8, true⟩, ⟨"\\y", 8, false⟩]⟩

/-- A trace for a circuit whose only data input is the 8-bit `x`: one state. -/
def oneStateTrace : ModelCheckingResult :=
  ⟨1, [("\\rst", [[false]]), ("\\x", [List.replicate 8 true])]⟩

/-- A trace without states. -/
def emptyTrace : ModelCheckingResult := ⟨0, []⟩

/-- The values of a bit in Yosys (`RTLIL::State`). -/
inductive State where
  | S0
  | S1
  | Sx
  | Sz
  | Sa
  | Sm
  deriving DecidableEq, Repr

/-- What `checkFFInitialized` reads of the flip-flop: the fields `name`, `width`
and `val_init` of its `FfData`, and the `src` attribute of the cell when it has
one. -/
structure FfData where
  name : String
  width : Nat
  val_init : List State
  src : Option String
  deriving DecidableEq, Repr

/-- The two lines that `checkFFInitialized` writes to `std::cerr` for a
flip-flop with an undefined bit; the second one only when the cell has a `src`
attribute. -/
def ffWarning (ffData : FfData) : String :=
  "Warning: " ++ log_id ffData.name ++ " has not been initialized!\n" ++
    (match ffData.src with
      | some src => "HDL src: " ++ src ++ "\n"
      | none => "")

/-- The loop `for (int bit = 0; bit < ffData.width; ++bit) { ... }` of
`checkFFInitialized` from the given bit on.  The result is the value returned
(`none` when `val_init[bit]` is read outside the vector) and the text written
to `std::cerr`.  The loop has `width` iterations at most, so `width + 1` units
of fuel are never used up. -/
def checkFFLoop (ffData : FfData) : Nat → Nat → Option Bool × String
  | 0, _ => (none, "")
  | fuel + 1, bit =>
    if bit < ffData.width then
      match ffData.val_init.get? bit with
      | none => (none, "")
      | some s =>
        if s ≠ State.S0 ∧ s ≠ State.S1 then (some false, ffWarning ffData)
        else checkFFLoop ffData fuel (bit + 1)
    else (some true, "")

/-- Embedding of `checkFFInitialized(module, ff)`, on the `FfData` that the
call builds from its arguments. -/
def checkFFInitialized (ffData : FfData) : Option Bool × String :=
  checkFFLoop ffData (ffData.width + 1) 0

/-- Whether a bit is a concrete 0 or 1. -/
def State.isConcrete (s : State) : Bool := s = State.S0 || s = State.S1

/-- A three-bit flip-flop whose bit 1 is undefined. -/
def undefinedFf : FfData := ⟨"\\q", 3, [State.S0, State.Sx, State.Sz], some "top.v:12"⟩

/-! ## Tool-chain invocation

A shallow embedding of `buildVerilatorModel`.  The shell is a function from
the command to the exit status and the output; paths are strings, written to a
stream between double quotes as `std::filesystem::path` is. -/

/-- Text of `os << p` for a `std::filesystem::path`: the path between double
quotes, with a backslash before every double quote and backslash in it. -/
def quoted (p : String) : String :=
  String.mk ((Char.ofNat 34) :: (p.data.flatMap (fun c =>
    if c = Char.ofNat 34 ∨ c = Char.ofNat 92 then [Char.ofNat 92, c] else [c])) ++
    [Char.ofNat 34])

/-- The command of stage one; `verilator` is the path
`PROMISE_BINARIES_DIR / "verilator"`. -/
def verilatorCommand (verilator objDir : String) (verilogSrcs : List String)
    (testbench topName : String) : String :=
  quoted verilator ++ " --trace -Mdir " ++ quoted objDir ++ " --cc " ++
    concat (verilogSrcs.map (fun src => " " ++ quoted src)) ++
    " --exe " ++ quoted testbench ++ " --trace-underscore" ++ " --Wno-UNOPTFLAT" ++
    " --top-module " ++ topName

/-- The command of stage two. -/
def makeCommand (objDir topName : String) : String :=
  "make -j8 -C " ++ quoted objDir ++ " -f V" ++ (topName ++ ".mk") ++ " V" ++ topName

/-- Outcome of `buildVerilatorModel`: the message of the exception thrown
(`none` when the call returned), the commands passed to the shell, in order,
and the text written to `std::cerr`. -/
structure BuildOutcome where
  error : Option String
  invoked : List String
  cerr : String
  deriving DecidableEq, Repr

/-- Embedding of `buildVerilatorModel(objDir, verilogSrcs, testbench,
topName)`. -/
def buildVerilatorModel (shell : String → Int × String) (verilator objDir : String)
    (verilogSrcs : List String) (testbench topName : String) : BuildOutcome :=
  let verilatorCmd := verilatorCommand verilator objDir verilogSrcs testbench topName
  if (shell verilatorCmd).1 ≠ 0 then
    ⟨some "Verilator compilation failed", [verilatorCmd],
      "Error: Verilator failed to compile the design.\n" ++ (shell verilatorCmd).2⟩
  else
    let makeCmd := makeCommand objDir topName
    ⟨none, [verilatorCmd, makeCmd], ""⟩

/-! ## Clock discipline of a replay as the specification lays it out -/

/-- The event of executing the assignment of the value recorded for the input
`w` in state `i`. -/
def replayWrite (cex : ModelCheckingResult) (i : Nat) (w : Wire) : Event :=
  Event.assign (log_id w.name)
    (if w.width ≤ 32 then "0b" ++ String.mk (((recordedValue cex i w).reverse).map bitChar)
     else concat ((List.range' 0 (((recordedValue cex i w).length + 31) / 32)).map
        (chunkText (recordedValue cex i w) ("top->" ++ log_id w.name))))

/-- The events of state `i` of a replay: the falling clock edge, the writes of
the inputs, evaluate, dump frame `2*i+1`, the rising clock edge, evaluate, dump
frame `2*i+2`. -/
def stateEvents (clk : String) (writes : List Event) (i : Nat) : List Event :=
  [Event.toggle clk (some false)] ++ writes ++
    [Event.eval, Event.dump (2 * i + 1), Event.toggle clk (some true), Event.eval,
      Event.dump (2 * i + 2)]

/-- Whether the event writes data to a port: recorded or random. -/
def Event.isWrite : Event → Bool
  | .assign _ _ => true
  | .random _ _ => true
  | .randomWord _ _ => true
  | _ => false

/-- The value of the port `clk` after the event, from its value before. -/
def Event.clockAfter (clk : String) (c : Option Bool) : Event → Option Bool
  | .set p v => if p = clk then some v else c
  | .toggle p v => if p = clk then v else c
  | .assign p _ => if p = clk then none else c
  | .random p _ => if p = clk then none else c
  | .randomWord p _ => if p = clk then none else c
  | _ => c

/-- Whether, after the event, the clock has risen with no dump since. -/
def Event.risenAfter (clk : String) (risen : Bool) : Event → Bool
  | .dump _ => false
  | .set p v => (p == clk && v) || risen
  | .toggle p v => (p == clk && v == some true) || risen
  | _ => risen

/-- Falling-edge injection along a sequence of events, simulating the value
`c` of the clock: every write of data happens while the clock is known to be
low, and none between a rising edge of the clock and the dump that follows it
(`risen`). -/
def fallingEdgeInjection (clk : String) : List Event → Option Bool → Bool → Bool
  | [], _, _ => true
  | e :: rest, c, risen =>
    (!e.isWrite || (c == some false && !risen)) &&
      fallingEdgeInjection clk rest (e.clockAfter clk c) (e.risenAfter clk risen)

/-! ## Wide ports -/

/-- A circuit with an 8-bit data input declared before a 352-bit one:
`clk: in 1, rst: in 1, x: in 8, w: in 352`. -/
def hexIndexCircuit : Module :=
  ⟨"\\top", [⟨"\\clk", 1, true⟩, ⟨"\\rst", 1, true⟩, ⟨"\\x", 8, true⟩, ⟨"\\w", 352, true⟩]⟩

/-- The same ports with the 352-bit input declared first:
`clk: in 1, rst: in 1, w: in 352, x: in 8`. -/
def decimalIndexCircuit : Module :=
  ⟨"\\top", [⟨"\\clk", 1, true⟩, ⟨"\\rst", 1, true⟩, ⟨"\\w", 352, true⟩, ⟨"\\x", 8, true⟩]⟩

/-- The `size_t lsb = 32 * i` of iteration `i` of
`dumpVerilatorWideNumberAssignment`. -/
def wideLsb (i : Int) : Nat := toSizeT (toInt32 (32 * i))

/-- The `size_t msb = min(32 * (i + 1) - 1, (int)bits.size() - 1)` of iteration
`i` of `dumpVerilatorWideNumberAssignment`. -/
def wideMsb (bits : List Bool) (i : Int) : Nat :=
  toSizeT (min (toInt32 (toInt32 (32 * toInt32 (i + 1)) - 1))
    (toInt32 (toInt32 (bits.length : Int) - 1)))

/-- Whether the statement writes a random number to `port`. -/
def Stmt.randomises (port : String) : Stmt → Bool
  | .randomMasked p _ => p == port
  | .randomWord p _ _ => p == port
  | _ => false

/-- A trace of one state for the circuit with two clocks. -/
def twoClockTrace : ModelCheckingResult :=
  ⟨1, [("\\clk_a", [[true]]), ("\\rst_a", [[false]]), ("\\rst_b", [[false]]),
    ("\\x", [List.replicate 8 true])]⟩

/-! # Theorems -/

/-! ## Machine integers -/

theorem toInt32_id (z : Int) (h1 : -2147483648 ≤ z) (h2 : z < 2147483648) : toInt32 z = z := by
  unfold toInt32; split <;> omega

theorem toSizeT_id (n : Nat) (h : n < 18446744073709551616) : toSizeT (n : Int) = n := by
  unfold toSizeT; omega

/-! ## Codec -/

theorem push_append_mk (os : String) (c : Char) (l : List Char) :
    os.push c ++ String.mk l = os ++ String.mk (c :: l) := by
  apply String.ext; simp

/-- With in-range bounds the shared loop writes the bits `lo .. lo + n - 1`,
highest first, and returns. -/
theorem dumpDown_ok (bits : List Bool) (lo : Nat) (hlen : bits.length < 2147483648) :
    ∀ (n fuel : Nat) (os : String), lo + n ≤ bits.length → n < fuel →
      dumpDown bits (lo : Int) fuel ((lo : Int) + (n : Int) - 1) os
        = .ok (os ++ String.mk ((((bits.drop lo).take n).reverse).map bitChar)) := by
  intro n
  induction n with
  | zero =>
    intro fuel os _ hf
    obtain ⟨f, rfl⟩ : ∃ f, fuel = f + 1 := ⟨fuel - 1, by omega⟩
    have : ¬ ((lo : Int) + ((0 : Nat) : Int) - 1 ≥ (lo : Int)) := by omega
    simp only [dumpDown, this, if_false, List.take_zero, List.reverse_nil, List.map_nil]
    congr 1
    apply String.ext; simp
  | succ n ih =>
    intro fuel os hle hf
    obtain ⟨f, rfl⟩ : ∃ f, fuel = f + 1 := ⟨fuel - 1, by omega⟩
    have hge : ((lo : Int) + ((n + 1 : Nat) : Int) - 1 ≥ (lo : Int)) := by omega
    have hpos : (lo : Int) + ((n + 1 : Nat) : Int) - 1 = ((lo + n : Nat) : Int) := by omega
    have hlt : lo + n < bits.length := by omega
    have hbit : bitAt bits ((lo + n : Nat) : Int) = some (bits[lo + n]) := by
      unfold bitAt
      rw [toSizeT_id _ (by omega)]
      simp [List.get?_eq_getElem?, List.getElem?_eq_getElem hlt]
    have hnext : toInt32 (((lo + n : Nat) : Int) - 1) = (lo : Int) + (n : Int) - 1 := by
      rw [toInt32_id _ (by omega) (by omega)]; omega
    rw [dumpDown, if_pos hge, hpos, hbit]
    simp only
    rw [hnext, ih f _ (by omega) (by omega), push_append_mk]
    congr 2
    have hd : (bits.drop lo).length = bits.length - lo := by simp
    have hn : n < (bits.drop lo).length := by omega
    rw [List.take_succ, List.getElem?_eq_getElem hn]
    simp [List.getElem_drop]

theorem dumpSlice_ok (bits : List Bool) (os : String) (msb lsb : Nat)
    (hlen : bits.length < 2147483648) (h1 : lsb ≤ msb) (h2 : msb < bits.length) :
    dumpSlice bits os msb lsb = .ok (os ++ "0b" ++ String.mk (sliceDigits bits lsb msb)) := by
  have hs : toSizeT ((bits.length : Int) - 1) = bits.length - 1 := by
    unfold toSizeT; omega
  have hm : toInt32 (msb : Int) = (lsb : Int) + ((msb + 1 - lsb : Nat) : Int) - 1 := by
    rw [toInt32_id _ (by omega) (by omega)]; omega
  have hl : toInt32 (lsb : Int) = (lsb : Int) := toInt32_id _ (by omega) (by omega)
  unfold dumpSlice
  rw [if_neg (by omega), if_neg (by rw [hs]; omega), hm, hl,
    dumpDown_ok bits lsb hlen (msb + 1 - lsb) _ _ (by omega) (by omega)]
  rfl

theorem dumpBitSetMSBOrder_ok (bits : List Bool) (os : String)
    (hlen : bits.length < 2147483648) :
    dumpBitSetMSBOrder bits os = .ok (os ++ "0b" ++ String.mk ((bits.reverse).map bitChar)) := by
  have hm : toInt32 (toSizeT ((bits.length : Int) - 1)) = ((0 : Nat) : Int) + (bits.length : Int) - 1 := by
    unfold toInt32 toSizeT; split <;> omega
  unfold dumpBitSetMSBOrder
  have := dumpDown_ok bits 0 hlen bits.length (bits.length + 1) (os ++ "0b") (by omega) (by omega)
  rw [hm]
  simpa using this

theorem wideChunks_eq (bits : List Bool) (hlen : bits.length < 2147483648) :
    wideChunks bits = (((bits.length + 31) / 32 : Nat) : Int) := by
  unfold wideChunks
  rw [toInt32_id _ (by split <;> omega) (by split <;> omega)]
  split <;> omega

theorem wide_msb (len i : Nat) (hlen : len < 2147483648) (hi : 32 * i < len) :
    toSizeT (min (toInt32 (toInt32 (32 * toInt32 ((i : Int) + 1)) - 1))
      (toInt32 (toInt32 (len : Int) - 1))) = min (32 * i + 31) (len - 1) := by
  have h1 : toInt32 ((i : Int) + 1) = i + 1 := toInt32_id _ (by omega) (by omega)
  have h2 : toInt32 (len : Int) = len := toInt32_id _ (by omega) (by omega)
  have h3 : toInt32 ((len : Int) - 1) = len - 1 := toInt32_id _ (by omega) (by omega)
  rw [h1, h2, h3]
  by_cases hc : 32 * (i + 1) < 2147483648
  · rw [toInt32_id (32 * ((i : Int) + 1)) (by omega) (by omega),
      toInt32_id (32 * ((i : Int) + 1) - 1) (by omega) (by omega)]
    unfold toSizeT; omega
  · have h4 : toInt32 (32 * ((i : Int) + 1)) = -2147483648 := by
      have : 32 * ((i : Int) + 1) = 2147483648 := by omega
      rw [this]; rfl
    have h5 : toInt32 (-2147483648 - 1) = 2147483647 := by rfl
    rw [h4, h5]
    unfold toSizeT; omega

theorem wideLoop_ok (bits : List Bool) (symbolName : String) (hlen : bits.length < 2147483648) :
    ∀ (k fuel i : Nat) (os : String), i + k = (bits.length + 31) / 32 → k < fuel →
      wideLoop bits symbolName (((bits.length + 31) / 32 : Nat) : Int) fuel (i : Int) os
        = .ok (os ++ concat ((List.range' i k).map (chunkText bits symbolName))) := by
  intro k
  induction k with
  | zero =>
    intro fuel i os hi hf
    obtain ⟨f, rfl⟩ : ∃ f, fuel = f + 1 := ⟨fuel - 1, by omega⟩
    rw [wideLoop, if_neg (by omega)]
    simp [concat]
  | succ k ih =>
    intro fuel i os hi hf
    obtain ⟨f, rfl⟩ : ∃ f, fuel = f + 1 := ⟨fuel - 1, by omega⟩
    have hlsb : toSizeT (toInt32 (32 * (i : Int))) = 32 * i := by
      rw [toInt32_id _ (by omega) (by omega)]; unfold toSizeT; omega
    have hmsb := wide_msb bits.length i hlen (by omega)
    have hnext : toInt32 ((i : Int) + 1) = ((i + 1 : Nat) : Int) := by
      rw [toInt32_id _ (by omega) (by omega)]; omega
    have hlast : toInt32 ((((bits.length + 31) / 32 : Nat) : Int) - 1) = (((bits.length + 31) / 32 : Nat) : Int) - 1 :=
      toInt32_id _ (by omega) (by omega)
    rw [wideLoop, if_pos (by omega)]
    simp only [hlsb, hmsb, hlast]
    rw [if_neg (by omega), if_neg (by omega),
      dumpSlice_ok bits _ _ _ hlen (by omega) (by omega)]
    simp only [hnext]
    rw [ih f (i + 1) _ (by omega) (by omega)]
    refine congrArg Emit.ok ?_
    have hr : List.range' i (k + 1) = i :: List.range' (i + 1) k := rfl
    rw [hr, List.map_cons, concat]
    simp only [chunkText, chunkDigits, wordAssignment, String.append_assoc]
    rfl

theorem wide_ok (bits : List Bool) (os symbolName : String) (hlen : bits.length < 2147483648) :
    dumpVerilatorWideNumberAssignment bits os symbolName
      = .ok (os ++ concat ((List.range' 0 ((bits.length + 31) / 32)).map (chunkText bits symbolName))) := by
  unfold dumpVerilatorWideNumberAssignment
  rw [wideChunks_eq bits hlen]
  exact wideLoop_ok bits symbolName hlen _ _ 0 os (by omega) (by omega)

theorem ceil_div_32 (n : Nat) : ⌈(n : ℚ) / 32⌉₊ = (n + 31) / 32 := by
  apply le_antisymm
  · rw [Nat.ceil_le, div_le_iff₀ (by norm_num)]
    have : n ≤ (n + 31) / 32 * 32 := by omega
    exact_mod_cast this
  · rcases Nat.eq_zero_or_pos ((n + 31) / 32) with h | h
    · omega
    · have h1 : (n + 31) / 32 - 1 < ⌈(n : ℚ) / 32⌉₊ := by
        rw [Nat.lt_ceil, lt_div_iff₀ (by norm_num)]
        have : ((n + 31) / 32 - 1) * 32 < n := by omega
        exact_mod_cast this
      omega

theorem sliceDigits_length (bits : List Bool) (lsb msb : Nat) (h : msb < bits.length) :
    (sliceDigits bits lsb msb).length = msb + 1 - lsb := by
  simp [sliceDigits]; omega

theorem sliceDigits_binary (bits : List Bool) (lsb msb : Nat) :
    ∀ c ∈ sliceDigits bits lsb msb, c = '0' ∨ c = '1' := by
  intro c hc
  simp only [sliceDigits, List.mem_map] at hc
  obtain ⟨b, _, rfl⟩ := hc
  cases b <;> simp [bitChar]

theorem parseDigits_bitChar (l : List Bool) : parseDigits (l.map bitChar) = some l := by
  induction l with
  | nil => rfl
  | cons b l ih =>
    have hb : parseDigit (bitChar b) = some b := by cases b <;> rfl
    simp only [List.map_cons, parseDigits, hb, ih]

theorem parseBigEndian_reverse (l : List Bool) :
    parseBigEndian ((l.reverse).map bitChar) = some l := by
  unfold parseBigEndian
  rw [parseDigits_bitChar]
  simp

theorem parseBigEndian_sliceDigits (bits : List Bool) (lsb msb : Nat) :
    parseBigEndian (sliceDigits bits lsb msb) = some ((bits.drop lsb).take (msb + 1 - lsb)) :=
  parseBigEndian_reverse _

theorem chunkText_wordAssignments (bits : List Bool) (symbolName : String) :
    ∀ (k i : Nat), (List.range' i k).map (chunkText bits symbolName)
      = wordAssignments symbolName i ((List.range' i k).map (chunkDigits bits)) := by
  intro k
  induction k with
  | zero => intro i; rfl
  | succ k ih =>
    intro i
    have hr : List.range' i (k + 1) = i :: List.range' (i + 1) k := rfl
    rw [hr, List.map_cons, List.map_cons, wordAssignments, ih (i + 1)]
    rfl

theorem decodeChunks_chunkDigits (bits : List Bool) :
    ∀ (k i : Nat), i + k = (bits.length + 31) / 32 →
      decodeChunks ((List.range' i k).map (chunkDigits bits)) = some (bits.drop (32 * i)) := by
  intro k
  induction k with
  | zero =>
    intro i hi
    have : bits.length ≤ 32 * i := by omega
    simp [decodeChunks, List.drop_eq_nil_of_le this]
  | succ k ih =>
    intro i hi
    have hr : List.range' i (k + 1) = i :: List.range' (i + 1) k := rfl
    rw [hr, List.map_cons, decodeChunks, ih (i + 1) (by omega), chunkDigits,
      parseBigEndian_sliceDigits]
    simp only
    congr 1
    have hcut : (bits.drop (32 * i)).take (min (32 * i + 31) (bits.length - 1) + 1 - 32 * i)
        = (bits.drop (32 * i)).take 32 := by
      rcases Nat.lt_or_ge (32 * i + 31) (bits.length - 1) with h | h
      · rw [Nat.min_eq_left (Nat.le_of_lt h)]
        congr 1; omega
      · rw [Nat.min_eq_right h, List.take_of_length_le (by simp; omega),
          List.take_of_length_le (by simp; omega)]
    have hdrop : bits.drop (32 * (i + 1)) = (bits.drop (32 * i)).drop 32 := by
      rw [List.drop_drop, Nat.mul_succ]
    rw [hcut, hdrop, List.take_append_drop]

/-- C1: for a bit-vector of width `w` (below `2^31`, so that the width fits the
`int` the code computes with) `dumpVerilatorWideNumberAssignment` returns after
appending exactly `ceil(w/32)` assignment statements `symbolName[i] = 0b...;`
to the stream, and every statement except the last one carries exactly 32
binary digits. -/
theorem wide_assignment_statement_count (bits : List Bool) (os symbolName : String)
    (hlen : bits.length < 2147483648) :
    ∃ stmts : List String,
      dumpVerilatorWideNumberAssignment bits os symbolName = .ok (os ++ concat stmts) ∧
      stmts.length = ⌈(bits.length : ℚ) / 32⌉₊ ∧
      ∀ (i : Nat) (hi : i < stmts.length), ∃ digits : List Char,
        stmts[i] = wordAssignment symbolName i ("0b" ++ String.mk digits) ∧
        (∀ c ∈ digits, c = '0' ∨ c = '1') ∧
        (i + 1 < stmts.length → digits.length = 32) := by
  refine ⟨(List.range' 0 ((bits.length + 31) / 32)).map (chunkText bits symbolName),
    wide_ok bits os symbolName hlen, by simp [ceil_div_32], ?_⟩
  intro i hi
  have hi2 : i < (bits.length + 31) / 32 := by simpa using hi
  refine ⟨chunkDigits bits i, by simp [chunkText, List.getElem_range'], sliceDigits_binary _ _ _, ?_⟩
  intro hnext
  have hn : i + 1 < (bits.length + 31) / 32 := by simpa using hnext
  unfold chunkDigits
  rw [sliceDigits_length _ _ _ (by omega)]
  omega

theorem wide_assignment_statement_count_witness :
    ∃ stmts : List String,
      dumpVerilatorWideNumberAssignment (List.replicate 40 true) "" "top->a"
        = .ok ("" ++ concat stmts) ∧
      stmts.length = ⌈(((List.replicate 40 true).length : Nat) : ℚ) / 32⌉₊ ∧
      ∀ (i : Nat) (hi : i < stmts.length), ∃ digits : List Char,
        stmts[i] = wordAssignment "top->a" i ("0b" ++ String.mk digits) ∧
        (∀ c ∈ digits, c = '0' ∨ c = '1') ∧
        (i + 1 < stmts.length → digits.length = 32) :=
  wide_assignment_statement_count (List.replicate 40 true) "" "top->a" (by decide)

/-- C2: the chunked encoding is lossless.  For a bit-vector of any width `w`
below `2^31` (in particular for `w > 32`, where the generator uses it),
`dumpVerilatorWideNumberAssignment` returns after appending the word
assignments `symbolName[0] = 0b<d0>;`, `symbolName[1] = 0b<d1>;`, ... and
reading every `<di>` as a big-endian bit string and concatenating the results,
chunk 0 lowest, gives back the bit-vector (and so its width). -/
theorem wide_assignment_lossless (bits : List Bool) (os symbolName : String)
    (hlen : bits.length < 2147483648) :
    ∃ values : List (List Char),
      dumpVerilatorWideNumberAssignment bits os symbolName
        = .ok (os ++ concat (wordAssignments symbolName 0 values)) ∧
      decodeChunks values = some bits := by
  refine ⟨(List.range' 0 ((bits.length + 31) / 32)).map (chunkDigits bits), ?_, ?_⟩
  · rw [wide_ok bits os symbolName hlen, chunkText_wordAssignments]
  · simpa using decodeChunks_chunkDigits bits ((bits.length + 31) / 32) 0 (by omega)

theorem wide_assignment_lossless_witness :
    ∃ values : List (List Char),
      dumpVerilatorWideNumberAssignment (List.replicate 33 true ++ [false, true]) "" "top->a"
        = .ok ("" ++ concat (wordAssignments "top->a" 0 values)) ∧
      decodeChunks values = some (List.replicate 33 true ++ [false, true]) :=
  wide_assignment_lossless (List.replicate 33 true ++ [false, true]) "" "top->a"
    (by decide)

/-- C3: for a bit-vector of width `w` below `2^31` the call returns after
appending `ceil(w/32)` statements, and for every `i` below that count the
`i`-th statement is `symbolName[i] = ` followed by what
`dumpSlice(bits, min(32*(i+1)-1, w-1), 32*i)` writes and by `;`; the last
statement carries `w mod 32` digits, or 32 when 32 divides `w`. -/
theorem wide_assignment_statement_text (bits : List Bool) (os symbolName : String)
    (hlen : bits.length < 2147483648) :
    ∃ stmts : List String,
      dumpVerilatorWideNumberAssignment bits os symbolName = .ok (os ++ concat stmts) ∧
      stmts.length = ⌈(bits.length : ℚ) / 32⌉₊ ∧
      ∀ (i : Nat) (hi : i < stmts.length), ∃ digits : List Char,
        dumpSlice bits "" (min (32 * (i + 1) - 1) (bits.length - 1)) (32 * i)
          = .ok ("0b" ++ String.mk digits) ∧
        stmts[i] = wordAssignment symbolName i ("0b" ++ String.mk digits) ∧
        (i + 1 = stmts.length →
          digits.length = if bits.length % 32 = 0 then 32 else bits.length % 32) := by
  refine ⟨(List.range' 0 ((bits.length + 31) / 32)).map (chunkText bits symbolName),
    wide_ok bits os symbolName hlen, by simp [ceil_div_32], ?_⟩
  intro i hi
  have hi2 : i < (bits.length + 31) / 32 := by simpa using hi
  have hmsb : min (32 * (i + 1) - 1) (bits.length - 1) = min (32 * i + 31) (bits.length - 1) := by
    congr 1
  refine ⟨chunkDigits bits i, ?_, by simp [chunkText, List.getElem_range'], ?_⟩
  · rw [hmsb, dumpSlice_ok bits "" _ _ hlen (by omega) (by omega)]
    rfl
  · intro hlast
    have hn : i + 1 = (bits.length + 31) / 32 := by simpa using hlast
    unfold chunkDigits
    rw [sliceDigits_length _ _ _ (by omega)]
    split <;> omega

theorem wide_assignment_statement_text_witness :
    ∃ stmts : List String,
      dumpVerilatorWideNumberAssignment (List.replicate 33 true ++ [false, true]) "" "top->a"
        = .ok ("" ++ concat stmts) ∧
      stmts.length = ⌈(((List.replicate 33 true ++ [false, true]).length : Nat) : ℚ) / 32⌉₊ ∧
      ∀ (i : Nat) (hi : i < stmts.length), ∃ digits : List Char,
        dumpSlice (List.replicate 33 true ++ [false, true]) ""
            (min (32 * (i + 1) - 1) ((List.replicate 33 true ++ [false, true]).length - 1)) (32 * i)
          = .ok ("0b" ++ String.mk digits) ∧
        stmts[i] = wordAssignment "top->a" i ("0b" ++ String.mk digits) ∧
        (i + 1 = stmts.length →
          digits.length = if (List.replicate 33 true ++ [false, true]).length % 32 = 0 then 32
            else (List.replicate 33 true ++ [false, true]).length % 32) :=
  wide_assignment_statement_text (List.replicate 33 true ++ [false, true]) "" "top->a"
    (by decide)

/-- For a non-empty bit-vector a violated bound of `dumpSlice` fails its
precondition check before anything is written. -/
theorem dumpSlice_rejects (bits : List Bool) (os : String) (msb lsb : Nat)
    (hne : bits ≠ []) (hbad : msb < lsb ∨ bits.length ≤ msb) :
    dumpSlice bits os msb lsb = .abort .assertion os := by
  have hpos : 0 < bits.length := List.length_pos.mpr hne
  unfold dumpSlice
  by_cases h1 : msb ≥ lsb
  · have h2 : bits.length ≤ msb := by omega
    have hs : ¬ (msb ≤ toSizeT ((bits.length : Int) - 1)) := by
      unfold toSizeT; omega
    rw [if_neg (by simpa using h1), if_pos hs]
  · rw [if_pos h1]

/-- C4: on the empty bit-vector with `msb = lsb = 0` (so `msb >= length`) both
checks of `dumpSlice` pass, because `bits.size() - 1` wraps in `size_t`; the
radix marker `0b` is written and the call stops only at the read of bit 0. -/
theorem dumpSlice_empty_passes_checks :
    dumpSlice [] "" 0 0 = .abort .outOfRange "0b" := by
  decide

/-- C5: for a bit-vector of width at most 32, `dumpBitSetMSBOrder` returns
after appending the radix marker `0b` and exactly `width` binary digits, and
reading those digits as a big-endian bit string gives the bit-vector back, with
the same width. -/
theorem msb_first_round_trip (bits : List Bool) (os : String) (hw : bits.length ≤ 32) :
    ∃ digits : List Char,
      dumpBitSetMSBOrder bits os = .ok (os ++ "0b" ++ String.mk digits) ∧
      digits.length = bits.length ∧
      (∀ c ∈ digits, c = '0' ∨ c = '1') ∧
      parseBigEndian digits = some bits := by
  refine ⟨(bits.reverse).map bitChar, dumpBitSetMSBOrder_ok bits os (by omega), by simp, ?_,
    parseBigEndian_reverse bits⟩
  intro c hc
  simp only [List.mem_map] at hc
  obtain ⟨b, _, rfl⟩ := hc
  cases b <;> simp [bitChar]

theorem msb_first_round_trip_witness :
    ∃ digits : List Char,
      dumpBitSetMSBOrder [true, false, false, false] "  top->b = "
        = .ok ("  top->b = " ++ "0b" ++ String.mk digits) ∧
      digits.length = [true, false, false, false].length ∧
      (∀ c ∈ digits, c = '0' ∨ c = '1') ∧
      parseBigEndian digits = some [true, false, false, false] :=
  msb_first_round_trip [true, false, false, false] "  top->b = " (by decide)

/-! ## Replay harness -/

theorem validTrace_states (module : Module) (clk : String) (cex : ModelCheckingResult)
    (h : validTrace module clk cex = true) : 0 < cex.numCexStates := by
  simp only [validTrace, Bool.and_eq_true, decide_eq_true_eq] at h
  exact h.1

theorem validTrace_lookup (module : Module) (clk : String) (cex : ModelCheckingResult)
    (h : validTrace module clk cex = true) (w : Wire) (hw : w ∈ getSortedInput module)
    (hclk : log_id w.name ≠ clk) :
    ∃ values, cex.inputValues.lookup w.name = some values ∧
      values.length = cex.numCexStates ∧ ∀ v ∈ values, v.length = w.width := by
  simp only [validTrace, Bool.and_eq_true, decide_eq_true_eq, List.all_eq_true,
    Bool.or_eq_true, beq_iff_eq] at h
  rcases h.2 w hw with h1 | h1
  · exact absurd h1 hclk
  · cases hl : cex.inputValues.lookup w.name with
    | none => rw [hl] at h1; simp at h1
    | some values =>
      rw [hl] at h1
      simp only [Bool.and_eq_true, beq_iff_eq, List.all_eq_true] at h1
      exact ⟨values, rfl, h1.1, h1.2⟩

theorem recordedValue_eq (cex : ModelCheckingResult) (i : Nat) (w : Wire)
    (values : List (List Bool)) (val : List Bool)
    (h1 : cex.inputValues.lookup w.name = some values) (h2 : values.get? i = some val) :
    recordedValue cex i w = val := by
  unfold recordedValue
  rw [h1]
  simp only [Option.getD_some]
  rw [List.get?_eq_getElem?] at h2
  simp [List.getD, h2]

theorem cexNarrow_ok (w : Wire) (val : List Bool) (os : List Item)
    (hlen : val.length < 2147483648) :
    cexNarrow w val os = .ok (os ++ [Item.line (.assign (log_id w.name)
      ("0b" ++ String.mk ((val.reverse).map bitChar)))]) := by
  unfold cexNarrow
  rw [dumpBitSetMSBOrder_ok val "" hlen, String.empty_append]

theorem cexWide_ok (w : Wire) (val : List Bool) (os : List Item)
    (hlen : val.length < 2147483648) :
    cexWide w val os = .ok (os ++ [Item.line (.assignWide (log_id w.name)
      (concat ((List.range' 0 ((val.length + 31) / 32)).map
        (chunkText val ("top->" ++ log_id w.name)))))]) := by
  unfold cexWide
  rw [wide_ok val "" _ hlen, String.empty_append]

theorem cexInput_ok (clk : String) (cex : ModelCheckingResult) (i : Nat) (w : Wire)
    (os : List Item) (values : List (List Bool)) (val : List Bool)
    (hport : w.port_input = true) (hclk : log_id w.name ≠ clk)
    (h1 : cex.inputValues.lookup w.name = some values) (h2 : values.get? i = some val)
    (h3 : val.length < 2147483648) :
    cexInput clk cex i w os = .ok (os ++ [replayAssign cex i w]) := by
  have hval := recordedValue_eq cex i w values val h1 h2
  have hlt : i < values.length := by
    by_contra hge
    rw [List.get?_eq_getElem?, List.getElem?_eq_none (by omega)] at h2
    cases h2
  unfold cexInput
  rw [if_neg (by simp [hport]), if_pos hclk, h1]
  simp only
  rw [h2]
  simp only
  by_cases hwidth : w.width ≤ 32
  · have hnot : ¬ ¬ (i < values.length) := fun h => h hlt
    rw [if_pos hwidth, if_neg hnot, cexNarrow_ok w val os h3, replayAssign, if_pos hwidth, hval]
  · rw [if_neg hwidth, cexWide_ok w val os h3, replayAssign, if_neg hwidth, hval]

theorem cexInput_clock (clk : String) (cex : ModelCheckingResult) (i : Nat) (w : Wire)
    (os : List Item) (hport : w.port_input = true) (hclk : ¬ log_id w.name ≠ clk) :
    cexInput clk cex i w os = .ok os := by
  unfold cexInput
  rw [if_neg (by simp [hport]), if_neg hclk]

theorem cexInputs_ok (clk : String) (cex : ModelCheckingResult) (i : Nat) :
    ∀ (ws : List Wire) (os : List Item), Replayable clk cex i ws →
      cexInputs clk cex i ws os = .ok (os ++ (replayInputs clk ws).map (replayAssign cex i)) := by
  intro ws
  induction ws with
  | nil => intro os _; simp [cexInputs, replayInputs]
  | cons w rest ih =>
    intro os h
    have hw := h w (List.mem_cons_self _ _)
    have hrest : Replayable clk cex i rest := fun x hx => h x (List.mem_cons_of_mem _ hx)
    rw [cexInputs]
    by_cases hclk : log_id w.name ≠ clk
    · obtain ⟨values, val, h1, h2, h3⟩ := hw.2 hclk
      have hfilter : replayInputs clk (w :: rest) = w :: replayInputs clk rest := by
        simp [replayInputs, hclk]
      rw [cexInput_ok clk cex i w os values val hw.1 hclk h1 h2 h3]
      simp only
      rw [ih _ hrest, hfilter, List.map_cons, List.append_assoc]
      rfl
    · have hfilter : replayInputs clk (w :: rest) = replayInputs clk rest := by
        simp only [replayInputs]
        rw [List.filter_cons_of_neg]
        simpa using hclk
      rw [cexInput_clock clk cex i w os hw.1 hclk]
      simp only
      rw [ih _ hrest, hfilter]

theorem cexStates_ok (clk : String) (cex : ModelCheckingResult) (ws : List Wire) :
    ∀ (count first : Nat) (os : List Item),
      (∀ i, first ≤ i → i < first + count → Replayable clk cex i ws) →
      cexStates clk cex ws count first os = .ok (os ++ replayStates clk cex ws first count) := by
  intro count
  induction count with
  | zero => intro first os _; simp [cexStates, replayStates]
  | succ count ih =>
    intro first os h
    rw [cexStates]
    simp only [cexInputs_ok clk cex first ws _ (h first (Nat.le_refl _) (by omega))]
    rw [ih (first + 1) _ (fun i h1 h2 => h i (by omega) (by omega))]
    simp [replayStates, replayState, List.append_assoc]

theorem replayable_of_valid (module : Module) (cex : ModelCheckingResult) (clk : String)
    (hvalid : validTrace module clk cex = true)
    (hwidth : ∀ w ∈ module.wires, w.width < 2147483648)
    (i : Nat) (hi : i < cex.numCexStates) :
    Replayable clk cex i (getSortedInput module) := by
  intro w hw
  have hin : w ∈ module.wires ∧ w.port_input = true := by
    simpa [getSortedInput] using hw
  refine ⟨hin.2, fun hclk => ?_⟩
  obtain ⟨values, h1, h2, h3⟩ := validTrace_lookup module clk cex hvalid w hw hclk
  have hlt : i < values.length := by omega
  refine ⟨values, values[i], h1, ?_, ?_⟩
  · rw [List.get?_eq_getElem?, List.getElem?_eq_getElem hlt]
  · rw [h3 _ (List.getElem_mem hlt)]
    exact hwidth w hin.1

/-- For a circuit with a clock and a valid trace, replay synthesis succeeds and
writes the header, the lines of every state in order, and the footer. -/
theorem createCexTestBench_ok (module : Module) (cex : ModelCheckingResult)
    (vcdFileName : String)
    (hclk : module.wires.foldl scanClk "" ≠ "")
    (hvalid : validTrace module (module.wires.foldl scanClk "") cex = true)
    (hwidth : ∀ w ∈ module.wires, w.width < 2147483648) :
    createCexTestBench true module cex vcdFileName
      = .ok (some (cexHeader (log_id module.name) vcdFileName (module.wires.foldl scanClk "") ++
          replayStates (module.wires.foldl scanClk "") cex (getSortedInput module) 0
            cex.numCexStates ++ footer)) := by
  have hN := validTrace_states module _ cex hvalid
  unfold createCexTestBench
  simp only [not_true_eq_false, if_false, hclk, hN, gt_iff_lt]
  rw [cexStates_ok _ cex _ cex.numCexStates 0 _
    (fun i _ h2 => replayable_of_valid module cex _ hvalid hwidth i (by omega))]

theorem replayAssign_not_dump (cex : ModelCheckingResult) (i : Nat) (w : Wire) :
    (replayAssign cex i w).isDump = false := by
  unfold replayAssign; split <;> rfl

theorem replayAssign_not_toggle (clk : String) (cex : ModelCheckingResult) (i : Nat) (w : Wire) :
    (replayAssign cex i w).isToggleOf clk = false := by
  unfold replayAssign; split <;> rfl

theorem replayAssign_not_verbatim (cex : ModelCheckingResult) (i : Nat) (w : Wire) :
    (replayAssign cex i w).isVerbatim = false := by
  unfold replayAssign; split <;> rfl

theorem dumpCalls_append (a b : List Item) : dumpCalls (a ++ b) = dumpCalls a + dumpCalls b := by
  simp [dumpCalls, List.countP_append]

theorem dumpCalls_assigns (cex : ModelCheckingResult) (i : Nat) (ws : List Wire) :
    dumpCalls (ws.map (replayAssign cex i)) = 0 := by
  induction ws with
  | nil => rfl
  | cons w rest ih =>
    rw [List.map_cons]
    unfold dumpCalls at ih ⊢
    rw [List.countP_cons_of_neg]
    · exact ih
    · simp [replayAssign_not_dump]

theorem dumpCalls_replayState (clk : String) (cex : ModelCheckingResult) (ws : List Wire)
    (i : Nat) : dumpCalls (replayState clk cex ws i) = 2 := by
  unfold replayState
  rw [dumpCalls_append, dumpCalls_append, dumpCalls_assigns]
  rfl

theorem dumpCalls_replayStates (clk : String) (cex : ModelCheckingResult) (ws : List Wire) :
    ∀ (count first : Nat), dumpCalls (replayStates clk cex ws first count) = 2 * count := by
  intro count
  induction count with
  | zero => intro first; rfl
  | succ count ih =>
    intro first
    rw [replayStates, dumpCalls_append, dumpCalls_replayState, ih]
    omega

theorem toggles_cons (clk : String) (item : Item) (rest : List Item) (since : Option Nat) :
    togglesBetweenDumps clk (item :: rest) since
      = if item.isDump then
          (match since with
            | some n => [n]
            | none => []) ++ togglesBetweenDumps clk rest (some 0)
        else if item.isToggleOf clk then
          togglesBetweenDumps clk rest (since.map (· + 1))
        else togglesBetweenDumps clk rest since := rfl

theorem toggles_assigns (clk : String) (cex : ModelCheckingResult) (i : Nat) (ws : List Wire)
    (rest : List Item) (since : Option Nat) :
    togglesBetweenDumps clk (ws.map (replayAssign cex i) ++ rest) since
      = togglesBetweenDumps clk rest since := by
  induction ws with
  | nil => rfl
  | cons w more ih =>
    rw [List.map_cons, List.cons_append, toggles_cons,
      if_neg (by simp [replayAssign_not_dump]), if_neg (by simp [replayAssign_not_toggle]), ih]

theorem toggles_replayState (clk : String) (cex : ModelCheckingResult) (ws : List Wire)
    (i : Nat) (rest : List Item) :
    togglesBetweenDumps clk (replayState clk cex ws i ++ rest) (some 0)
      = 1 :: 1 :: togglesBetweenDumps clk rest (some 0) := by
  unfold replayState
  simp only [List.append_assoc, List.cons_append, List.nil_append]
  simp only [toggles_cons, Item.isDump, Item.isToggleOf, Item.line, beq_self_eq_true,
    if_true, if_false, Bool.false_eq_true, Option.map_some', toggles_assigns,
    List.singleton_append, Nat.zero_add]

theorem toggles_replayStates (clk : String) (cex : ModelCheckingResult) (ws : List Wire)
    (rest : List Item) :
    ∀ (count first : Nat),
      togglesBetweenDumps clk (replayStates clk cex ws first count ++ rest) (some 0)
        = List.replicate (2 * count) 1 ++ togglesBetweenDumps clk rest (some 0) := by
  intro count
  induction count with
  | zero => intro first; rfl
  | succ count ih =>
    intro first
    rw [replayStates, List.append_assoc, toggles_replayState, ih]
    have : 2 * (count + 1) = (2 * count + 1) + 1 := by omega
    rw [this, List.replicate_succ, List.replicate_succ]
    rfl

theorem toggles_header (topName vcdFileName clk : String) (rest : List Item) :
    togglesBetweenDumps clk (cexHeader topName vcdFileName clk ++ rest) none
      = togglesBetweenDumps clk rest (some 0) := by
  simp only [cexHeader, List.cons_append, List.nil_append, toggles_cons, Item.isDump,
    Item.isToggleOf, Item.line, if_true, if_false, Bool.false_eq_true, Option.map_none',
    List.nil_append]

/-- C6, as the code has it: for a circuit with a clock and a valid trace of
`N > 0` states, replay synthesis succeeds and the harness contains exactly
`2N + 1` waveform-dump calls (the dump of frame 0 before the first state, then
two per state), and between every two consecutive dump calls the clock is
toggled exactly once. -/
theorem replay_dump_calls (module : Module) (cex : ModelCheckingResult) (vcdFileName : String)
    (hclk : module.wires.foldl scanClk "" ≠ "")
    (hvalid : validTrace module (module.wires.foldl scanClk "") cex = true)
    (hwidth : ∀ w ∈ module.wires, w.width < 2147483648) :
    ∃ file : List Item,
      createCexTestBench true module cex vcdFileName = .ok (some file) ∧
      dumpCalls file = 2 * cex.numCexStates + 1 ∧
      togglesBetweenDumps (module.wires.foldl scanClk "") file none
        = List.replicate (2 * cex.numCexStates) 1 := by
  refine ⟨_, createCexTestBench_ok module cex vcdFileName hclk hvalid hwidth, ?_, ?_⟩
  · rw [dumpCalls_append, dumpCalls_append, dumpCalls_replayStates]
    have h1 : dumpCalls (cexHeader (log_id module.name) vcdFileName
        (module.wires.foldl scanClk "")) = 1 := rfl
    have h2 : dumpCalls footer = 0 := rfl
    omega
  · rw [List.append_assoc, toggles_header, toggles_replayStates]
    have : togglesBetweenDumps (module.wires.foldl scanClk "") footer (some 0) = [] := rfl
    rw [this, List.append_nil]

theorem replay_dump_calls_witness :
    ∃ file : List Item,
      createCexTestBench true replayCircuit replayTrace "out.vcd" = .ok (some file) ∧
      dumpCalls file = 2 * replayTrace.numCexStates + 1 ∧
      togglesBetweenDumps (replayCircuit.wires.foldl scanClk "") file none
        = List.replicate (2 * replayTrace.numCexStates) 1 :=
  replay_dump_calls replayCircuit replayTrace "out.vcd" (by decide) (by decide) (by decide)

/-- C6, counterexample: in the replay scenario of the specification (a clock,
a 40-bit input, a valid trace of `N = 2` states) synthesis succeeds and the
harness has 5 waveform-dump calls, not `2N = 4`. -/
theorem replay_dump_calls_scenario :
    validTrace replayCircuit "clk" replayTrace = true ∧
    (createCexTestBench true replayCircuit replayTrace "out.vcd").returned = true ∧
    (createCexTestBench true replayCircuit replayTrace "out.vcd").stream.map dumpCalls = some 5 ∧
    (5 : Nat) ≠ 2 * replayTrace.numCexStates := by
  decide

theorem replayStates_flatten (clk : String) (cex : ModelCheckingResult) (ws : List Wire) :
    ∀ (count first : Nat), replayStates clk cex ws first count
      = ((List.range' first count).map (replayState clk cex ws)).flatten := by
  intro count
  induction count with
  | zero => intro first; rfl
  | succ count ih =>
    intro first
    have hr : List.range' first (count + 1) = first :: List.range' (first + 1) count := rfl
    rw [replayStates, ih, hr, List.map_cons, List.flatten_cons]

theorem filter_assigns (cex : ModelCheckingResult) (i : Nat) (ws : List Wire) :
    (ws.map (replayAssign cex i)).filter (fun item => !item.isVerbatim)
      = ws.map (replayAssign cex i) := by
  rw [List.filter_eq_self]
  intro item hitem
  obtain ⟨w, _, rfl⟩ := List.mem_map.mp hitem
  simp [replayAssign_not_verbatim]

theorem replayState_statements (clk : String) (cex : ModelCheckingResult) (ws : List Wire)
    (i : Nat) (hi : i + 1 < 2147483648) :
    (replayState clk cex ws i).filter (fun item => !item.isVerbatim)
      = [Item.line (.toggle clk)] ++ (replayInputs clk ws).map (replayAssign cex i) ++
        [Item.line .eval, Item.line (.dump (2 * i + 1)), Item.line (.toggle clk),
          Item.line .eval, Item.line (.dump (2 * i + 2))] := by
  have h1 : toUnsigned (2 * (i : Int) + 1) = 2 * i + 1 := by
    unfold toUnsigned; omega
  have h2 : toUnsigned (2 * (i : Int) + 2) = 2 * i + 2 := by
    unfold toUnsigned; omega
  unfold replayState
  rw [h1, h2, List.filter_append, List.filter_append, filter_assigns]
  rfl

theorem forall₂_map_self {α β : Type} (R : α → β → Prop) (f : α → β) :
    ∀ (l : List α), (∀ x ∈ l, R x (f x)) → List.Forall₂ R l (l.map f) := by
  intro l
  induction l with
  | nil => intro _; exact List.Forall₂.nil
  | cons x rest ih =>
    intro h
    exact List.Forall₂.cons (h x (List.mem_cons_self _ _))
      (ih (fun y hy => h y (List.mem_cons_of_mem _ hy)))

theorem assignsRecorded_replayAssign (cex : ModelCheckingResult) (i : Nat) (w : Wire)
    (values : List (List Bool)) (hlookup : cex.inputValues.lookup w.name = some values)
    (hi : i < values.length) (hw : values[i].length = w.width)
    (hwidth : w.width < 2147483648) :
    AssignsRecorded cex i w (replayAssign cex i w) := by
  have hget : values.get? i = some values[i] := by
    rw [List.get?_eq_getElem?, List.getElem?_eq_getElem hi]
  have hval := recordedValue_eq cex i w values values[i] hlookup hget
  have hlen : values[i].length < 2147483648 := by omega
  refine ⟨values, values[i], hlookup, hget, ?_⟩
  by_cases hnarrow : w.width ≤ 32
  · refine Or.inl ⟨hnarrow, _, dumpBitSetMSBOrder_ok values[i] "" hlen, ?_⟩
    rw [replayAssign, if_pos hnarrow, hval, String.empty_append]
  · refine Or.inr ⟨by omega, _, ?_, rfl, ?_⟩
    · rw [wide_ok values[i] "" _ hlen, String.empty_append, ceil_div_32, ← hw,
        List.range_eq_range']
    · rw [replayAssign, if_neg hnarrow, hval, ceil_div_32, ← hw, List.range_eq_range']

/-- C7: in replay mode, for a circuit with a clock and a valid trace with `N`
states (`N < 2^31`, port widths below `2^31`), synthesis succeeds and the
harness is the header, one block of lines per state `i = 0 .. N-1` in order, and
the footer.  Leaving the comment lines aside, the statements of state `i` are,
in this order: one clock toggle; for every input port other than the clock, in
declared order, the assignment of the value recorded for it in state `i` (a
single `dumpBitSetMSBOrder` assignment when its width is at most 32, otherwise
the `ceil(width/32)` word assignments of `dumpVerilatorWideNumberAssignment`);
evaluate; dump frame `2*i+1`; one clock toggle; evaluate; dump frame `2*i+2`. -/
theorem replay_state_statements (module : Module) (cex : ModelCheckingResult)
    (vcdFileName : String)
    (hclk : module.wires.foldl scanClk "" ≠ "")
    (hvalid : validTrace module (module.wires.foldl scanClk "") cex = true)
    (hwidth : ∀ w ∈ module.wires, w.width < 2147483648)
    (hstates : cex.numCexStates < 2147483648) :
    ∃ states : List (List Item),
      createCexTestBench true module cex vcdFileName
        = .ok (some (cexHeader (log_id module.name) vcdFileName (module.wires.foldl scanClk "")
            ++ states.flatten ++ footer)) ∧
      states.length = cex.numCexStates ∧
      ∀ (i : Nat) (hi : i < states.length), ∃ assigns : List Item,
        (states[i]).filter (fun item => !item.isVerbatim)
          = [Item.line (.toggle (module.wires.foldl scanClk ""))] ++ assigns ++
            [Item.line .eval, Item.line (.dump (2 * i + 1)),
              Item.line (.toggle (module.wires.foldl scanClk "")),
              Item.line .eval, Item.line (.dump (2 * i + 2))] ∧
        List.Forall₂ (AssignsRecorded cex i)
          (replayInputs (module.wires.foldl scanClk "") (getSortedInput module)) assigns := by
  refine ⟨(List.range' 0 cex.numCexStates).map
      (replayState (module.wires.foldl scanClk "") cex (getSortedInput module)), ?_, by simp, ?_⟩
  · rw [createCexTestBench_ok module cex vcdFileName hclk hvalid hwidth, replayStates_flatten]
  · intro i hi
    have hi2 : i < cex.numCexStates := by simpa using hi
    refine ⟨(replayInputs (module.wires.foldl scanClk "") (getSortedInput module)).map
      (replayAssign cex i), ?_, ?_⟩
    · rw [List.getElem_map, List.getElem_range', Nat.zero_add, Nat.one_mul,
        replayState_statements _ _ _ _ (by omega)]
    · apply forall₂_map_self
      intro w hw
      have hmem : w ∈ getSortedInput module ∧ log_id w.name ≠ module.wires.foldl scanClk "" := by
        simpa [replayInputs] using hw
      have hin : w ∈ module.wires := by
        have := hmem.1
        simp only [getSortedInput, List.mem_filter] at this
        exact this.1
      obtain ⟨values, h1, h2, h3⟩ :=
        validTrace_lookup module _ cex hvalid w hmem.1 hmem.2
      have hlt : i < values.length := by omega
      exact assignsRecorded_replayAssign cex i w values h1 hlt
        (h3 _ (List.getElem_mem hlt)) (hwidth w hin)

theorem replay_state_statements_witness :
    ∃ states : List (List Item),
      createCexTestBench true replayCircuit replayTrace "out.vcd"
        = .ok (some (cexHeader (log_id replayCircuit.name) "out.vcd"
            (replayCircuit.wires.foldl scanClk "") ++ states.flatten ++ footer)) ∧
      states.length = replayTrace.numCexStates ∧
      ∀ (i : Nat) (hi : i < states.length), ∃ assigns : List Item,
        (states[i]).filter (fun item => !item.isVerbatim)
          = [Item.line (.toggle (replayCircuit.wires.foldl scanClk ""))] ++ assigns ++
            [Item.line .eval, Item.line (.dump (2 * i + 1)),
              Item.line (.toggle (replayCircuit.wires.foldl scanClk "")),
              Item.line .eval, Item.line (.dump (2 * i + 2))] ∧
        List.Forall₂ (AssignsRecorded replayTrace i)
          (replayInputs (replayCircuit.wires.foldl scanClk "") (getSortedInput replayCircuit))
          assigns :=
  replay_state_statements replayCircuit replayTrace "out.vcd" (by decide) (by decide)
    (by decide) (by decide)

/-! ## Random harness -/

theorem randomEvents_append (a b : List Stmt) :
    randomEvents (a ++ b) = randomEvents a ++ randomEvents b := by
  induction a with
  | nil => rfl
  | cons s rest ih => cases s <;> simp [randomEvents, ih]

theorem randomEvents_words (port : String) (hex : Bool) (l : List Nat) :
    randomEvents (l.map (fun (i : Nat) => Stmt.randomWord port (i : Int) hex))
      = l.map (fun (i : Nat) => Event.randomWord port (i : Int)) := by
  induction l with
  | nil => rfl
  | cons i rest ih => simp [randomEvents, ih]

theorem randomFill_events (undef : Int) (clk rst : String) (st : Bool × List Stmt) (w : Wire) :
    randomEvents (randomFill undef clk rst st w).2
      = randomEvents st.2 ++ wireEvents undef clk rst w := by
  unfold randomFill wireEvents Wire.isData
  by_cases hdata : w.port_input = true ∧ log_id w.name ≠ clk ∧ log_id w.name ≠ rst
  · have hb : (w.port_input && log_id w.name != clk && log_id w.name != rst) = true := by
      simp [hdata.1, hdata.2.1, hdata.2.2]
    rw [if_pos hdata, if_pos hb]
    by_cases hwidth : w.width ≤ 32
    · rw [if_pos hwidth, if_pos hwidth, randomEvents_append]
      rfl
    · rw [if_neg hwidth, if_neg hwidth, randomEvents_append, randomEvents_words]
  · have hb : ¬ ((w.port_input && log_id w.name != clk && log_id w.name != rst) = true) := by
      intro h
      apply hdata
      simp only [Bool.and_eq_true, bne_iff_ne, ne_eq] at h
      exact ⟨h.1.1, h.1.2, h.2⟩
    rw [if_neg hdata, if_neg hb, List.append_nil]

theorem randomFill_fold_events (undef : Int) (clk rst : String) :
    ∀ (ws : List Wire) (st : Bool × List Stmt),
      randomEvents (ws.foldl (randomFill undef clk rst) st).2
        = randomEvents st.2 ++ ws.flatMap (wireEvents undef clk rst) := by
  intro ws
  induction ws with
  | nil => intro st; simp
  | cons w rest ih =>
    intro st
    rw [List.foldl_cons, ih, randomFill_events, List.flatMap_cons, List.append_assoc]

theorem randomFill_fillsOther (undef : Int) (clk rst : String) (st : Bool × List Stmt) (w : Wire)
    (h : st.2.all (Stmt.fillsOther clk) = true) :
    (randomFill undef clk rst st w).2.all (Stmt.fillsOther clk) = true := by
  unfold randomFill
  by_cases hdata : w.port_input = true ∧ log_id w.name ≠ clk ∧ log_id w.name ≠ rst
  · rw [if_pos hdata]
    by_cases hwidth : w.width ≤ 32
    · rw [if_pos hwidth]
      simp only [List.all_append, h, Bool.true_and, List.all_cons, List.all_nil, Bool.and_true]
      simp [Stmt.fillsOther, hdata.2.1]
    · rw [if_neg hwidth]
      simp only [List.all_append, h, Bool.true_and, List.all_eq_true, List.mem_map]
      rintro s ⟨i, _, rfl⟩
      simp [Stmt.fillsOther, hdata.2.1]
  · rw [if_neg hdata]; exact h

theorem randomFill_fold_fillsOther (undef : Int) (clk rst : String) :
    ∀ (ws : List Wire) (st : Bool × List Stmt), st.2.all (Stmt.fillsOther clk) = true →
      (ws.foldl (randomFill undef clk rst) st).2.all (Stmt.fillsOther clk) = true := by
  intro ws
  induction ws with
  | nil => intro st h; exact h
  | cons w rest ih =>
    intro st h
    rw [List.foldl_cons]
    exact ih _ (randomFill_fillsOther undef clk rst st w h)

theorem exec_fill (clk : String) (i : Nat) (s : Stmt) (m : Machine)
    (h : s.fillsOther clk = true) :
    (s.exec i m).log = m.log ++ randomEvents [s] ∧ (s.exec i m).env clk = m.env clk := by
  cases s <;> simp [Stmt.fillsOther] at h
  · refine ⟨rfl, ?_⟩
    simp only [Stmt.exec, Machine.write]
    rw [if_neg (fun hc => h hc.symm)]
  · refine ⟨rfl, ?_⟩
    simp only [Stmt.exec, Machine.write]
    rw [if_neg (fun hc => h hc.symm)]

theorem execStmts_fills (clk : String) (i : Nat) :
    ∀ (fills : List Stmt) (m : Machine), fills.all (Stmt.fillsOther clk) = true →
      (execStmts i fills m).log = m.log ++ randomEvents fills ∧
      (execStmts i fills m).env clk = m.env clk := by
  intro fills
  induction fills with
  | nil => intro m _; simp [execStmts, randomEvents]
  | cons s rest ih =>
    intro m h
    simp only [List.all_cons, Bool.and_eq_true] at h
    have h1 := exec_fill clk i s m h.1
    have h2 := ih (s.exec i m) h.2
    have hcons : execStmts i (s :: rest) m = execStmts i rest (s.exec i m) := rfl
    have happ : randomEvents (s :: rest) = randomEvents [s] ++ randomEvents rest :=
      randomEvents_append [s] rest
    rw [hcons, h2.1, h2.2, h1.1, h1.2, happ, List.append_assoc]
    exact ⟨rfl, rfl⟩

theorem execFile_append (a b : List Item) :
    ∀ (m : Machine), execFile (a ++ b) m
      = match execFile a m with
        | some m1 => execFile b m1
        | none => none := by
  induction a with
  | nil => intro m; rfl
  | cons item rest ih =>
    intro m
    rw [List.cons_append, execFile, execFile]
    cases item.exec m with
    | none => rfl
    | some m1 => exact ih m1

theorem ifLow_low (port : String) (body : List Stmt) (i : Nat) (m : Machine)
    (h : m.env port = some false) :
    Block.exec i (.ifLow port body) m = some (execStmts i body m) := by
  show (match m.env port with
    | some false => some (execStmts i body m)
    | some true => some m
    | none => none) = _
  rw [h]

theorem ifLow_high (port : String) (body : List Stmt) (i : Nat) (m : Machine)
    (h : m.env port = some true) :
    Block.exec i (.ifLow port body) m = some m := by
  show (match m.env port with
    | some false => some (execStmts i body m)
    | some true => some m
    | none => none) = _
  rw [h]

/-- One iteration of the loop of the random harness, started with the clock at
the value it has before iteration `i` when it was low before iteration 1. -/
theorem cycle_exec (clk comment : String) (fills : List Stmt) (i : Nat) (m : Machine)
    (hfills : fills.all (Stmt.fillsOther clk) = true)
    (henv : m.env clk = some (decide (i % 2 = 0))) :
    ∃ m1 : Machine,
      execBlocks i [Block.stmt (.toggle clk), Block.stmt (.verbatim comment),
        Block.ifLow clk fills, Block.stmt .eval, Block.stmt .dumpIndex] m = some m1 ∧
      m1.log = m.log ++ cycleEvents clk (randomEvents fills) i ∧
      m1.env clk = some (decide ((i + 1) % 2 = 0)) := by
  have hstep : ∀ (m2 : Machine),
      execBlocks i [Block.stmt .eval, Block.stmt .dumpIndex] m2
        = some ⟨m2.env, m2.log ++ [Event.eval] ++ [Event.dump i]⟩ := fun _ => rfl
  have hbody : execBlocks i [Block.stmt (.toggle clk), Block.stmt (.verbatim comment),
        Block.ifLow clk fills, Block.stmt .eval, Block.stmt .dumpIndex] m
      = match Block.exec i (.ifLow clk fills) ((Stmt.toggle clk).exec i m) with
        | some m1 => execBlocks i [Block.stmt .eval, Block.stmt .dumpIndex] m1
        | none => none := rfl
  rcases Nat.mod_two_eq_zero_or_one i with h | h
  · have hnext : (i + 1) % 2 = 1 := by omega
    have h1 : m.env clk = some true := by rw [henv]; simp [h]
    have hlow : ((Stmt.toggle clk).exec i m).env clk = some false := by
      simp [Stmt.exec, Machine.write, h1]
    have hlog : ((Stmt.toggle clk).exec i m).log = m.log ++ [Event.toggle clk (some false)] := by
      simp [Stmt.exec, Machine.write, h1]
    have hf := execStmts_fills clk i fills ((Stmt.toggle clk).exec i m) hfills
    refine ⟨⟨(execStmts i fills ((Stmt.toggle clk).exec i m)).env,
      (execStmts i fills ((Stmt.toggle clk).exec i m)).log ++ [Event.eval] ++ [Event.dump i]⟩,
      ?_, ?_, ?_⟩
    · rw [hbody, ifLow_low _ _ _ _ hlow]
      exact hstep _
    · simp only [hf.1, hlog, cycleEvents, h]
      simp
    · simp only [hf.2, hlow, hnext]
      simp
  · have hnext : (i + 1) % 2 = 0 := by omega
    have h1 : m.env clk = some false := by rw [henv]; simp [h]
    have hhigh : ((Stmt.toggle clk).exec i m).env clk = some true := by
      simp [Stmt.exec, Machine.write, h1]
    have hlog : ((Stmt.toggle clk).exec i m).log = m.log ++ [Event.toggle clk (some true)] := by
      simp [Stmt.exec, Machine.write, h1]
    refine ⟨⟨((Stmt.toggle clk).exec i m).env,
      ((Stmt.toggle clk).exec i m).log ++ [Event.eval] ++ [Event.dump i]⟩, ?_, ?_, ?_⟩
    · rw [hbody, ifLow_high _ _ _ _ hhigh]
      exact hstep _
    · simp only [hlog, cycleEvents, h]
      simp
    · simp only [hhigh, hnext]
      simp

theorem execLoop_cycles (clk comment : String) (fills : List Stmt) (bound : Nat)
    (hfills : fills.all (Stmt.fillsOther clk) = true) :
    ∀ (k fuel i : Nat) (m : Machine), k = bound - i → k < fuel →
      m.env clk = some (decide (i % 2 = 0)) →
      ∃ m1 : Machine,
        execLoop bound [Block.stmt (.toggle clk), Block.stmt (.verbatim comment),
          Block.ifLow clk fills, Block.stmt .eval, Block.stmt .dumpIndex] fuel i m = some m1 ∧
        m1.log = m.log ++
          ((List.range' i k).map (cycleEvents clk (randomEvents fills))).flatten := by
  intro k
  induction k with
  | zero =>
    intro fuel i m hk hf _
    obtain ⟨f, rfl⟩ : ∃ f, fuel = f + 1 := ⟨fuel - 1, by omega⟩
    refine ⟨m, ?_, by simp⟩
    rw [execLoop, if_neg (by omega)]
  | succ k ih =>
    intro fuel i m hk hf henv
    obtain ⟨f, rfl⟩ : ∃ f, fuel = f + 1 := ⟨fuel - 1, by omega⟩
    obtain ⟨m1, hm1, hlog1, henv1⟩ := cycle_exec clk comment fills i m hfills henv
    obtain ⟨m2, hm2, hlog2⟩ := ih f (i + 1) m1 (by omega) (by omega) henv1
    refine ⟨m2, ?_, ?_⟩
    · rw [execLoop, if_pos (by omega), hm1]
      exact hm2
    · have hr : List.range' i (k + 1) = i :: List.range' (i + 1) k := rfl
      rw [hlog2, hlog1, hr, List.map_cons, List.flatten_cons, List.append_assoc]

/-- Executing the harness that random synthesis writes: the reset pulse, then
one cycle per loop iteration `i = 1 .. bound - 1`, where `bound` is the
`unsigned` value `2 * simCycles`. -/
theorem random_run (undef : Int) (module : Module) (simCycles : Nat)
    (vcdFileName : String) (seed : Nat) (file : List Item)
    (hfile : createRandomTestBench true undef module simCycles vcdFileName seed
      = .ok (some file)) :
    run file = some (resetPulse (module.wires.foldl scanClkRst ("", "")).1
        (module.wires.foldl scanClkRst ("", "")).2 ++
      ((List.range' 1 (toUnsigned (2 * (simCycles : Int)) - 1)).map
        (cycleEvents (module.wires.foldl scanClkRst ("", "")).1
          (module.wires.flatMap (wireEvents undef (module.wires.foldl scanClkRst ("", "")).1
            (module.wires.foldl scanClkRst ("", "")).2)))).flatten) := by
  generalize hclk : (module.wires.foldl scanClkRst ("", "")).1 = clk at hfile ⊢
  generalize hrst : (module.wires.foldl scanClkRst ("", "")).2 = rst at hfile ⊢
  unfold createRandomTestBench at hfile
  simp only [not_true_eq_false, if_false, hclk, hrst] at hfile
  by_cases h1 : clk = ""
  · rw [if_pos h1] at hfile; cases hfile
  rw [if_neg h1] at hfile
  by_cases h2 : rst = ""
  · rw [if_pos h2] at hfile; cases hfile
  rw [if_neg h2] at hfile
  have hfile2 := Option.some.inj (Emit.ok.inj hfile)
  have hfills := randomFill_fold_fillsOther undef clk rst module.wires (false, []) rfl
  have hevents := randomFill_fold_events undef clk rst module.wires (false, [])
  have hnil : randomEvents ((false, ([] : List Stmt)).2) = [] := rfl
  rw [hnil, List.nil_append] at hevents
  let m0 : Machine := ⟨fun _ => none, []⟩
  let m5 : Machine := (Stmt.setPort rst false).exec 0 ((Stmt.dump 0).exec 0 (Stmt.eval.exec 0
    ((Stmt.setPort clk false).exec 0 ((Stmt.setPort rst true).exec 0 m0))))
  have hm5log : m5.log = resetPulse clk rst := rfl
  have hm5env : m5.env clk = some (decide (1 % 2 = 0)) := by
    show (if clk = rst then some false else if clk = clk then some false
      else if clk = rst then some true else none) = _
    split <;> simp
  obtain ⟨m6, hm6, hlog6⟩ := execLoop_cycles clk "    // Update signal on the negedge\n"
    (module.wires.foldl (randomFill undef clk rst) (false, [])).2
    (toUnsigned (2 * (simCycles : Int))) hfills
    (toUnsigned (2 * (simCycles : Int)) - 1) (toUnsigned (2 * (simCycles : Int)) + 1) 1 m5
    rfl (by omega) hm5env
  rw [hevents, hm5log] at hlog6
  have hrun : execFile file m0 = some m6 := by
    rw [← hfile2, execFile_append, execFile_append]
    have hhead : execFile (randomHeader (log_id module.name) vcdFileName seed) m0 = some m0 := rfl
    rw [hhead]
    simp only
    have hmid : ∀ (body : List Block) (bound : Nat),
        execFile [Item.line (.setPort rst true), Item.line (.setPort clk false), Item.line .eval,
          Item.line (.dump 0), Item.line (.setPort rst false), Item.forLoop bound body] m0
        = match execLoop bound body (bound + 1) 1 m5 with
          | some m1 => some m1
          | none => none := by
      intro body bound
      show (match execLoop bound body (bound + 1) 1 m5 with
        | some m1 => execFile [] m1
        | none => none) = _
      rfl
    rw [hmid, hm6]
    rfl
  show (execFile file m0).map (fun m => m.log) = _
  rw [hrun, Option.map_some', hlog6]

/-- For a circuit with a clock and a reset, random synthesis succeeds. -/
theorem createRandomTestBench_ok (undef : Int) (module : Module) (simCycles : Nat)
    (vcdFileName : String) (seed : Nat)
    (hclk : (module.wires.foldl scanClkRst ("", "")).1 ≠ "")
    (hrst : (module.wires.foldl scanClkRst ("", "")).2 ≠ "") :
    ∃ file : List Item,
      createRandomTestBench true undef module simCycles vcdFileName seed = .ok (some file) := by
  unfold createRandomTestBench
  simp only [not_true_eq_false, if_false]
  rw [if_neg hclk, if_neg hrst]
  exact ⟨_, rfl⟩

theorem wireEvents_mem (undef : Int) (clk rst : String) (w : Wire) (e : Event)
    (he : e ∈ wireEvents undef clk rst w) :
    w.isData clk rst = true ∧
      ((∃ mask, e = Event.random (log_id w.name) mask) ∨
       (∃ index, e = Event.randomWord (log_id w.name) index)) := by
  unfold wireEvents at he
  by_cases hdata : w.isData clk rst = true
  · rw [if_pos hdata] at he
    refine ⟨hdata, ?_⟩
    by_cases hwidth : w.width ≤ 32
    · rw [if_pos hwidth] at he
      exact Or.inl ⟨_, List.mem_singleton.mp he⟩
    · rw [if_neg hwidth] at he
      obtain ⟨i, _, rfl⟩ := List.mem_map.mp he
      exact Or.inr ⟨_, rfl⟩
  · rw [if_neg hdata] at he
    cases he

theorem isData_names (clk rst : String) (w : Wire) (h : w.isData clk rst = true) :
    w.port_input = true ∧ log_id w.name ≠ clk ∧ log_id w.name ≠ rst := by
  simp only [Wire.isData, Bool.and_eq_true, bne_iff_ne, ne_eq] at h
  exact ⟨h.1.1, h.1.2, h.2⟩

theorem wireEvents_randomises (undef : Int) (clk rst : String) (w : Wire)
    (hdata : w.isData clk rst = true) :
    ∃ e ∈ wireEvents undef clk rst w, e.randomises (log_id w.name) = true := by
  unfold wireEvents
  rw [if_pos hdata]
  by_cases hwidth : w.width ≤ 32
  · rw [if_pos hwidth]
    exact ⟨_, List.mem_singleton.mpr rfl, by simp [Event.randomises]⟩
  · rw [if_neg hwidth]
    refine ⟨Event.randomWord (log_id w.name) ((0 : Nat) : Int), ?_, by simp [Event.randomises]⟩
    apply List.mem_map.mpr
    refine ⟨0, ?_, rfl⟩
    rw [List.mem_range]
    have : 1 ≤ w.width / 32 := by omega
    omega

theorem writes_not_special (undef : Int) (clk rst : String) (ws : List Wire) (e : Event)
    (he : e ∈ ws.flatMap (wireEvents undef clk rst)) :
    e.isToggleOf clk = false ∧ e.randomises clk = false ∧ e.randomises rst = false ∧
      e ≠ Event.set rst true ∧ e ≠ Event.set rst false := by
  obtain ⟨w, _, hw⟩ := List.mem_flatMap.mp he
  obtain ⟨hdata, h | h⟩ := wireEvents_mem undef clk rst w e hw
  · obtain ⟨mask, rfl⟩ := h
    have hn := isData_names clk rst w hdata
    simp [Event.isToggleOf, Event.randomises, hn.2.1, hn.2.2]
  · obtain ⟨index, rfl⟩ := h
    have hn := isData_names clk rst w hdata
    simp [Event.isToggleOf, Event.randomises, hn.2.1, hn.2.2]

/-- C9: in random mode, for every circuit with a clock and a reset and every
cycle count, synthesis succeeds and executing the harness gives the reset pulse
followed by one group of events per loop iteration `i = 1, 2, ...`, up to
`2 * cycleCount - 1` when that fits an `unsigned`.  Iteration `i` starts with the
one toggle of the clock, ends with the dump of frame `i`, and a data input is
written a random number in it if and only if the clock is low after the toggle;
when the clock is high after the toggle no port is written a random number; the
clock and the reset are never written a random number. -/
theorem random_only_on_falling_edge (undef : Int) (module : Module) (simCycles : Nat)
    (vcdFileName : String) (seed : Nat)
    (hclk : (module.wires.foldl scanClkRst ("", "")).1 ≠ "")
    (hrst : (module.wires.foldl scanClkRst ("", "")).2 ≠ "") :
    ∃ (file : List Item) (cycles : List (List Event)),
      createRandomTestBench true undef module simCycles vcdFileName seed = .ok (some file) ∧
      run file = some (resetPulse (module.wires.foldl scanClkRst ("", "")).1
        (module.wires.foldl scanClkRst ("", "")).2 ++ cycles.flatten) ∧
      cycles.length = toUnsigned (2 * (simCycles : Int)) - 1 ∧
      (simCycles < 2147483648 → cycles.length = 2 * simCycles - 1) ∧
      ∀ (k : Nat) (hk : k < cycles.length), ∃ (v : Bool) (rest : List Event),
        cycles[k] = Event.toggle (module.wires.foldl scanClkRst ("", "")).1 (some v) :: rest ∧
        Event.dump (k + 1) ∈ rest ∧
        (∀ e ∈ rest, e.isToggleOf (module.wires.foldl scanClkRst ("", "")).1 = false) ∧
        (∀ w ∈ module.wires,
          w.isData (module.wires.foldl scanClkRst ("", "")).1
            (module.wires.foldl scanClkRst ("", "")).2 = true →
          ((∃ e ∈ rest, e.randomises (log_id w.name) = true) ↔ v = false)) ∧
        (v = true → ∀ e ∈ rest, ∀ port, e.randomises port = false) ∧
        (∀ e ∈ rest, e.randomises (module.wires.foldl scanClkRst ("", "")).1 = false ∧
          e.randomises (module.wires.foldl scanClkRst ("", "")).2 = false) := by
  obtain ⟨file, hfile⟩ :=
    createRandomTestBench_ok undef module simCycles vcdFileName seed hclk hrst
  have hrun := random_run undef module simCycles vcdFileName seed file hfile
  generalize (module.wires.foldl scanClkRst ("", "")).1 = clk at hrun ⊢
  generalize (module.wires.foldl scanClkRst ("", "")).2 = rst at hrun ⊢
  refine ⟨file, _, hfile, hrun, by simp, ?_, ?_⟩
  · intro hc
    have : toUnsigned (2 * (simCycles : Int)) = 2 * simCycles := by
      unfold toUnsigned; omega
    simp [this]
  · intro k hk
    have hk2 : k < toUnsigned (2 * (simCycles : Int)) - 1 := by simpa using hk
    have hcycle : ((List.range' 1 (toUnsigned (2 * (simCycles : Int)) - 1)).map
        (cycleEvents clk (module.wires.flatMap (wireEvents undef clk rst))))[k]
        = cycleEvents clk (module.wires.flatMap (wireEvents undef clk rst)) (k + 1) := by
      rw [List.getElem_map, List.getElem_range', Nat.one_mul, Nat.add_comm]
    rw [hcycle]
    refine ⟨decide ((k + 1) % 2 = 1), _, rfl, by simp, ?_, ?_, ?_, ?_⟩
    · intro e he
      rcases List.mem_append.mp he with h | h
      · split at h
        · exact (writes_not_special undef clk rst _ e h).1
        · cases h
      · simp only [List.mem_cons, List.mem_singleton, List.not_mem_nil, or_false] at h
        rcases h with rfl | rfl <;> rfl
    · intro w hw hdata
      constructor
      · rintro ⟨e, he, hrand⟩
        rcases List.mem_append.mp he with h | h
        · split at h
          · simp; omega
          · cases h
        · simp only [List.mem_cons, List.mem_singleton, List.not_mem_nil, or_false] at h
          rcases h with rfl | rfl <;> simp [Event.randomises] at hrand
      · intro hv
        have heven : (k + 1) % 2 = 0 := by
          have : ¬ (k + 1) % 2 = 1 := by simpa using hv
          omega
        obtain ⟨e, he, hrand⟩ := wireEvents_randomises undef clk rst w hdata
        refine ⟨e, ?_, hrand⟩
        apply List.mem_append_left
        rw [if_pos heven]
        exact List.mem_flatMap.mpr ⟨w, hw, he⟩
    · intro hv e he port
      have hodd : (k + 1) % 2 = 1 := by simpa using hv
      rw [if_neg (by omega), List.nil_append] at he
      simp only [List.mem_cons, List.mem_singleton, List.not_mem_nil, or_false] at he
      rcases he with rfl | rfl <;> rfl
    · intro e he
      rcases List.mem_append.mp he with h | h
      · split at h
        · exact ⟨(writes_not_special undef clk rst _ e h).2.1,
            (writes_not_special undef clk rst _ e h).2.2.1⟩
        · cases h
      · simp only [List.mem_cons, List.mem_singleton, List.not_mem_nil, or_false] at h
        rcases h with rfl | rfl <;> exact ⟨rfl, rfl⟩

theorem random_only_on_falling_edge_witness :
    ∃ (file : List Item) (cycles : List (List Event)),
      createRandomTestBench true 0 randomCircuit 3 "out.vcd" 42 = .ok (some file) ∧
      run file = some (resetPulse (randomCircuit.wires.foldl scanClkRst ("", "")).1
        (randomCircuit.wires.foldl scanClkRst ("", "")).2 ++ cycles.flatten) ∧
      cycles.length = toUnsigned (2 * ((3 : Nat) : Int)) - 1 ∧
      ((3 : Nat) < 2147483648 → cycles.length = 2 * 3 - 1) ∧
      ∀ (k : Nat) (hk : k < cycles.length), ∃ (v : Bool) (rest : List Event),
        cycles[k] = Event.toggle (randomCircuit.wires.foldl scanClkRst ("", "")).1 (some v) :: rest ∧
        Event.dump (k + 1) ∈ rest ∧
        (∀ e ∈ rest, e.isToggleOf (randomCircuit.wires.foldl scanClkRst ("", "")).1 = false) ∧
        (∀ w ∈ randomCircuit.wires,
          w.isData (randomCircuit.wires.foldl scanClkRst ("", "")).1
            (randomCircuit.wires.foldl scanClkRst ("", "")).2 = true →
          ((∃ e ∈ rest, e.randomises (log_id w.name) = true) ↔ v = false)) ∧
        (v = true → ∀ e ∈ rest, ∀ port, e.randomises port = false) ∧
        (∀ e ∈ rest, e.randomises (randomCircuit.wires.foldl scanClkRst ("", "")).1 = false ∧
          e.randomises (randomCircuit.wires.foldl scanClkRst ("", "")).2 = false) :=
  random_only_on_falling_edge 0 randomCircuit 3 "out.vcd" 42 (by decide) (by decide)

theorem range'_two_more (k : Nat) :
    List.range' 1 (k + 2) = List.range' 1 k ++ [k + 1, k + 2] := by
  rw [List.range'_concat, List.range'_concat, List.append_assoc]
  simp only [Nat.one_mul, List.singleton_append]
  congr 2
  · omega
  · congr 1; omega

/-- Counting over the cycles `1 .. 2n+1`: `n` of them have an even index and
`n + 1` an odd one. -/
theorem countP_cycles (P : Event → Bool) (cyc : Nat → List Event) (e o : Nat)
    (he : ∀ i, i % 2 = 0 → (cyc i).countP P = e)
    (ho : ∀ i, i % 2 = 1 → (cyc i).countP P = o) :
    ∀ (n : Nat), (((List.range' 1 (2 * n + 1)).map cyc).flatten).countP P
      = n * e + (n + 1) * o := by
  intro n
  induction n with
  | zero =>
    have h1 : List.range' 1 (2 * 0 + 1) = [1] := rfl
    rw [h1]
    simp [ho 1 rfl]
  | succ n ih =>
    have h1 : 2 * (n + 1) + 1 = (2 * n + 1) + 2 := by omega
    rw [h1, range'_two_more, List.map_append, List.flatten_append, List.countP_append, ih]
    simp only [List.map_cons, List.map_nil, List.flatten_cons, List.flatten_nil,
      List.append_nil, List.countP_append]
    rw [he (2 * n + 1 + 1) (by omega), ho (2 * n + 1 + 2) (by omega)]
    ring

theorem countP_cycleEvents (P : Event → Bool) (clk : String) (writes : List Event) (i : Nat)
    (heval : P Event.eval = false) (hdump : P (Event.dump i) = false) :
    (cycleEvents clk writes i).countP P
      = (if P (Event.toggle clk (some (decide (i % 2 = 1)))) = true then 1 else 0)
        + (if i % 2 = 0 then writes.countP P else 0) := by
  unfold cycleEvents
  rw [List.countP_cons, List.countP_append]
  have h2 : List.countP P [Event.eval, Event.dump i] = 0 := by
    simp [List.countP_cons, heval, hdump]
  rw [h2]
  split
  · simp only [Nat.add_zero]; rw [Nat.add_comm]
  · simp

theorem countP_writes_zero (P : Event → Bool) (writes : List Event)
    (h : ∀ e ∈ writes, P e = false) : writes.countP P = 0 := by
  rw [List.countP_eq_zero]
  intro e he
  simp [h e he]

/-- The number of 32-bit words the random harness writes for a port. -/
theorem words_eq_ceil (width : Nat) :
    width / 32 + (if width % 32 ≠ 0 then 1 else 0) = ⌈(width : ℚ) / 32⌉₊ := by
  rw [ceil_div_32]
  split <;> omega

theorem countP_wireEvents (undef : Int) (clk rst : String) (w : Wire) (port : String) :
    (wireEvents undef clk rst w).countP (Event.randomises port)
      = if log_id w.name = port ∧ w.isData clk rst = true then
          (if w.width ≤ 32 then 1 else ⌈(w.width : ℚ) / 32⌉₊)
        else 0 := by
  unfold wireEvents
  by_cases hdata : w.isData clk rst = true
  · rw [if_pos hdata]
    by_cases hname : log_id w.name = port
    · have hboth : log_id w.name = port ∧ w.isData clk rst = true := ⟨hname, hdata⟩
      rw [if_pos hboth]
      by_cases hwidth : w.width ≤ 32
      · rw [if_pos hwidth, if_pos hwidth]
        simp [List.countP_cons, Event.randomises, hname]
      · rw [if_neg hwidth, if_neg hwidth, ← words_eq_ceil, List.countP_map]
        rw [List.countP_eq_length.mpr]
        · simp
        · intro i _
          simp [Event.randomises, hname]
    · have hnot : ¬ (log_id w.name = port ∧ w.isData clk rst = true) := fun h => hname h.1
      rw [if_neg hnot]
      apply countP_writes_zero
      intro e he
      by_cases hwidth : w.width ≤ 32
      · rw [if_pos hwidth] at he
        rw [List.mem_singleton.mp he]
        simp [Event.randomises, hname]
      · rw [if_neg hwidth] at he
        obtain ⟨i, _, rfl⟩ := List.mem_map.mp he
        simp [Event.randomises, hname]
  · have hnot : ¬ (log_id w.name = port ∧ w.isData clk rst = true) := fun h => hdata h.2
    rw [if_neg hdata, if_neg hnot]
    rfl

theorem countP_writes_other (undef : Int) (clk rst : String) (port : String) :
    ∀ (ws : List Wire), port ∉ ws.map (fun w => log_id w.name) →
      (ws.flatMap (wireEvents undef clk rst)).countP (Event.randomises port) = 0 := by
  intro ws
  induction ws with
  | nil => intro _; rfl
  | cons w rest ih =>
    intro h
    simp only [List.map_cons, List.mem_cons, not_or] at h
    have hnot : ¬ (log_id w.name = port ∧ w.isData clk rst = true) := fun hc => h.1 hc.1.symm
    rw [List.flatMap_cons, List.countP_append, ih h.2, countP_wireEvents, if_neg hnot]

theorem countP_writes_self (undef : Int) (clk rst : String) (w : Wire)
    (hdata : w.isData clk rst = true) :
    ∀ (ws : List Wire), (ws.map (fun x => log_id x.name)).Nodup → w ∈ ws →
      (ws.flatMap (wireEvents undef clk rst)).countP (Event.randomises (log_id w.name))
        = if w.width ≤ 32 then 1 else ⌈(w.width : ℚ) / 32⌉₊ := by
  intro ws
  induction ws with
  | nil => intro _ h; cases h
  | cons x rest ih =>
    intro hnodup hmem
    simp only [List.map_cons, List.nodup_cons] at hnodup
    rw [List.flatMap_cons, List.countP_append, countP_wireEvents]
    rcases List.mem_cons.mp hmem with rfl | hrest
    · have hboth : log_id w.name = log_id w.name ∧ w.isData clk rst = true := ⟨rfl, hdata⟩
      rw [if_pos hboth, countP_writes_other undef clk rst _ rest hnodup.1]
      rfl
    · have hne : log_id x.name ≠ log_id w.name := by
        intro hc
        apply hnodup.1
        rw [hc]
        exact List.mem_map.mpr ⟨w, hrest, rfl⟩
      have hnot : ¬ (log_id x.name = log_id w.name ∧ x.isData clk rst = true) :=
        fun hc => hne hc.1
      rw [if_neg hnot, ih hnodup.2 hrest, Nat.zero_add]

theorem countP_log (P : Event → Bool) (clk rst : String) (writes : List Event) (c : Nat)
    (hc : 1 ≤ c) (heval : P Event.eval = false) (hdump : ∀ i, P (Event.dump i) = false) :
    (resetPulse clk rst ++
        ((List.range' 1 (2 * c - 1)).map (cycleEvents clk writes)).flatten).countP P
      = (resetPulse clk rst).countP P
        + (c - 1) * ((if P (Event.toggle clk (some false)) = true then 1 else 0)
            + writes.countP P)
        + c * (if P (Event.toggle clk (some true)) = true then 1 else 0) := by
  have hlen : 2 * c - 1 = 2 * (c - 1) + 1 := by omega
  have he : ∀ i, i % 2 = 0 → (cycleEvents clk writes i).countP P
      = (if P (Event.toggle clk (some false)) = true then 1 else 0) + writes.countP P := by
    intro i hi
    have hd : decide (i % 2 = 1) = false := by simp [hi]
    rw [countP_cycleEvents P clk writes i heval (hdump i), hd, if_pos hi]
  have ho : ∀ i, i % 2 = 1 → (cycleEvents clk writes i).countP P
      = (if P (Event.toggle clk (some true)) = true then 1 else 0) := by
    intro i hi
    have hd : decide (i % 2 = 1) = true := by simp [hi]
    have hne : ¬ i % 2 = 0 := by omega
    rw [countP_cycleEvents P clk writes i heval (hdump i), hd, if_neg hne, Nat.add_zero]
  rw [List.countP_append, hlen, countP_cycles P _ _ _ he ho (c - 1)]
  have hcc : c - 1 + 1 = c := by omega
  rw [hcc, Nat.add_assoc]

/-- C8, as the code has it: in random mode, for every circuit with distinct
clock and reset inputs and pairwise distinct port names, and every cycle count
`c` with `1 ≤ c < 2^31`, synthesis succeeds and executing the harness performs
exactly 1 reset assertion, exactly 1 reset deassertion, exactly `2*c - 1` clock
toggles, of which `c - 1` are falling edges, and exactly `c - 1` random
assignments to each data input of at most 32 bits (one per falling edge), a
wider data input getting `ceil(width/32)` word assignments per falling edge. -/
theorem random_harness_counts (undef : Int) (module : Module) (simCycles : Nat)
    (vcdFileName : String) (seed : Nat)
    (hclk : (module.wires.foldl scanClkRst ("", "")).1 ≠ "")
    (hrst : (module.wires.foldl scanClkRst ("", "")).2 ≠ "")
    (hdistinct : (module.wires.foldl scanClkRst ("", "")).1
      ≠ (module.wires.foldl scanClkRst ("", "")).2)
    (hnames : (module.wires.map (fun w => log_id w.name)).Nodup)
    (hc : 1 ≤ simCycles) (hc2 : simCycles < 2147483648) :
    ∃ (file : List Item) (log : List Event),
      createRandomTestBench true undef module simCycles vcdFileName seed = .ok (some file) ∧
      run file = some log ∧
      log.count (Event.set (module.wires.foldl scanClkRst ("", "")).2 true) = 1 ∧
      log.count (Event.set (module.wires.foldl scanClkRst ("", "")).2 false) = 1 ∧
      log.countP (Event.isToggleOf (module.wires.foldl scanClkRst ("", "")).1)
        = 2 * simCycles - 1 ∧
      log.count (Event.toggle (module.wires.foldl scanClkRst ("", "")).1 (some false))
        = simCycles - 1 ∧
      ∀ w ∈ module.wires,
        w.isData (module.wires.foldl scanClkRst ("", "")).1
          (module.wires.foldl scanClkRst ("", "")).2 = true →
        log.countP (Event.randomises (log_id w.name))
          = (simCycles - 1) * (if w.width ≤ 32 then 1 else ⌈(w.width : ℚ) / 32⌉₊) := by
  obtain ⟨file, hfile⟩ :=
    createRandomTestBench_ok undef module simCycles vcdFileName seed hclk hrst
  have hrun := random_run undef module simCycles vcdFileName seed file hfile
  have hbound : toUnsigned (2 * (simCycles : Int)) = 2 * simCycles := by
    unfold toUnsigned; omega
  rw [hbound] at hrun
  generalize (module.wires.foldl scanClkRst ("", "")).1 = clk at hrun hdistinct ⊢
  generalize (module.wires.foldl scanClkRst ("", "")).2 = rst at hrun hdistinct ⊢
  have hw := writes_not_special undef clk rst module.wires
  refine ⟨file, _, hfile, hrun, ?_, ?_, ?_, ?_, ?_⟩
  · rw [List.count_eq_countP, countP_log _ clk rst _ simCycles hc (by simp) (by simp)]
    have h1 : (resetPulse clk rst).countP (fun x => x == Event.set rst true) = 1 := by
      simp [resetPulse, List.countP_cons]
    have h2 : (module.wires.flatMap (wireEvents undef clk rst)).countP
        (fun x => x == Event.set rst true) = 0 := by
      apply countP_writes_zero
      intro e he
      simpa using (hw e he).2.2.2.1
    rw [h1, h2]
    simp
  · rw [List.count_eq_countP, countP_log _ clk rst _ simCycles hc (by simp) (by simp)]
    have h1 : (resetPulse clk rst).countP (fun x => x == Event.set rst false) = 1 := by
      simp [resetPulse, List.countP_cons, hdistinct]
    have h2 : (module.wires.flatMap (wireEvents undef clk rst)).countP
        (fun x => x == Event.set rst false) = 0 := by
      apply countP_writes_zero
      intro e he
      simpa using (hw e he).2.2.2.2
    rw [h1, h2]
    simp
  · rw [countP_log _ clk rst _ simCycles hc rfl (fun _ => rfl)]
    have h1 : (resetPulse clk rst).countP (Event.isToggleOf clk) = 0 := rfl
    have h2 : (module.wires.flatMap (wireEvents undef clk rst)).countP
        (Event.isToggleOf clk) = 0 :=
      countP_writes_zero _ _ (fun e he => (hw e he).1)
    rw [h1, h2]
    simp [Event.isToggleOf]
    omega
  · rw [List.count_eq_countP, countP_log _ clk rst _ simCycles hc (by simp) (by simp)]
    have h1 : (resetPulse clk rst).countP (fun x => x == Event.toggle clk (some false)) = 0 := by
      simp [resetPulse, List.countP_cons]
    have h2 : (module.wires.flatMap (wireEvents undef clk rst)).countP
        (fun x => x == Event.toggle clk (some false)) = 0 := by
      apply countP_writes_zero
      intro e he
      have hnt := (hw e he).1
      cases e <;> simp [Event.isToggleOf] at hnt ⊢
      intro hport
      exact absurd hport hnt
    rw [h1, h2]
    simp
  · intro w hwmem hdata
    rw [countP_log _ clk rst _ simCycles hc rfl (fun _ => rfl),
      countP_writes_self undef clk rst w hdata module.wires hnames hwmem]
    have h1 : (resetPulse clk rst).countP (Event.randomises (log_id w.name)) = 0 := rfl
    rw [h1]
    simp [Event.randomises]

theorem random_harness_counts_witness :
    ∃ (file : List Item) (log : List Event),
      createRandomTestBench true 0 randomCircuit 3 "out.vcd" 42 = .ok (some file) ∧
      run file = some log ∧
      log.count (Event.set (randomCircuit.wires.foldl scanClkRst ("", "")).2 true) = 1 ∧
      log.count (Event.set (randomCircuit.wires.foldl scanClkRst ("", "")).2 false) = 1 ∧
      log.countP (Event.isToggleOf (randomCircuit.wires.foldl scanClkRst ("", "")).1)
        = 2 * 3 - 1 ∧
      log.count (Event.toggle (randomCircuit.wires.foldl scanClkRst ("", "")).1 (some false))
        = 3 - 1 ∧
      ∀ w ∈ randomCircuit.wires,
        w.isData (randomCircuit.wires.foldl scanClkRst ("", "")).1
          (randomCircuit.wires.foldl scanClkRst ("", "")).2 = true →
        log.countP (Event.randomises (log_id w.name))
          = (3 - 1) * (if w.width ≤ 32 then 1 else ⌈(w.width : ℚ) / 32⌉₊) :=
  random_harness_counts 0 randomCircuit 3 "out.vcd" 42 (by decide) (by decide) (by decide)
    (by decide) (by decide) (by decide)

/-- C8, counterexample: in the scenario of the specification (ports
`clk: in 1, rst: in 1, x: in 8, y: out 8`, `cycleCount = 3`, seed 42) synthesis
succeeds and executing the harness toggles the clock 5 times, not 6, and
assigns `x` a random number masked with `0xff` 2 times, not 3. -/
theorem random_scenario_counts :
    (createRandomTestBench true 0 randomCircuit 3 "out.vcd" 42).returned = true ∧
    ((createRandomTestBench true 0 randomCircuit 3 "out.vcd" 42).stream.bind run).map
        (fun log => (log.countP (Event.isToggleOf "clk"),
          log.countP (Event.randomises "x"), log.count (Event.random "x" 255)))
      = some (5, 2, 2) ∧
    (5 : Nat) ≠ 2 * 3 ∧ (2 : Nat) ≠ 3 := by
  decide

/-- For a declared width from 1 to 31 the mask of the random assignment has
exactly the low `width` bits set. -/
theorem randomMask_narrow (undef : Int) (width : Nat) (h1 : 1 ≤ width) (h2 : width ≤ 31) :
    randomMask undef width = 2 ^ width - 1 := by
  interval_cases width <;> rfl

/-- C10: for a data input of declared width 32 the random harness writes the
statement `top->x = randomEngine() & 0x<mask>;` with the mask computed as
`(1 << 32) - 1` in `int`.  Whatever value the platform gives to `1 << 32`
(`undef`), the mask is not `2^32 - 1`: it is `0xffffffffffffffff` when the shift
yields 0 and `0x0` when the shift count wraps and the shift yields 1. -/
theorem random_mask_width_32 (undef : Int) :
    (mask32Circuit.wires.foldl (randomFill undef "clk" "rst") (false, [])).2
      = [Stmt.randomMasked "x" (randomMask undef 32)] ∧
    randomMask undef 32 ≠ 2 ^ 32 - 1 ∧
    (Stmt.randomMasked "x" (randomMask 0 32)).render "      "
      = "      top->x = randomEngine() & 0xffffffffffffffff;\n" ∧
    (Stmt.randomMasked "x" (randomMask 1 32)).render "      "
      = "      top->x = randomEngine() & 0x0;\n" := by
  refine ⟨rfl, ?_, by decide, by decide⟩
  have h : randomMask undef 32 = toSizeT (toInt32 (undef - 1)) := rfl
  rw [h]
  unfold toSizeT toInt32
  split <;> omega

/-! ## The harness text of the two scenarios -/

set_option maxRecDepth 100000 in
/-- The text of the random harness for the scenario circuit with 3 cycles and seed
42, line by line as `createRandomTestBench` writes it. -/
theorem random_scenario_text :
    (createRandomTestBench true 0 randomCircuit 3 "out.vcd" 42).stream.map renderFile
      = some ("#include \"Vtop.h\"\n" ++
      "#include \"verilated.h\"\n" ++
      "#include \"verilated_vcd_c.h\"\n" ++
      "#include <cstdlib>\n" ++
      "#include <ctime>\n" ++
      "\n" ++
      "#include <random>\n" ++
      "\n" ++
      "int main (int argc, char** argv, char**env) \x7b\n" ++
      "  std::mt19937 randomEngine(42);\n" ++
      "  Verilated::commandArgs(argc, argv);\n" ++
      "  Vtop* top = new Vtop;\n" ++
      "  VerilatedVcdC * tfp = new VerilatedVcdC;\n" ++
      "  Verilated::traceEverOn(true);\n" ++
      "  top->trace(tfp, 99);\n" ++
      "  tfp->open(\"out.vcd\");\n" ++
      "  std::srand(std::time(nullptr));\n" ++
      "  top->rst = 1;\n" ++
      "  top->clk = 0;\n" ++
      "  top->eval();\n" ++
      "  tfp->dump(0);\n" ++
      "  top->rst = 0;\n" ++
      "  for (size_t i = 1; i < 6; ++i) \x7b\n" ++
      "    top->clk = !top->clk;\n" ++
      "    // Update signal on the negedge\n" ++
      "    if (!top->clk)\x7b\n" ++
      "      top->x = randomEngine() & 0xff;\n" ++
      "    \x7d\n" ++
      "    top->eval();\n" ++
      "    tfp->dump(i);\n" ++
      "  \x7d\n" ++
      "  tfp->close();\n" ++
      "  delete top;\n" ++
      "  return 0;\n" ++
      "\x7d\n") := by
  decide

set_option maxRecDepth 100000 in
/-- The text of the replay harness for the scenario circuit and trace, line by
line as `createCexTestBench` writes it. -/
theorem replay_scenario_text :
    (createCexTestBench true replayCircuit replayTrace "out.vcd").stream.map renderFile
      = some ("#include \"Vtop.h\"\n" ++
      "#include \"verilated.h\"\n" ++
      "#include \"verilated_vcd_c.h\"\n" ++
      "#include <cstdlib>\n" ++
      "#include <ctime>\n" ++
      "\n" ++
      "int main (int argc, char** argv, char**env) \x7b\n" ++
      "  Verilated::commandArgs(argc, argv);\n" ++
      "  Vtop* top = new Vtop;\n" ++
      "  VerilatedVcdC * tfp = new VerilatedVcdC;\n" ++
      "  Verilated::traceEverOn(true);\n" ++
      "  top->trace(tfp, 99);\n" ++
      "  tfp->open(\"out.vcd\");\n" ++
      "  std::srand(std::time(nullptr));\n" ++
      "  top->clk = 1;\n" ++
      "  top->eval();\n" ++
      "  tfp->dump(0);\n" ++
      "  // <===== Cex of state =====>0\n" ++
      "  // Falling clock edge:\n" ++
      "  top->clk = !top->clk;\n" ++
      "top->a[0] = 0b11111111111111111111111111111111;\n" ++
      "top->a[1] = 0b11111111;\n" ++
      "  top->eval();\n" ++
      "  // Dumping state 0\n" ++
      "  tfp->dump(1);\n" ++
      "  // Rising clock edge:\n" ++
      "  top->clk = !top->clk;\n" ++
      "  top->eval();\n" ++
      "  tfp->dump(2);\n" ++
      "  // <===== Cex of state =====>1\n" ++
      "  // Falling clock edge:\n" ++
      "  top->clk = !top->clk;\n" ++
      "top->a[0] = 0b00000000000000000000000000000000;\n" ++
      "top->a[1] = 0b11111110;\n" ++
      "  top->eval();\n" ++
      "  // Dumping state 1\n" ++
      "  tfp->dump(3);\n" ++
      "  // Rising clock edge:\n" ++
      "  top->clk = !top->clk;\n" ++
      "  top->eval();\n" ++
      "  tfp->dump(4);\n" ++
      "  tfp->close();\n" ++
      "  delete top;\n" ++
      "  return 0;\n" ++
      "\x7d\n") := by
  decide

/-! ## Port classification -/

theorem matching_snoc (pat : String) (ws : List Wire) (w : Wire) :
    matching pat (ws ++ [w])
      = matching pat ws ++ (if (w.port_input && found w.name pat) = true then [w] else []) := by
  unfold matching
  rw [List.filter_append]
  congr 1
  by_cases h : (w.port_input && found w.name pat) = true
  · rw [if_pos h]; simp [List.filter, h]
  · rw [if_neg h]; simp [List.filter, h]

/-- The clock search of the replay generator ends with the name of the last
input port whose name contains `clk`. -/
theorem scanClk_fold (init : String) (ws : List Wire) :
    ws.foldl scanClk init
      = (((matching "clk" ws).getLast?).map (fun w => log_id w.name)).getD init := by
  induction ws using List.reverseRecOn with
  | nil => rfl
  | append_singleton ws w ih =>
    rw [List.foldl_append, List.foldl_cons, List.foldl_nil, ih, matching_snoc]
    unfold scanClk
    by_cases hin : w.port_input = true
    · by_cases hf : found w.name "clk" = true
      · have hb : (w.port_input && found w.name "clk") = true := by simp [hin, hf]
        rw [if_pos hin, if_pos hf, if_pos hb, List.getLast?_append]
        simp
      · have hb : ¬ (w.port_input && found w.name "clk") = true := by simp [hin, hf]
        rw [if_pos hin, if_neg hf, if_neg hb, List.append_nil]
    · have hb : ¬ (w.port_input && found w.name "clk") = true := by simp [hin]
      rw [if_neg hin, if_neg hb, List.append_nil]

/-- The clock and reset search of the random generator ends with the names of
the last input ports whose names contain `clk` and `rst`. -/
theorem scanClkRst_fold (init : String × String) (ws : List Wire) :
    ws.foldl scanClkRst init
      = ((((matching "clk" ws).getLast?).map (fun w => log_id w.name)).getD init.1,
         (((matching "rst" ws).getLast?).map (fun w => log_id w.name)).getD init.2) := by
  induction ws using List.reverseRecOn with
  | nil => rfl
  | append_singleton ws w ih =>
    rw [List.foldl_append, List.foldl_cons, List.foldl_nil, ih, matching_snoc, matching_snoc]
    unfold scanClkRst
    by_cases hin : w.port_input = true
    · rw [if_pos hin]
      simp only [hin, Bool.true_and]
      by_cases hc : found w.name "clk" = true <;> by_cases hr : found w.name "rst" = true <;>
        simp [hc, hr, List.getLast?_append]
    · rw [if_neg hin]
      simp [hin]

theorem log_id_ne_empty (name : String) (h : name ≠ "") : log_id name ≠ "" := by
  unfold log_id
  split
  · rename_i c rest heq
    split
    · exact h
    · intro hc
      have := congrArg String.data hc
      simp at this
  · exact h

theorem found_ne_empty (name : String) (h : found name "clk" = true ∨ found name "rst" = true) :
    name ≠ "" := by
  intro hc
  subst hc
  rcases h with h | h <;> exact absurd h (by decide)

theorem matching_mem (pat : String) (ws : List Wire) (w : Wire) (h : w ∈ matching pat ws) :
    w ∈ ws ∧ w.port_input = true ∧ found w.name pat = true := by
  unfold matching at h
  rw [List.mem_filter] at h
  simp only [Bool.and_eq_true] at h
  exact ⟨h.1, h.2.1, h.2.2⟩

theorem matching_nil (pat : String) (ws : List Wire)
    (h : ∀ w ∈ ws, w.port_input = true → found w.name pat = false) : matching pat ws = [] := by
  unfold matching
  rw [List.filter_eq_nil_iff]
  intro w hw
  by_cases hin : w.port_input = true
  · simp [hin, h w hw hin]
  · simp [hin]

theorem matching_last (pat : String) (ws : List Wire) (w : Wire)
    (hw : w ∈ ws) (hin : w.port_input = true) (hf : found w.name pat = true) :
    ∃ c, (matching pat ws).getLast? = some c := by
  have hmem : w ∈ matching pat ws := by
    unfold matching
    rw [List.mem_filter]
    exact ⟨hw, by simp [hin, hf]⟩
  cases hl : (matching pat ws).getLast? with
  | some c => exact ⟨c, rfl⟩
  | none =>
    rw [List.getLast?_eq_none_iff] at hl
    rw [hl] at hmem
    cases hmem

theorem randomFill_keeps (undef : Int) (clk rst : String) (st : Bool × List Stmt) (w : Wire)
    (s : Stmt) (hs : s ∈ st.2) : s ∈ (randomFill undef clk rst st w).2 := by
  unfold randomFill
  split
  · split
    · exact List.mem_append_left _ hs
    · exact List.mem_append_left _ hs
  · exact hs

theorem randomFill_fold_keeps (undef : Int) (clk rst : String) (s : Stmt) :
    ∀ (ws : List Wire) (st : Bool × List Stmt), s ∈ st.2 →
      s ∈ (ws.foldl (randomFill undef clk rst) st).2 := by
  intro ws
  induction ws with
  | nil => intro st hs; exact hs
  | cons w rest ih =>
    intro st hs
    rw [List.foldl_cons]
    exact ih _ (randomFill_keeps undef clk rst st w s hs)

/-- The step of the fill loop for an input port that is neither the clock nor
the reset writes a random assignment to that port. -/
theorem randomFill_writes (undef : Int) (clk rst : String) (st : Bool × List Stmt) (w : Wire)
    (hin : w.port_input = true) (hclk : log_id w.name ≠ clk) (hrst : log_id w.name ≠ rst) :
    ∃ s ∈ (randomFill undef clk rst st w).2, s.randomises (log_id w.name) = true := by
  unfold randomFill
  rw [if_pos ⟨hin, hclk, hrst⟩]
  by_cases hwidth : w.width ≤ 32
  · rw [if_pos hwidth]
    exact ⟨Stmt.randomMasked (log_id w.name) (randomMask undef w.width),
      List.mem_append_right _ (List.mem_singleton.mpr rfl), by simp [Stmt.randomises]⟩
  · rw [if_neg hwidth]
    refine ⟨Stmt.randomWord (log_id w.name) ((0 : Nat) : Int) st.1,
      List.mem_append_right _ (List.mem_map.mpr ⟨0, ?_, rfl⟩), by simp [Stmt.randomises]⟩
    rw [List.mem_range]
    have : 1 ≤ w.width / 32 := by omega
    omega

theorem randomFill_fold_writes (undef : Int) (clk rst : String) (w : Wire)
    (hin : w.port_input = true) (hclk : log_id w.name ≠ clk) (hrst : log_id w.name ≠ rst) :
    ∀ (ws : List Wire) (st : Bool × List Stmt), w ∈ ws →
      ∃ s ∈ (ws.foldl (randomFill undef clk rst) st).2, s.randomises (log_id w.name) = true := by
  intro ws
  induction ws with
  | nil => intro st h; cases h
  | cons x rest ih =>
    intro st hmem
    rw [List.foldl_cons]
    rcases List.mem_cons.mp hmem with rfl | h
    · obtain ⟨s, hs, hrand⟩ := randomFill_writes undef clk rst st w hin hclk hrst
      exact ⟨s, randomFill_fold_keeps undef clk rst s rest _ hs, hrand⟩
    · exact ih _ h

theorem replayAssign_mem_states (clk : String) (cex : ModelCheckingResult) (ws : List Wire)
    (w : Wire) (hw : w ∈ replayInputs clk ws) (count i : Nat) (hi : i < count) :
    replayAssign cex i w ∈ replayStates clk cex ws 0 count := by
  rw [replayStates_flatten, List.mem_flatten]
  refine ⟨replayState clk cex ws i, List.mem_map.mpr ⟨i, ?_, rfl⟩, ?_⟩
  · rw [List.mem_range']
    exact ⟨i, hi, by omega⟩
  · unfold replayState
    exact List.mem_append_left _ (List.mem_append_right _ (List.mem_map.mpr ⟨w, hw, rfl⟩))

/-- C11, as the code has it: both generators keep overwriting the clock name
while they go through the wires, so the clock is the last input port, in the
order of `module->wires()`, whose name contains `clk`, and in random mode the
reset is the last input port whose name contains `rst`.  The harness that
`createCexTestBench` writes for a valid trace drives and toggles that clock and
assigns, in every state, its recorded value to every other input port, the
other ports whose name contains `clk` included.  The harness that
`createRandomTestBench` writes pulses that reset, toggles that clock in its
loop, and in the block of the falling edge writes a random number to every
input port that is neither of the two, the other matching ports included. -/
theorem clock_is_last_match (module : Module) (c : Wire)
    (hc : (matching "clk" module.wires).getLast? = some c) :
    module.wires.foldl scanClk "" = log_id c.name ∧
    (∀ (cex : ModelCheckingResult) (vcdFileName : String),
      validTrace module (log_id c.name) cex = true →
      (∀ w ∈ module.wires, w.width < 2147483648) →
      ∃ file : List Item,
        createCexTestBench true module cex vcdFileName = .ok (some file) ∧
        Item.line (.setPort (log_id c.name) true) ∈ file ∧
        Item.line (.toggle (log_id c.name)) ∈ file ∧
        ∀ w ∈ module.wires, w.port_input = true → log_id w.name ≠ log_id c.name →
          ∀ i, i < cex.numCexStates → replayAssign cex i w ∈ file) ∧
    (∀ (r : Wire), (matching "rst" module.wires).getLast? = some r →
      module.wires.foldl scanClkRst ("", "") = (log_id c.name, log_id r.name) ∧
      ∀ (undef : Int) (simCycles : Nat) (vcdFileName : String) (seed : Nat),
        ∃ (file : List Item) (fills : List Stmt),
          createRandomTestBench true undef module simCycles vcdFileName seed
            = .ok (some file) ∧
          Item.line (.setPort (log_id r.name) true) ∈ file ∧
          Item.forLoop (toUnsigned (2 * (simCycles : Int)))
            [ Block.stmt (.toggle (log_id c.name)),
              Block.stmt (.verbatim "    // Update signal on the negedge\n"),
              Block.ifLow (log_id c.name) fills,
              Block.stmt .eval,
              Block.stmt .dumpIndex ] ∈ file ∧
          ∀ w ∈ module.wires, w.port_input = true → log_id w.name ≠ log_id c.name →
            log_id w.name ≠ log_id r.name →
            ∃ s ∈ fills, s.randomises (log_id w.name) = true) := by
  have hcm := matching_mem "clk" module.wires c (List.mem_of_mem_getLast? hc)
  have hclkne : log_id c.name ≠ "" :=
    log_id_ne_empty _ (found_ne_empty _ (Or.inl hcm.2.2))
  have hscan : module.wires.foldl scanClk "" = log_id c.name := by
    rw [scanClk_fold, hc]; rfl
  refine ⟨hscan, ?_, ?_⟩
  · intro cex vcdFileName hvalid hwidth
    have hN := validTrace_states module _ cex hvalid
    have hfile := createCexTestBench_ok module cex vcdFileName (by rw [hscan]; exact hclkne)
      (by rw [hscan]; exact hvalid) hwidth
    rw [hscan] at hfile
    refine ⟨_, hfile, ?_, ?_, ?_⟩
    · apply List.mem_append_left
      apply List.mem_append_left
      simp [cexHeader]
    · apply List.mem_append_left
      apply List.mem_append_right
      obtain ⟨n, hn⟩ : ∃ n, cex.numCexStates = n + 1 := ⟨cex.numCexStates - 1, by omega⟩
      rw [hn, replayStates]
      apply List.mem_append_left
      simp [replayState]
    · intro w hw hin hne i hi
      apply List.mem_append_left
      apply List.mem_append_right
      apply replayAssign_mem_states _ cex _ w _ _ i hi
      unfold replayInputs getSortedInput
      rw [List.mem_filter, List.mem_filter]
      exact ⟨⟨hw, hin⟩, by simpa using hne⟩
  · intro r hr
    have hrm := matching_mem "rst" module.wires r (List.mem_of_mem_getLast? hr)
    have hrstne : log_id r.name ≠ "" :=
      log_id_ne_empty _ (found_ne_empty _ (Or.inr hrm.2.2))
    have hscan2 : module.wires.foldl scanClkRst ("", "") = (log_id c.name, log_id r.name) := by
      rw [scanClkRst_fold, hc, hr]; rfl
    refine ⟨hscan2, ?_⟩
    intro undef simCycles vcdFileName seed
    have hfile : createRandomTestBench true undef module simCycles vcdFileName seed
        = .ok (some (randomHeader (log_id module.name) vcdFileName seed ++
          [ Item.line (.setPort (log_id r.name) true),
            Item.line (.setPort (log_id c.name) false),
            Item.line .eval,
            Item.line (.dump 0),
            Item.line (.setPort (log_id r.name) false),
            Item.forLoop (toUnsigned (2 * (simCycles : Int)))
              [ Block.stmt (.toggle (log_id c.name)),
                Block.stmt (.verbatim "    // Update signal on the negedge\n"),
                Block.ifLow (log_id c.name) (module.wires.foldl
                  (randomFill undef (log_id c.name) (log_id r.name)) (false, [])).2,
                Block.stmt .eval,
                Block.stmt .dumpIndex ] ] ++ footer)) := by
      unfold createRandomTestBench
      simp only [not_true_eq_false, if_false, hscan2]
      rw [if_neg hclkne, if_neg hrstne]
    refine ⟨_, (module.wires.foldl (randomFill undef (log_id c.name) (log_id r.name))
      (false, [])).2, hfile, ?_, ?_, ?_⟩
    · simp
    · simp
    · intro w hw hin hne hner
      exact randomFill_fold_writes undef _ _ w hin hne hner module.wires _ hw

theorem clock_is_last_match_witness :
    twoClockCircuit.wires.foldl scanClk "" = log_id (⟨"\\clk_b", 1, true⟩ : Wire).name ∧
    (∀ (cex : ModelCheckingResult) (vcdFileName : String),
      validTrace twoClockCircuit (log_id (⟨"\\clk_b", 1, true⟩ : Wire).name) cex = true →
      (∀ w ∈ twoClockCircuit.wires, w.width < 2147483648) →
      ∃ file : List Item,
        createCexTestBench true twoClockCircuit cex vcdFileName = .ok (some file) ∧
        Item.line (.setPort (log_id (⟨"\\clk_b", 1, true⟩ : Wire).name) true) ∈ file ∧
        Item.line (.toggle (log_id (⟨"\\clk_b", 1, true⟩ : Wire).name)) ∈ file ∧
        ∀ w ∈ twoClockCircuit.wires, w.port_input = true →
          log_id w.name ≠ log_id (⟨"\\clk_b", 1, true⟩ : Wire).name →
          ∀ i, i < cex.numCexStates → replayAssign cex i w ∈ file) ∧
    (∀ (r : Wire), (matching "rst" twoClockCircuit.wires).getLast? = some r →
      twoClockCircuit.wires.foldl scanClkRst ("", "")
        = (log_id (⟨"\\clk_b", 1, true⟩ : Wire).name, log_id r.name) ∧
      ∀ (undef : Int) (simCycles : Nat) (vcdFileName : String) (seed : Nat),
        ∃ (file : List Item) (fills : List Stmt),
          createRandomTestBench true undef twoClockCircuit simCycles vcdFileName seed
            = .ok (some file) ∧
          Item.line (.setPort (log_id r.name) true) ∈ file ∧
          Item.forLoop (toUnsigned (2 * (simCycles : Int)))
            [ Block.stmt (.toggle (log_id (⟨"\\clk_b", 1, true⟩ : Wire).name)),
              Block.stmt (.verbatim "    // Update signal on the negedge\n"),
              Block.ifLow (log_id (⟨"\\clk_b", 1, true⟩ : Wire).name) fills,
              Block.stmt .eval,
              Block.stmt .dumpIndex ] ∈ file ∧
          ∀ w ∈ twoClockCircuit.wires, w.port_input = true →
            log_id w.name ≠ log_id (⟨"\\clk_b", 1, true⟩ : Wire).name →
            log_id w.name ≠ log_id r.name →
            ∃ s ∈ fills, s.randomises (log_id w.name) = true) :=
  clock_is_last_match twoClockCircuit ⟨"\\clk_b", 1, true⟩ (by decide)

set_option maxRecDepth 100000 in
/-- C11, counterexample: in a circuit whose inputs are declared in the order
`clk_a, rst_a, clk_b, rst_b, x`, the first input whose name contains `clk` is
`clk_a` and the first whose name contains `rst` is `rst_a`, but both generators
take `clk_b` as the clock and the random generator takes `rst_b` as the
reset.  The block of the falling edge of the random harness writes random
numbers to `clk_a` and `rst_a`, and the replay harness for a trace of one state
toggles `clk_b` and assigns `clk_a` its recorded value. -/
theorem clock_is_not_first_match :
    (matching "clk" twoClockCircuit.wires).head? = some ⟨"\\clk_a", 1, true⟩ ∧
    (matching "rst" twoClockCircuit.wires).head? = some ⟨"\\rst_a", 1, true⟩ ∧
    twoClockCircuit.wires.foldl scanClk "" = "clk_b" ∧
    twoClockCircuit.wires.foldl scanClkRst ("", "") = ("clk_b", "rst_b") ∧
    "clk_b" ≠ log_id "\\clk_a" ∧ "rst_b" ≠ log_id "\\rst_a" ∧
    createRandomTestBench true 0 twoClockCircuit 2 "out.vcd" 7
      = .ok (some (randomHeader "top" "out.vcd" 7 ++
        [ Item.line (.setPort "rst_b" true),
          Item.line (.setPort "clk_b" false),
          Item.line .eval,
          Item.line (.dump 0),
          Item.line (.setPort "rst_b" false),
          Item.forLoop 4
            [ Block.stmt (.toggle "clk_b"),
              Block.stmt (.verbatim "    // Update signal on the negedge\n"),
              Block.ifLow "clk_b" [Stmt.randomMasked "clk_a" 1, Stmt.randomMasked "rst_a" 1,
                Stmt.randomMasked "x" 255],
              Block.stmt .eval,
              Block.stmt .dumpIndex ] ] ++ footer)) ∧
    createCexTestBench true twoClockCircuit twoClockTrace "out.vcd"
      = .ok (some (cexHeader "top" "out.vcd" "clk_b" ++
        [ Item.line (.verbatim "  // <===== Cex of state =====>0\n"),
          Item.line (.verbatim "  // Falling clock edge:\n"),
          Item.line (.toggle "clk_b"),
          Item.line (.assign "clk_a" "0b1"),
          Item.line (.assign "rst_a" "0b0"),
          Item.line (.assign "rst_b" "0b0"),
          Item.line (.assign "x" "0b11111111"),
          Item.line .eval,
          Item.line (.verbatim "  // Dumping state 0\n"),
          Item.line (.dump 1),
          Item.line (.verbatim "  // Rising clock edge:\n"),
          Item.line (.toggle "clk_b"),
          Item.line .eval,
          Item.line (.dump 2) ] ++ footer)) := by
  refine ⟨by decide, by decide, by decide, by decide, by decide, by decide, by decide,
    by decide⟩

/-- C12, as the code has it: for every circuit in which no input port name
contains `clk`, and whatever the other arguments are, both generators fail with
the missing-clock error when the harness file can be opened; when it cannot be
opened they fail before the clock search, with the file-open error. -/
theorem no_clock_fails (canOpen : Bool) (undef : Int) (module : Module) (simCycles : Nat)
    (vcdFileName : String) (seed : Nat) (cex : ModelCheckingResult)
    (hno : ∀ w ∈ module.wires, w.port_input = true → found w.name "clk" = false) :
    createRandomTestBench canOpen undef module simCycles vcdFileName seed
      = (if canOpen = true then .abort .missingClock (some []) else .abort .openFailed none) ∧
    createCexTestBench canOpen module cex vcdFileName
      = (if canOpen = true then .abort .missingClock (some []) else .abort .openFailed none) := by
  have hm := matching_nil "clk" module.wires hno
  have h1 : (module.wires.foldl scanClkRst ("", "")).1 = "" := by
    rw [scanClkRst_fold, hm]; rfl
  have h2 : module.wires.foldl scanClk "" = "" := by
    rw [scanClk_fold, hm]; rfl
  unfold createRandomTestBench createCexTestBench
  cases canOpen
  · exact ⟨rfl, rfl⟩
  · simp only [not_true_eq_false, if_false, if_true]
    rw [if_pos h1, if_pos h2]
    exact ⟨rfl, rfl⟩

theorem no_clock_fails_witness :
    createRandomTestBench true 0 noClockCircuit 3 "out.vcd" 42
      = (if true = true then .abort .missingClock (some []) else .abort .openFailed none) ∧
    createCexTestBench true noClockCircuit oneStateTrace "out.vcd"
      = (if true = true then .abort .missingClock (some []) else .abort .openFailed none) :=
  no_clock_fails true 0 noClockCircuit 3 "out.vcd" 42 oneStateTrace (by decide)

/-- C12, counterexample: for a circuit without a clock and a harness file that
cannot be opened (the empty path, say), both generators stop at the check of
the output stream with the file-open error, not the missing-clock error. -/
theorem no_clock_unopenable_file :
    createRandomTestBench false 0 noClockCircuit 3 "out.vcd" 42 = .abort .openFailed none ∧
    createCexTestBench false noClockCircuit oneStateTrace "out.vcd" = .abort .openFailed none ∧
    Fault.openFailed ≠ Fault.missingClock := by
  decide

/-- C13, as the code has it: both generators open the harness file before
they look for the ports.  When the clock or the reset is missing (and the file
can be opened), random synthesis fails with the missing-clock or the
missing-reset error and replay synthesis fails with the missing-clock error
when the clock is missing; nothing has been written at that point, but the file
has been opened for writing, so it exists and is empty (created if it was
absent, truncated if it was not). -/
theorem missing_port_leaves_empty_file (undef : Int) (module : Module) (simCycles : Nat)
    (vcdFileName : String) (seed : Nat) (cex : ModelCheckingResult)
    (hmissing : matching "clk" module.wires = [] ∨ matching "rst" module.wires = []) :
    (∃ why, (why = Fault.missingClock ∨ why = Fault.missingReset) ∧
      createRandomTestBench true undef module simCycles vcdFileName seed
        = .abort why (some [])) ∧
    (matching "clk" module.wires = [] →
      createCexTestBench true module cex vcdFileName = .abort .missingClock (some [])) := by
  refine ⟨?_, ?_⟩
  · unfold createRandomTestBench
    simp only [not_true_eq_false, if_false]
    by_cases h1 : (module.wires.foldl scanClkRst ("", "")).1 = ""
    · rw [if_pos h1]
      exact ⟨_, Or.inl rfl, rfl⟩
    · have h2 : (module.wires.foldl scanClkRst ("", "")).2 = "" := by
        rcases hmissing with h | h
        · exfalso
          apply h1
          rw [scanClkRst_fold, h]; rfl
        · rw [scanClkRst_fold, h]; rfl
      rw [if_neg h1, if_pos h2]
      exact ⟨_, Or.inr rfl, rfl⟩
  · intro h
    have h2 : module.wires.foldl scanClk "" = "" := by
      rw [scanClk_fold, h]; rfl
    unfold createCexTestBench
    simp only [not_true_eq_false, if_false]
    rw [if_pos h2]

theorem missing_port_leaves_empty_file_witness :
    (∃ why, (why = Fault.missingClock ∨ why = Fault.missingReset) ∧
      createRandomTestBench true 0 noClockCircuit 3 "out.vcd" 42 = .abort why (some [])) ∧
    (matching "clk" noClockCircuit.wires = [] →
      createCexTestBench true noClockCircuit oneStateTrace "out.vcd"
        = .abort .missingClock (some [])) :=
  missing_port_leaves_empty_file 0 noClockCircuit 3 "out.vcd" 42 oneStateTrace
    (Or.inl (by decide))

/-- C13, counterexample: for a circuit without a clock both generators fail
with the missing-clock error after the harness file has been opened: the file
is there and empty, not untouched. -/
theorem missing_clock_touches_file :
    createRandomTestBench true 0 noClockCircuit 3 "out.vcd" 42
      = .abort .missingClock (some []) ∧
    createCexTestBench true noClockCircuit oneStateTrace "out.vcd"
      = .abort .missingClock (some []) ∧
    (createRandomTestBench true 0 noClockCircuit 3 "out.vcd" 42).stream ≠ none ∧
    (createCexTestBench true noClockCircuit oneStateTrace "out.vcd").stream ≠ none := by
  decide

theorem ports_replayAssign (cex : ModelCheckingResult) (i : Nat) (w : Wire) :
    (replayAssign cex i w).ports = [log_id w.name] := by
  unfold replayAssign; split <;> rfl

theorem ports_replayState (clk : String) (cex : ModelCheckingResult) (ws : List Wire) (i : Nat)
    (item : Item) (hitem : item ∈ replayState clk cex ws i) (p : String) (hp : p ∈ item.ports) :
    p = clk ∨ ∃ w ∈ replayInputs clk ws, p = log_id w.name := by
  unfold replayState at hitem
  rcases List.mem_append.mp hitem with h | h
  · rcases List.mem_append.mp h with h | h
    · simp only [List.mem_cons, List.mem_singleton, List.not_mem_nil, or_false] at h
      rcases h with rfl | rfl | rfl
      · cases hp
      · cases hp
      · left; simpa [Item.ports, Item.line, Block.ports, Stmt.port] using hp
    · obtain ⟨w, hw, rfl⟩ := List.mem_map.mp h
      rw [ports_replayAssign] at hp
      right
      exact ⟨w, hw, List.mem_singleton.mp hp⟩
  · simp only [List.mem_cons, List.mem_singleton, List.not_mem_nil, or_false] at h
    rcases h with rfl | rfl | rfl | rfl | rfl | rfl | rfl
    · cases hp
    · cases hp
    · cases hp
    · cases hp
    · left; simpa [Item.ports, Item.line, Block.ports, Stmt.port] using hp
    · cases hp
    · cases hp

theorem ports_replayStates (clk : String) (cex : ModelCheckingResult) (ws : List Wire) :
    ∀ (count first : Nat) (item : Item), item ∈ replayStates clk cex ws first count →
      ∀ p ∈ item.ports, p = clk ∨ ∃ w ∈ replayInputs clk ws, p = log_id w.name := by
  intro count
  induction count with
  | zero => intro first item h; cases h
  | succ count ih =>
    intro first item h p hp
    rw [replayStates] at h
    rcases List.mem_append.mp h with h | h
    · exact ports_replayState clk cex ws first item h p hp
    · exact ih (first + 1) item h p hp

theorem ports_cexHeader (topName vcdFileName clk : String) (item : Item)
    (hitem : item ∈ cexHeader topName vcdFileName clk) (p : String) (hp : p ∈ item.ports) :
    p = clk := by
  unfold cexHeader at hitem
  simp only [List.mem_cons, List.mem_singleton, List.not_mem_nil, or_false] at hitem
  rcases hitem with rfl | rfl | rfl | rfl | rfl | rfl | rfl | rfl | rfl | rfl | rfl | rfl | rfl |
    rfl | rfl | rfl
  all_goals first
    | (cases hp; done)
    | simpa [Item.ports, Item.line, Block.ports, Stmt.port] using hp

theorem ports_footer (item : Item) (hitem : item ∈ footer) (p : String) (hp : p ∈ item.ports) :
    False := by
  unfold footer at hitem
  simp only [List.mem_cons, List.mem_singleton, List.not_mem_nil, or_false] at hitem
  rcases hitem with rfl | rfl | rfl | rfl <;> cases hp

/-- C14: reset is mode-dependent.  For every circuit that has an input port
whose name contains `clk` but none whose name contains `rst` (and an openable
harness file), random synthesis fails with the missing-reset error, while
replay synthesis with a valid trace succeeds and every port that its harness
refers to is an input port of the circuit, none of which is a reset. -/
theorem reset_is_mode_dependent (undef : Int) (module : Module) (simCycles : Nat)
    (vcdFileName : String) (seed : Nat) (cex : ModelCheckingResult)
    (hclk : ∃ w ∈ module.wires, w.port_input = true ∧ found w.name "clk" = true)
    (hnorst : ∀ w ∈ module.wires, w.port_input = true → found w.name "rst" = false)
    (hvalid : validTrace module (module.wires.foldl scanClk "") cex = true)
    (hwidth : ∀ w ∈ module.wires, w.width < 2147483648) :
    createRandomTestBench true undef module simCycles vcdFileName seed
      = .abort .missingReset (some []) ∧
    ∃ file : List Item,
      createCexTestBench true module cex vcdFileName = .ok (some file) ∧
      ∀ item ∈ file, ∀ p ∈ item.ports,
        ∃ w ∈ module.wires, w.port_input = true ∧ p = log_id w.name ∧
          found w.name "rst" = false := by
  obtain ⟨w0, hw0, hin0, hf0⟩ := hclk
  obtain ⟨c, hc⟩ := matching_last "clk" module.wires w0 hw0 hin0 hf0
  have hcm := matching_mem "clk" module.wires c (List.mem_of_mem_getLast? hc)
  have hclkname : module.wires.foldl scanClk "" = log_id c.name := by
    rw [scanClk_fold, hc]; rfl
  have hne : log_id c.name ≠ "" :=
    log_id_ne_empty _ (found_ne_empty _ (Or.inl hcm.2.2))
  have hrst := matching_nil "rst" module.wires hnorst
  refine ⟨?_, ?_⟩
  · have h1 : (module.wires.foldl scanClkRst ("", "")).1 = log_id c.name := by
      rw [scanClkRst_fold, hc]; rfl
    have h2 : (module.wires.foldl scanClkRst ("", "")).2 = "" := by
      rw [scanClkRst_fold, hrst]; rfl
    unfold createRandomTestBench
    simp only [not_true_eq_false, if_false]
    rw [h1, h2, if_neg hne, if_pos rfl]
  · refine ⟨_, createCexTestBench_ok module cex vcdFileName (by rw [hclkname]; exact hne)
      hvalid hwidth, ?_⟩
    intro item hitem p hp
    have hcase : p = module.wires.foldl scanClk "" ∨
        ∃ w ∈ replayInputs (module.wires.foldl scanClk "") (getSortedInput module),
          p = log_id w.name := by
      rcases List.mem_append.mp hitem with h | h
      · rcases List.mem_append.mp h with h | h
        · exact Or.inl (ports_cexHeader _ _ _ item h p hp)
        · exact ports_replayStates _ cex _ _ _ item h p hp
      · exact (ports_footer item h p hp).elim
    rcases hcase with h | ⟨w, hw, h⟩
    · exact ⟨c, hcm.1, hcm.2.1, by rw [h, hclkname], hnorst c hcm.1 hcm.2.1⟩
    · have hwin : w ∈ module.wires ∧ w.port_input = true := by
        have := (List.mem_filter.mp hw).1
        simpa [getSortedInput] using this
      exact ⟨w, hwin.1, hwin.2, h, hnorst w hwin.1 hwin.2⟩

theorem reset_is_mode_dependent_witness :
    createRandomTestBench true 0 replayCircuit 3 "out.vcd" 42
      = .abort .missingReset (some []) ∧
    ∃ file : List Item,
      createCexTestBench true replayCircuit replayTrace "out.vcd" = .ok (some file) ∧
      ∀ item ∈ file, ∀ p ∈ item.ports,
        ∃ w ∈ replayCircuit.wires, w.port_input = true ∧ p = log_id w.name ∧
          found w.name "rst" = false :=
  reset_is_mode_dependent 0 replayCircuit 3 "out.vcd" 42 replayTrace
    ⟨⟨"\\clk", 1, true⟩, by decide, by decide, by decide⟩ (by decide) (by decide) (by decide)

/-! ## Malformed traces -/

/-- Replay synthesis for a trace without states stops at the assertion after
the header has been written to the stream; the program is stopped there, so
it is not fixed what the file holds. -/
theorem empty_trace_stops_at_assertion :
    createCexTestBench true replayCircuit emptyTrace "out.vcd"
      = .abort .assertion (some (cexHeader "top" "out.vcd" "clk")) ∧
    (createCexTestBench true replayCircuit emptyTrace "out.vcd").file = none := by
  decide

/-! ## Flip-flop initialisation check -/

theorem checkFFLoop_spec (ffData : FfData) (hlen : ffData.val_init.length = ffData.width) :
    ∀ (k fuel bit : Nat), bit + k = ffData.width → k < fuel →
      checkFFLoop ffData fuel bit
        = if (ffData.val_init.drop bit).all State.isConcrete = true then (some true, "")
          else (some false, ffWarning ffData) := by
  intro k
  induction k with
  | zero =>
    intro fuel bit hk hf
    obtain ⟨f, rfl⟩ : ∃ f, fuel = f + 1 := ⟨fuel - 1, by omega⟩
    have hdrop : ffData.val_init.drop bit = [] := List.drop_eq_nil_of_le (by omega)
    rw [checkFFLoop, if_neg (by omega), hdrop]
    rfl
  | succ k ih =>
    intro fuel bit hk hf
    obtain ⟨f, rfl⟩ : ∃ f, fuel = f + 1 := ⟨fuel - 1, by omega⟩
    have hlt : bit < ffData.val_init.length := by omega
    have hget : ffData.val_init.get? bit = some ffData.val_init[bit] := by
      rw [List.get?_eq_getElem?, List.getElem?_eq_getElem hlt]
    have hdrop : ffData.val_init.drop bit
        = ffData.val_init[bit] :: ffData.val_init.drop (bit + 1) :=
      List.drop_eq_getElem_cons hlt
    rw [checkFFLoop, if_pos (by omega), hget]
    simp only
    rw [hdrop, List.all_cons]
    by_cases hs : ffData.val_init[bit] ≠ State.S0 ∧ ffData.val_init[bit] ≠ State.S1
    · have hc : ffData.val_init[bit].isConcrete = false := by
        simp [State.isConcrete, hs.1, hs.2]
      rw [if_pos hs, hc]
      rfl
    · have hc : ffData.val_init[bit].isConcrete = true := by
        simp only [State.isConcrete, Bool.or_eq_true, decide_eq_true_eq]
        by_cases h0 : ffData.val_init[bit] = State.S0
        · exact Or.inl h0
        · right
          by_contra h1
          exact hs ⟨h0, h1⟩
      rw [if_neg hs, hc, ih f (bit + 1) (by omega) (by omega)]
      simp

/-- C16: for a flip-flop whose recorded initial value has `width` bits,
`checkFFInitialized` returns, and it returns true if and only if every bit
`0 .. width-1` of the initial value is a concrete 0 or 1.  When it returns true
nothing is written to `std::cerr`; when it returns false there is a first
undefined bit and exactly one diagnostic is written: the line
`Warning: <name> has not been initialized!` with the name of the flip-flop,
followed by the line `HDL src: <src>` when the cell has a `src` attribute. -/
theorem checkFFInitialized_spec (ffData : FfData)
    (hlen : ffData.val_init.length = ffData.width) :
    ∃ b : Bool,
      checkFFInitialized ffData
        = (some b, if b = true then "" else
            "Warning: " ++ log_id ffData.name ++ " has not been initialized!\n" ++
            (match ffData.src with
              | some src => "HDL src: " ++ src ++ "\n"
              | none => "")) ∧
      (b = true ↔ ∀ bit, bit < ffData.width →
        ffData.val_init.get? bit = some State.S0 ∨ ffData.val_init.get? bit = some State.S1) ∧
      (b = false ↔ ∃ bit, bit < ffData.width ∧
        ffData.val_init.get? bit ≠ some State.S0 ∧ ffData.val_init.get? bit ≠ some State.S1 ∧
        ∀ j, j < bit →
          ffData.val_init.get? j = some State.S0 ∨ ffData.val_init.get? j = some State.S1) := by
  have hspec := checkFFLoop_spec ffData hlen ffData.width (ffData.width + 1) 0
    (by omega) (by omega)
  rw [List.drop_zero] at hspec
  have hall : (ffData.val_init.all State.isConcrete = true) ↔
      ∀ bit, bit < ffData.width →
        ffData.val_init.get? bit = some State.S0 ∨ ffData.val_init.get? bit = some State.S1 := by
    rw [List.all_eq_true]
    constructor
    · intro h bit hbit
      have hlt : bit < ffData.val_init.length := by omega
      have hc := h _ (List.getElem_mem hlt)
      rw [List.get?_eq_getElem?, List.getElem?_eq_getElem hlt]
      simp only [State.isConcrete, Bool.or_eq_true, decide_eq_true_eq] at hc
      rcases hc with hc | hc
      · exact Or.inl (by rw [hc])
      · exact Or.inr (by rw [hc])
    · intro h s hs
      obtain ⟨bit, hlt, rfl⟩ := List.getElem_of_mem hs
      have := h bit (by omega)
      rw [List.get?_eq_getElem?, List.getElem?_eq_getElem hlt] at this
      simp only [State.isConcrete, Bool.or_eq_true, decide_eq_true_eq]
      rcases this with h1 | h1
      · exact Or.inl (Option.some.inj h1)
      · exact Or.inr (Option.some.inj h1)
  have hfirst : (¬ ∀ bit, bit < ffData.width →
        ffData.val_init.get? bit = some State.S0 ∨ ffData.val_init.get? bit = some State.S1) ↔
      ∃ bit, bit < ffData.width ∧
        ffData.val_init.get? bit ≠ some State.S0 ∧ ffData.val_init.get? bit ≠ some State.S1 ∧
        ∀ j, j < bit →
          ffData.val_init.get? j = some State.S0 ∨ ffData.val_init.get? j = some State.S1 := by
    constructor
    · intro h
      have hex : ∃ bit, bit < ffData.width ∧
          ¬ (ffData.val_init.get? bit = some State.S0 ∨
            ffData.val_init.get? bit = some State.S1) := by
        by_contra hc
        apply h
        intro bit hbit
        by_contra hb
        exact hc ⟨bit, hbit, hb⟩
      classical
      refine ⟨Nat.find hex, (Nat.find_spec hex).1, ?_, ?_, ?_⟩
      · exact fun hc => (Nat.find_spec hex).2 (Or.inl hc)
      · exact fun hc => (Nat.find_spec hex).2 (Or.inr hc)
      · intro j hj
        by_contra hc
        exact Nat.find_min hex hj ⟨by have := (Nat.find_spec hex).1; omega, hc⟩
    · rintro ⟨bit, hbit, h0, h1, _⟩ h
      rcases h bit hbit with hc | hc
      · exact h0 hc
      · exact h1 hc
  by_cases hc : ffData.val_init.all State.isConcrete = true
  · refine ⟨true, ?_, ?_, ?_⟩
    · unfold checkFFInitialized
      rw [hspec, if_pos hc]
      rfl
    · exact ⟨fun _ => hall.mp hc, fun _ => rfl⟩
    · constructor
      · intro h; cases h
      · intro h
        exact absurd (hall.mp hc) (hfirst.mpr h)
  · refine ⟨false, ?_, ?_, ?_⟩
    · unfold checkFFInitialized
      rw [hspec, if_neg hc]
      rfl
    · constructor
      · intro h; cases h
      · intro h
        exact absurd (hall.mpr h) hc
    · exact ⟨fun _ => hfirst.mp (fun h => hc (hall.mpr h)), fun _ => rfl⟩

theorem checkFFInitialized_spec_witness :
    ∃ b : Bool,
      checkFFInitialized undefinedFf
        = (some b, if b = true then "" else
            "Warning: " ++ log_id undefinedFf.name ++ " has not been initialized!\n" ++
            (match undefinedFf.src with
              | some src => "HDL src: " ++ src ++ "\n"
              | none => "")) ∧
      (b = true ↔ ∀ bit, bit < undefinedFf.width →
        undefinedFf.val_init.get? bit = some State.S0 ∨
          undefinedFf.val_init.get? bit = some State.S1) ∧
      (b = false ↔ ∃ bit, bit < undefinedFf.width ∧
        undefinedFf.val_init.get? bit ≠ some State.S0 ∧
        undefinedFf.val_init.get? bit ≠ some State.S1 ∧
        ∀ j, j < bit →
          undefinedFf.val_init.get? j = some State.S0 ∨
            undefinedFf.val_init.get? j = some State.S1) :=
  checkFFInitialized_spec undefinedFf (by decide)

/-- The check on the three-bit flip-flop with an undefined bit 1: false, and
the warning with the source annotation. -/
theorem checkFFInitialized_example :
    checkFFInitialized undefinedFf
      = (some false, "Warning: q has not been initialized!\nHDL src: top.v:12\n") := by
  decide

/-! ## Tool-chain invocation -/

theorem makeCommand_ne_verilatorCommand (verilator objDir : String) (verilogSrcs : List String)
    (testbench topName : String) :
    makeCommand objDir topName
      ≠ verilatorCommand verilator objDir verilogSrcs testbench topName := by
  intro h
  have hd := congrArg String.data h
  simp only [makeCommand, verilatorCommand, quoted, String.data_append] at hd
  simp only [List.cons_append] at hd
  exact absurd (List.cons.inj hd).1 (by decide)

/-- C17: with the shell a function from the command to the exit status and the
output, `buildVerilatorModel` fails with the compile error if and only if the
exit status of stage one is not zero.  Then stage one is the only command
invoked and stage two is not invoked; otherwise stage one and then stage two
are invoked, stage two exactly once, and the call returns whatever stage two
reports. -/
theorem build_fails_iff_stage_one_fails (shell : String → Int × String)
    (verilator objDir : String) (verilogSrcs : List String) (testbench topName : String) :
    ((buildVerilatorModel shell verilator objDir verilogSrcs testbench topName).error
        = some "Verilator compilation failed" ↔
      (shell (verilatorCommand verilator objDir verilogSrcs testbench topName)).1 ≠ 0) ∧
    ((buildVerilatorModel shell verilator objDir verilogSrcs testbench topName).error = none ↔
      (shell (verilatorCommand verilator objDir verilogSrcs testbench topName)).1 = 0) ∧
    (buildVerilatorModel shell verilator objDir verilogSrcs testbench topName).invoked
      = (if (shell (verilatorCommand verilator objDir verilogSrcs testbench topName)).1 ≠ 0
          then [verilatorCommand verilator objDir verilogSrcs testbench topName]
          else [verilatorCommand verilator objDir verilogSrcs testbench topName,
            makeCommand objDir topName]) ∧
    ((buildVerilatorModel shell verilator objDir verilogSrcs testbench topName).invoked).count
        (makeCommand objDir topName)
      = (if (shell (verilatorCommand verilator objDir verilogSrcs testbench topName)).1 ≠ 0
          then 0 else 1) := by
  have hne := makeCommand_ne_verilatorCommand verilator objDir verilogSrcs testbench topName
  have hne2 : ¬ (verilatorCommand verilator objDir verilogSrcs testbench topName
      = makeCommand objDir topName) := fun h => hne h.symm
  by_cases hcode : (shell (verilatorCommand verilator objDir verilogSrcs testbench topName)).1 ≠ 0
  · simp [buildVerilatorModel, hcode, List.count_cons, hne2]
  · have hzero : (shell (verilatorCommand verilator objDir verilogSrcs testbench topName)).1 = 0 := by
      by_contra h; exact hcode h
    simp [buildVerilatorModel, hzero, List.count_cons, hne2]

/-! ## Clock discipline of a replay -/

theorem exec_replayAssign (cex : ModelCheckingResult) (i : Nat) (w : Wire) (m : Machine) :
    (replayAssign cex i w).exec m
      = some (m.write (log_id w.name) none (replayWrite cex i w)) := by
  by_cases h : w.width ≤ 32
  · simp only [replayAssign, replayWrite, if_pos h]
    rfl
  · simp only [replayAssign, replayWrite, if_neg h]
    rfl

theorem exec_assigns (clk : String) (cex : ModelCheckingResult) (i : Nat) :
    ∀ (ws : List Wire) (m : Machine), (∀ w ∈ ws, log_id w.name ≠ clk) →
      ∃ m1 : Machine, execFile (ws.map (replayAssign cex i)) m = some m1 ∧
        m1.log = m.log ++ ws.map (replayWrite cex i) ∧ m1.env clk = m.env clk := by
  intro ws
  induction ws with
  | nil => intro m _; exact ⟨m, rfl, by simp, rfl⟩
  | cons w rest ih =>
    intro m h
    have hw : log_id w.name ≠ clk := h w (List.mem_cons_self _ _)
    obtain ⟨m1, hm1, hlog1, henv1⟩ := ih (m.write (log_id w.name) none (replayWrite cex i w))
      (fun x hx => h x (List.mem_cons_of_mem _ hx))
    refine ⟨m1, ?_, ?_, ?_⟩
    · rw [List.map_cons, execFile, exec_replayAssign]
      exact hm1
    · rw [hlog1]
      simp [Machine.write]
    · rw [henv1]
      show (if clk = log_id w.name then none else m.env clk) = _
      rw [if_neg (fun hc => hw hc.symm)]

theorem exec_replayState (clk : String) (cex : ModelCheckingResult) (ws : List Wire) (i : Nat)
    (m : Machine) (hi : i + 1 < 2147483648) (henv : m.env clk = some true) :
    ∃ m1 : Machine, execFile (replayState clk cex ws i) m = some m1 ∧
      m1.log = m.log ++ stateEvents clk ((replayInputs clk ws).map (replayWrite cex i)) i ∧
      m1.env clk = some true := by
  have h1 : toUnsigned (2 * (i : Int) + 1) = 2 * i + 1 := by
    unfold toUnsigned; omega
  have h2 : toUnsigned (2 * (i : Int) + 2) = 2 * i + 2 := by
    unfold toUnsigned; omega
  have hne : ∀ w ∈ replayInputs clk ws, log_id w.name ≠ clk := by
    intro w hw
    have := (List.mem_filter.mp hw).2
    simpa using this
  have hhead : ∀ (a b : String),
      execFile [Item.line (.verbatim a), Item.line (.verbatim b), Item.line (.toggle clk)] m
        = some ((Stmt.toggle clk).exec 0 m) := fun _ _ => rfl
  have htail : ∀ (a b : String) (x y : Nat) (m2 : Machine),
      execFile [Item.line .eval, Item.line (.verbatim a), Item.line (.dump x),
        Item.line (.verbatim b), Item.line (.toggle clk), Item.line .eval, Item.line (.dump y)] m2
        = some ⟨fun p => if p = clk then (m2.env clk).map not else m2.env p,
            m2.log ++ [Event.eval] ++ [Event.dump x] ++
              [Event.toggle clk ((m2.env clk).map not)] ++ [Event.eval] ++ [Event.dump y]⟩ :=
    fun _ _ _ _ _ => rfl
  obtain ⟨m2, hm2, hlog2, henv2⟩ := exec_assigns clk cex i (replayInputs clk ws)
    ((Stmt.toggle clk).exec 0 m) hne
  have hlow : ((Stmt.toggle clk).exec 0 m).env clk = some false := by
    simp [Stmt.exec, Machine.write, henv]
  have hlog : ((Stmt.toggle clk).exec 0 m).log = m.log ++ [Event.toggle clk (some false)] := by
    simp [Stmt.exec, Machine.write, henv]
  rw [hlow] at henv2
  rw [hlog] at hlog2
  refine ⟨⟨fun p => if p = clk then (m2.env clk).map not else m2.env p,
    m2.log ++ [Event.eval] ++ [Event.dump (2 * i + 1)] ++
      [Event.toggle clk ((m2.env clk).map not)] ++ [Event.eval] ++ [Event.dump (2 * i + 2)]⟩,
    ?_, ?_, ?_⟩
  · unfold replayState
    rw [h1, h2, execFile_append, execFile_append, hhead]
    simp only
    rw [hm2]
    simp only
    rw [htail]
  · simp only [hlog2, henv2, stateEvents]
    simp
  · simp [henv2]

theorem exec_replayStates (clk : String) (cex : ModelCheckingResult) (ws : List Wire) :
    ∀ (count first : Nat) (m : Machine), first + count < 2147483648 →
      m.env clk = some true →
      ∃ m1 : Machine, execFile (replayStates clk cex ws first count) m = some m1 ∧
        m1.log = m.log ++ ((List.range' first count).map (fun i =>
          stateEvents clk ((replayInputs clk ws).map (replayWrite cex i)) i)).flatten ∧
        m1.env clk = some true := by
  intro count
  induction count with
  | zero => intro first m _ henv; exact ⟨m, rfl, by simp, henv⟩
  | succ count ih =>
    intro first m hlt henv
    obtain ⟨m1, hm1, hlog1, henv1⟩ := exec_replayState clk cex ws first m (by omega) henv
    obtain ⟨m2, hm2, hlog2, henv2⟩ := ih (first + 1) m1 (by omega) henv1
    refine ⟨m2, ?_, ?_, henv2⟩
    · rw [replayStates, execFile_append, hm1]
      exact hm2
    · have hr : List.range' first (count + 1) = first :: List.range' (first + 1) count := rfl
      rw [hlog2, hlog1, hr, List.map_cons, List.flatten_cons, List.append_assoc]

theorem injection_writes (clk : String) (cex : ModelCheckingResult) (i : Nat)
    (rest : List Event) :
    ∀ (ws : List Wire), (∀ w ∈ ws, log_id w.name ≠ clk) →
      fallingEdgeInjection clk (ws.map (replayWrite cex i) ++ rest) (some false) false
        = fallingEdgeInjection clk rest (some false) false := by
  intro ws
  induction ws with
  | nil => intro _; rfl
  | cons w tail ih =>
    intro h
    have hw : log_id w.name ≠ clk := h w (List.mem_cons_self _ _)
    rw [List.map_cons, List.cons_append, fallingEdgeInjection]
    simp only [replayWrite, Event.isWrite, Event.clockAfter, Event.risenAfter, if_neg hw]
    rw [ih (fun x hx => h x (List.mem_cons_of_mem _ hx))]
    simp

theorem injection_state (clk : String) (cex : ModelCheckingResult) (i k : Nat)
    (rest : List Event) (ws : List Wire) (h : ∀ w ∈ ws, log_id w.name ≠ clk) :
    fallingEdgeInjection clk (stateEvents clk (ws.map (replayWrite cex i)) k ++ rest)
        (some true) false
      = fallingEdgeInjection clk rest (some true) false := by
  unfold stateEvents
  rw [List.append_assoc, List.append_assoc, List.singleton_append, fallingEdgeInjection]
  simp only [Event.isWrite, Event.clockAfter, Event.risenAfter, if_true]
  have hr : ((clk == clk && (some false == some true)) || false) = false := by simp
  rw [hr, injection_writes clk cex i _ ws h]
  simp [fallingEdgeInjection, Event.isWrite, Event.clockAfter, Event.risenAfter]

theorem injection_states (clk : String) (cex : ModelCheckingResult) (ws : List Wire)
    (h : ∀ w ∈ ws, log_id w.name ≠ clk) (rest : List Event) :
    ∀ (l : List Nat),
      fallingEdgeInjection clk ((l.map (fun i =>
          stateEvents clk (ws.map (replayWrite cex i)) i)).flatten ++ rest) (some true) false
        = fallingEdgeInjection clk rest (some true) false := by
  intro l
  induction l with
  | nil => rfl
  | cons i tail ih =>
    rw [List.map_cons, List.flatten_cons, List.append_assoc, injection_state clk cex i i _ ws h]
    exact ih

/-- C18: in replay mode, for a circuit with a clock and a valid trace with `N`
states (`N < 2^31`, port widths below `2^31`), synthesis succeeds and executing
the harness gives: clock set high, evaluate, dump frame 0, and then for every
state `i = 0 .. N-1` in order a toggle that takes the clock to low (a falling
edge), the writes of the recorded values to the inputs other than the clock,
evaluate, dump, a toggle that takes the clock to high (a rising edge), evaluate,
dump.  Simulating the clock along these events, every write of an input happens
while the clock is low, and none between a rising edge and the dump that follows
it. -/
theorem replay_falling_edge_injection (module : Module) (cex : ModelCheckingResult)
    (vcdFileName : String)
    (hclk : module.wires.foldl scanClk "" ≠ "")
    (hvalid : validTrace module (module.wires.foldl scanClk "") cex = true)
    (hwidth : ∀ w ∈ module.wires, w.width < 2147483648)
    (hstates : cex.numCexStates < 2147483648) :
    ∃ (file : List Item) (log : List Event),
      createCexTestBench true module cex vcdFileName = .ok (some file) ∧
      run file = some log ∧
      log = [Event.set (module.wires.foldl scanClk "") true, Event.eval, Event.dump 0] ++
        ((List.range' 0 cex.numCexStates).map (fun i =>
          stateEvents (module.wires.foldl scanClk "")
            ((replayInputs (module.wires.foldl scanClk "") (getSortedInput module)).map
              (replayWrite cex i)) i)).flatten ∧
      (∀ w ∈ replayInputs (module.wires.foldl scanClk "") (getSortedInput module),
        log_id w.name ≠ module.wires.foldl scanClk "") ∧
      fallingEdgeInjection (module.wires.foldl scanClk "") log none false = true := by
  have hfile := createCexTestBench_ok module cex vcdFileName hclk hvalid hwidth
  generalize module.wires.foldl scanClk "" = clk at hfile ⊢
  have hne : ∀ w ∈ replayInputs clk (getSortedInput module), log_id w.name ≠ clk := by
    intro w hw
    have := (List.mem_filter.mp hw).2
    simpa using this
  let m0 : Machine := ⟨fun _ => none, []⟩
  let mh : Machine := (Stmt.dump 0).exec 0 (Stmt.eval.exec 0 ((Stmt.setPort clk true).exec 0 m0))
  have hhead : execFile (cexHeader (log_id module.name) vcdFileName clk) m0 = some mh := rfl
  have hhlog : mh.log = [Event.set clk true, Event.eval, Event.dump 0] := rfl
  have hhenv : mh.env clk = some true := by
    show (if clk = clk then some true else none) = _
    rw [if_pos rfl]
  have hfoot : ∀ (m : Machine), execFile footer m = some m := fun _ => rfl
  obtain ⟨m1, hm1, hlog1, _⟩ := exec_replayStates clk cex (getSortedInput module)
    cex.numCexStates 0 mh (by omega) hhenv
  refine ⟨_, _, hfile, ?_, rfl, hne, ?_⟩
  · show (execFile _ m0).map (fun m => m.log) = _
    rw [execFile_append, execFile_append, hhead]
    simp only
    rw [hm1]
    simp only
    rw [hfoot, Option.map_some', hlog1, hhlog]
  · have hs := injection_states clk cex (replayInputs clk (getSortedInput module)) hne []
      (List.range' 0 cex.numCexStates)
    rw [List.append_nil] at hs
    show fallingEdgeInjection clk (Event.set clk true :: Event.eval :: Event.dump 0 :: _)
      none false = true
    simp only [fallingEdgeInjection, Event.isWrite, Event.clockAfter, Event.risenAfter, if_true,
      List.append_eq, List.nil_append]
    rw [hs]
    simp [fallingEdgeInjection]

theorem replay_falling_edge_injection_witness :
    ∃ (file : List Item) (log : List Event),
      createCexTestBench true replayCircuit replayTrace "out.vcd" = .ok (some file) ∧
      run file = some log ∧
      log = [Event.set (replayCircuit.wires.foldl scanClk "") true, Event.eval, Event.dump 0] ++
        ((List.range' 0 replayTrace.numCexStates).map (fun i =>
          stateEvents (replayCircuit.wires.foldl scanClk "")
            ((replayInputs (replayCircuit.wires.foldl scanClk "")
              (getSortedInput replayCircuit)).map (replayWrite replayTrace i)) i)).flatten ∧
      (∀ w ∈ replayInputs (replayCircuit.wires.foldl scanClk "") (getSortedInput replayCircuit),
        log_id w.name ≠ replayCircuit.wires.foldl scanClk "") ∧
      fallingEdgeInjection (replayCircuit.wires.foldl scanClk "") log none false = true :=
  replay_falling_edge_injection replayCircuit replayTrace "out.vcd" (by decide) (by decide)
    (by decide) (by decide)

/-! ## Wide ports -/

set_option maxRecDepth 100000 in
/-- C19: for the circuit `clk, rst, x: in 8, w: in 352` the random harness has
11 word assignments for `w`, but the index of the last one is written `a`: the
`std::hex` that the mask of `x` put on the stream is still in force when the
indices of `w` are written.  With `w` declared before `x` the same index is
written `10`. -/
theorem random_word_index_hex :
    createRandomTestBench true 0 hexIndexCircuit 1 "out.vcd" 0
      = .ok (some (randomHeader "top" "out.vcd" 0 ++
        [ Item.line (.setPort "rst" true),
          Item.line (.setPort "clk" false),
          Item.line .eval,
          Item.line (.dump 0),
          Item.line (.setPort "rst" false),
          Item.forLoop 2
            [ Block.stmt (.toggle "clk"),
              Block.stmt (.verbatim "    // Update signal on the negedge\n"),
              Block.ifLow "clk" (Stmt.randomMasked "x" 255 ::
                (List.range 11).map (fun (i : Nat) => Stmt.randomWord "w" (i : Int) true)),
              Block.stmt .eval,
              Block.stmt .dumpIndex ] ] ++ footer)) ∧
    Block.render "    " (Block.ifLow "clk" (Stmt.randomMasked "x" 255 ::
        (List.range 11).map (fun (i : Nat) => Stmt.randomWord "w" (i : Int) true)))
      = "    if (!top->clk)\x7b\n" ++
        "      top->x = randomEngine() & 0xff;\n" ++
        "      top->w[0]  = randomEngine();\n" ++
        "      top->w[1]  = randomEngine();\n" ++
        "      top->w[2]  = randomEngine();\n" ++
        "      top->w[3]  = randomEngine();\n" ++
        "      top->w[4]  = randomEngine();\n" ++
        "      top->w[5]  = randomEngine();\n" ++
        "      top->w[6]  = randomEngine();\n" ++
        "      top->w[7]  = randomEngine();\n" ++
        "      top->w[8]  = randomEngine();\n" ++
        "      top->w[9]  = randomEngine();\n" ++
        "      top->w[a]  = randomEngine();\n" ++
        "    \x7d\n" ∧
    concat (((decimalIndexCircuit.wires.foldl (randomFill 0 "clk" "rst") (false, [])).2).map
        (Stmt.render "      "))
      = "      top->w[0]  = randomEngine();\n" ++
        "      top->w[1]  = randomEngine();\n" ++
        "      top->w[2]  = randomEngine();\n" ++
        "      top->w[3]  = randomEngine();\n" ++
        "      top->w[4]  = randomEngine();\n" ++
        "      top->w[5]  = randomEngine();\n" ++
        "      top->w[6]  = randomEngine();\n" ++
        "      top->w[7]  = randomEngine();\n" ++
        "      top->w[8]  = randomEngine();\n" ++
        "      top->w[9]  = randomEngine();\n" ++
        "      top->w[10]  = randomEngine();\n" ++
        "      top->x = randomEngine() & 0xff;\n" := by
  refine ⟨by decide, by decide, by decide⟩

theorem wideLoop_step (bits : List Bool) (symbolName : String) (chunks : Int) (fuel : Nat)
    (i : Int) (os : String) :
    wideLoop bits symbolName chunks (fuel + 1) i os
      = if i < chunks then
          if ¬ ((1 + wideMsb bits i + 18446744073709551616 - wideLsb i)
              % 18446744073709551616 ≤ 32) then
            .abort .assertion (os ++ symbolName ++ "[" ++ toString i ++ "] = ")
          else if ¬ (¬ (i < toInt32 (chunks - 1)) ∨
              (wideMsb bits i + 18446744073709551616 - wideLsb i + 1)
                % 18446744073709551616 = 32) then
            .abort .assertion (os ++ symbolName ++ "[" ++ toString i ++ "] = ")
          else
            match dumpSlice bits (os ++ symbolName ++ "[" ++ toString i ++ "] = ")
                (wideMsb bits i) (wideLsb i) with
            | .ok os2 => wideLoop bits symbolName chunks fuel (toInt32 (i + 1)) (os2 ++ ";\n")
            | .abort why os2 => .abort why os2
        else .ok os := rfl

/-- C20: for a bit-vector of `w` bits (`w < 2^31`, the range of the `int`
positions) the call of `dumpVerilatorWideNumberAssignment` returns: no
assertion fails and no bit is read outside the vector.  In every iteration
`i` of its loop both assertions hold (chunk size at most 32; exactly 32 unless
the chunk is the last one), the arguments of `dumpSlice` satisfy `msb >= lsb`
and `msb <= w - 1`, the bit positions `lsb .. msb` are inside the vector and
the call of `dumpSlice` returns.  For `w = 0` the stream is left as it was. -/
theorem wide_assignment_contract (bits : List Bool) (os symbolName : String)
    (hlen : bits.length < 2147483648) :
    (dumpVerilatorWideNumberAssignment bits os symbolName).returned = true ∧
    (bits.length = 0 → dumpVerilatorWideNumberAssignment bits os symbolName = .ok os) ∧
    ∀ (i : Nat), (i : Int) < wideChunks bits →
      (1 + wideMsb bits i + 18446744073709551616 - wideLsb i) % 18446744073709551616 ≤ 32 ∧
      ((i : Int) < toInt32 (wideChunks bits - 1) →
        (wideMsb bits i + 18446744073709551616 - wideLsb i + 1) % 18446744073709551616 = 32) ∧
      wideMsb bits i ≥ wideLsb i ∧
      wideMsb bits i ≤ toSizeT ((bits.length : Int) - 1) ∧
      wideMsb bits i < bits.length ∧
      ∀ (os1 : String), (dumpSlice bits os1 (wideMsb bits i) (wideLsb i)).returned = true := by
  have hok := wide_ok bits os symbolName hlen
  refine ⟨by rw [hok]; rfl, ?_, ?_⟩
  · intro h0
    rw [hok, h0]
    refine congrArg Emit.ok ?_
    show os ++ "" = os
    exact String.append_empty os
  · intro i hi
    rw [wideChunks_eq bits hlen] at hi ⊢
    have hi2 : i < (bits.length + 31) / 32 := by omega
    have hlsb : wideLsb (i : Int) = 32 * i := by
      unfold wideLsb
      rw [toInt32_id _ (by omega) (by omega)]; unfold toSizeT; omega
    have hmsb : wideMsb bits (i : Int) = min (32 * i + 31) (bits.length - 1) :=
      wide_msb bits.length i hlen (by omega)
    have hlast : toInt32 ((((bits.length + 31) / 32 : Nat) : Int) - 1)
        = (((bits.length + 31) / 32 : Nat) : Int) - 1 :=
      toInt32_id _ (by omega) (by omega)
    have hs : toSizeT ((bits.length : Int) - 1) = bits.length - 1 := by
      unfold toSizeT; omega
    rw [hlsb, hmsb, hlast, hs]
    refine ⟨by omega, fun hnot => by omega, by omega, by omega, by omega, fun os1 => ?_⟩
    rw [dumpSlice_ok bits os1 _ _ hlen (by omega) (by omega)]
    rfl

theorem wide_assignment_contract_witness :
    (dumpVerilatorWideNumberAssignment (List.replicate 40 true) "" "top->a").returned = true ∧
    ((List.replicate 40 true).length = 0 →
      dumpVerilatorWideNumberAssignment (List.replicate 40 true) "" "top->a" = .ok "") ∧
    ∀ (i : Nat), (i : Int) < wideChunks (List.replicate 40 true) →
      (1 + wideMsb (List.replicate 40 true) i + 18446744073709551616 - wideLsb i)
        % 18446744073709551616 ≤ 32 ∧
      ((i : Int) < toInt32 (wideChunks (List.replicate 40 true) - 1) →
        (wideMsb (List.replicate 40 true) i + 18446744073709551616 - wideLsb i + 1)
          % 18446744073709551616 = 32) ∧
      wideMsb (List.replicate 40 true) i ≥ wideLsb i ∧
      wideMsb (List.replicate 40 true) i ≤ toSizeT (((List.replicate 40 true).length : Int) - 1) ∧
      wideMsb (List.replicate 40 true) i < (List.replicate 40 true).length ∧
      ∀ (os1 : String),
        (dumpSlice (List.replicate 40 true) os1 (wideMsb (List.replicate 40 true) i)
          (wideLsb i)).returned = true :=
  wide_assignment_contract (List.replicate 40 true) "" "top->a" (by decide)

end Promise
